import Mathlib

/-!
# reliable.c: a sliding-window reliable transport session

A shallow embedding of `src/reliable.c`.

Conventions of the embedding.

* `int` fields are `Int`; a conversion of an `int` to `uint32_t` is written
  `to_uint32` (reduction modulo `2^32`), the conversion of a `uint32_t` to
  `int` is `to_int`.  Header fields of a packet are stored as natural numbers
  and always read through `ntohs` / `ntohl`, which give the value of the
  16-bit / 32-bit field; byte order itself is not modelled.
* The collaborators of `rlib.h` are inputs and outputs of the functions: the
  checksum routine is the parameter `ck`; the value `conn_bufspace` reports is
  the argument `bufspace`; the clock read by `gettimeofday` is the argument
  `now` (one reading for one call); the application input source is the list
  `inputs` of the results its successive `conn_input` calls give; the calls of
  `conn_sendpkt`, `conn_output`, `conn_input` and `conn_destroy` are recorded,
  in call order, in a list of `Event`s.
* `rel_list` is the list of the live sessions, most recently created first.
-/

namespace Reliable

/-! ## Machine integers -/

/-- Conversion of an `int` to `uint32_t`. -/
def to_uint32 (x : Int) : Nat := (x % 4294967296).toNat

/-- Conversion of a `uint32_t` to `int` (two's complement). -/
def to_int (x : Nat) : Int :=
  if x % 4294967296 < 2147483648 then ((x % 4294967296 : Nat) : Int)
  else ((x % 4294967296 : Nat) : Int) - 4294967296

/-- Value of a 16-bit header field. -/
def ntohs (x : Nat) : Nat := x % 65536

/-- Value of a 32-bit header field. -/
def ntohl (x : Nat) : Nat := x % 4294967296

/-- A 16-bit header field holding the `int` value `x`. -/
def htons (x : Int) : Nat := (x % 65536).toNat

/-- A 32-bit header field holding the `int` value `x`. -/
def htonl (x : Int) : Nat := to_uint32 x

/-! ## Packets and packet buffers -/

/-- The `packet_t` of `rlib.h`: header fields and payload bytes. -/
structure packet_t where
  cksum : Nat
  len : Nat
  ackno : Nat
  seqno : Nat
  data : List Nat
deriving DecidableEq, Repr

/-- A buffered packet entry: the packet and the time of its last transmission. -/
structure buffer_node_t where
  packet : packet_t
  last_retransmit : Int
deriving DecidableEq, Repr

/-- A packet buffer: its entries from `head` on; `head = NULL` is `[]`. -/
abbrev buffer_t := List buffer_node_t

/-- Sequence number of a buffered entry. -/
def node_seq (node : buffer_node_t) : Nat := ntohl node.packet.seqno

/-- Modelled from the spec: `buffer_insert` of `buffer.c`, which is not among the
sources.  It adds an entry with the given timestamp and keeps the ascending
order of sequence numbers. -/
def buffer_insert : buffer_t → packet_t → Int → buffer_t
  | [], pkt, now_ms => [⟨pkt, now_ms⟩]
  | node :: rest, pkt, now_ms =>
    if ntohl pkt.seqno < node_seq node then ⟨pkt, now_ms⟩ :: node :: rest
    else node :: buffer_insert rest pkt now_ms

/-- Modelled from the spec: `buffer_remove` of `buffer.c`, which is not among the
sources.  It deletes every entry whose sequence number is at most the
threshold. -/
def buffer_remove (buffer : buffer_t) (threshold : Nat) : buffer_t :=
  buffer.filter (fun node => decide (¬ node_seq node ≤ threshold))

/-- Modelled from the spec: `buffer_contains` of `buffer.c`, which is not among
the sources.  It is 1 when an entry has the sequence number, else 0. -/
def buffer_contains (buffer : buffer_t) (seq : Nat) : Nat :=
  if buffer.any (fun node => decide (node_seq node = seq)) then 1 else 0

/-- Modelled from the spec: `buffer_get_first` of `buffer.c`, which is not among
the sources.  It is the lowest-sequence entry, if there is one. -/
def buffer_get_first (buffer : buffer_t) : Option buffer_node_t := buffer.head?

/-- Modelled from the spec: `buffer_remove_first` of `buffer.c`, which is not
among the sources.  It deletes the lowest-sequence entry. -/
def buffer_remove_first (buffer : buffer_t) : buffer_t := buffer.tail

/-- Modelled from the spec: `buffer_size` of `buffer.c`, which is not among the
sources.  It is the number of entries. -/
def buffer_size (buffer : buffer_t) : Nat := buffer.length

/-- Modelled from the spec: `buffer_clear` of `buffer.c`, which is not among the
sources.  It empties the buffer when the session is destroyed. -/
def buffer_clear (_buffer : buffer_t) : buffer_t := []

/-! ## Sessions -/

/-- The fields of `struct config_common` that `rel_create` reads. -/
structure config_common where
  window : Int
  timeout : Int
deriving DecidableEq, Repr

/-- The `struct reliable_state`; the links `next` and `prev` are the position
of the session in `rel_list`. -/
structure rel_t where
  c : Nat
  send_buffer : buffer_t
  send_unack : Int
  send_nxt : Int
  rec_buffer : buffer_t
  rec_nxt : Int
  timeout : Int
  windowSize : Int
  eof_self : Int
  eof_other : Int
  eof_ack : Int
deriving DecidableEq, Repr

/-- A call made to the connection handle. -/
inductive Event where
  | conn_sendpkt (c : Nat) (pkt : packet_t) (len : Nat)
  | conn_output (c : Nat) (data : List Nat) (len : Int)
  | conn_input (c : Nat) (max : Nat)
  | conn_destroy (c : Nat)
deriving DecidableEq, Repr

/-- What one call of `conn_input` gives: 0 (nothing available), -1 (end of
stream), or the bytes read, whose number is the return value. -/
inductive conn_input_result where
  | no_data
  | eof
  | bytes (buf : List Nat)
deriving DecidableEq, Repr

/-- The session after a call, whether the call destroyed (unlinked and freed)
it, and the calls made to the connection handle. -/
structure Outcome where
  r : rel_t
  destroyed : Bool
  events : List Event
deriving DecidableEq, Repr

/-- The session `rel_create` initialises, for the connection `c`. -/
def rel_create_session (c : Nat) (cc : config_common) : rel_t :=
  { c := c
    send_buffer := []
    send_unack := 1
    send_nxt := 1
    rec_buffer := []
    rec_nxt := 1
    timeout := cc.timeout
    windowSize := cc.window
    eof_self := 0
    eof_other := 0
    eof_ack := -1 }

/-- `rel_create`: `c` is the connection passed in (`none` for `NULL`), `created`
is what `conn_create` returns when it is called.  The new session is linked at
the head of `rel_list`. -/
def rel_create (rel_list : List rel_t) (c : Option Nat) (created : Option Nat)
    (cc : config_common) : Option rel_t × List rel_t :=
  match (match c with | some c0 => some c0 | none => created) with
  | none => (none, rel_list)
  | some c1 =>
    let r := rel_create_session c1 cc
    (some r, r :: rel_list)

/-- `rel_destroy` on the session itself: the connection is destroyed and both
buffers are cleared; the unlinking is `Outcome.destroyed`. -/
def rel_destroy (r : rel_t) : rel_t × List Event :=
  ({ r with send_buffer := buffer_clear r.send_buffer
            rec_buffer := buffer_clear r.rec_buffer },
   [Event.conn_destroy r.c])

/-- The loop of `rel_output`; every round removes an entry, so
`buffer_size r.rec_buffer` rounds are enough. -/
def rel_output_loop : Nat → rel_t → rel_t × List Event
  | 0, r => (r, [])
  | fuel + 1, r =>
    match buffer_get_first r.rec_buffer with
    | none => (r, [])
    | some first =>
      if buffer_size r.rec_buffer > 0 ∧ ntohl first.packet.seqno = to_uint32 r.rec_nxt then
        let p := first.packet
        let packet_len : Int := ntohs p.len
        let r1 := { r with rec_nxt := r.rec_nxt + 1 }
        let r2 := { r1 with rec_buffer := buffer_remove_first r1.rec_buffer }
        let r3 := if packet_len = 12 then { r2 with eof_other := 1 } else r2
        let rest := rel_output_loop fuel r3
        (rest.1, Event.conn_output r.c p.data (packet_len - 12) :: rest.2)
      else (r, [])

/-- `rel_output`: deliver the buffered packets that are next in sequence. -/
def rel_output (r : rel_t) : rel_t × List Event :=
  rel_output_loop (buffer_size r.rec_buffer) r

/-- The loop of `rel_read`.  The input source is the list of the results of its
successive `conn_input` calls; past the end of the list it has nothing
available. -/
def rel_read_loop (ck : packet_t → Nat → Nat) (now_ms : Int) :
    List conn_input_result → rel_t → rel_t × List Event
  | [], s =>
    if to_uint32 s.windowSize > buffer_size s.send_buffer ∧ s.eof_ack = -1 then
      (s, [Event.conn_input s.c 500])
    else (s, [])
  | input :: inputs, s =>
    if to_uint32 s.windowSize > buffer_size s.send_buffer ∧ s.eof_ack = -1 then
      match input with
      | conn_input_result.no_data => (s, [Event.conn_input s.c 500])
      | conn_input_result.eof =>
        let ack := htonl s.rec_nxt
        let seq := htonl s.send_nxt
        let s1 := { s with eof_ack := s.send_nxt }
        let s2 := { s1 with send_nxt := s1.send_nxt + 1 }
        let pkt0 : packet_t := { cksum := 0, len := htons 12, ackno := ack, seqno := seq, data := [] }
        let check := ck pkt0 (ntohs pkt0.len)
        let pkt := { pkt0 with cksum := check }
        let s3 := { s2 with send_buffer := buffer_insert s2.send_buffer pkt now_ms }
        (s3, [Event.conn_input s.c 500, Event.conn_sendpkt s.c pkt 12])
      | conn_input_result.bytes buf =>
        let input_ready : Int := buf.length
        if input_ready = 0 then (s, [Event.conn_input s.c 500])
        else
          let ack := htonl s.rec_nxt
          let seq := htonl s.send_nxt
          let s1 := { s with send_nxt := s.send_nxt + 1 }
          let pkt0 : packet_t :=
            { cksum := 0, len := htons (12 + input_ready), ackno := ack, seqno := seq, data := buf }
          let check := ck pkt0 (ntohs pkt0.len)
          let pkt := { pkt0 with cksum := check }
          let s2 := { s1 with send_buffer := buffer_insert s1.send_buffer pkt now_ms }
          let rest := rel_read_loop ck now_ms inputs s2
          (rest.1, Event.conn_input s.c 500 :: Event.conn_sendpkt s.c pkt (12 + buf.length) :: rest.2)
    else (s, [])

/-- `rel_read`: turn the available application input into data packets. -/
def rel_read (ck : packet_t → Nat → Nat) (now_ms : Int) (inputs : List conn_input_result)
    (s : rel_t) : rel_t × List Event :=
  rel_read_loop ck now_ms inputs s

/-- The scan `while (buffer_contains (rec_buffer, temp_seq)) temp_seq++`. -/
def ack_scan (buffer : buffer_t) : Nat → Int → Int
  | 0, temp_seq => temp_seq
  | fuel + 1, temp_seq =>
    if buffer_contains buffer (to_uint32 temp_seq) ≠ 0 then ack_scan buffer fuel (temp_seq + 1)
    else temp_seq

/-- The ACK branch of `rel_recvpkt` (`packet_len == 8`). -/
def rel_recvpkt_ack (ck : packet_t → Nat → Nat) (now_ms : Int)
    (inputs : List conn_input_result) (r : rel_t) (packet_ack : Nat) : Outcome :=
  let r1 := { r with send_buffer := buffer_remove r.send_buffer packet_ack }
  let r2 := { r1 with send_unack := to_int packet_ack }
  if packet_ack ≥ to_uint32 r2.eof_ack ∧ r2.eof_ack ≠ -1 then
    let r3 := { r2 with eof_self := 1 }
    if r3.eof_other = 1 then
      let o := rel_output r3
      let d := rel_destroy o.1
      ⟨d.1, true, o.2 ++ d.2⟩
    else
      let rd := rel_read ck now_ms inputs r3
      ⟨rd.1, false, rd.2⟩
  else
    let rd := rel_read ck now_ms inputs r2
    ⟨rd.1, false, rd.2⟩

/-- The ACK packet the DATA branch builds for the acknowledgment number
`temp_seq`. -/
def make_ackpkt (ck : packet_t → Nat → Nat) (temp_seq : Int) : packet_t :=
  let length := htons 8
  let ack := htonl temp_seq
  let ackpkt0 : packet_t := { cksum := 0, len := length, ackno := ack, seqno := 0, data := [] }
  let check := ck ackpkt0 (ntohs ackpkt0.len)
  { ackpkt0 with cksum := check }

/-- The session after the insertion step of the DATA branch. -/
def data_insert (now_ms : Int) (r : rel_t) (pkt : packet_t) (packet_seq : Nat) : rel_t :=
  if packet_seq < to_uint32 r.rec_nxt then r
  else if buffer_contains r.rec_buffer packet_seq = 0 then
    { r with rec_buffer := buffer_insert r.rec_buffer pkt now_ms }
  else r

/-- The value of `temp_seq` when the DATA branch builds its ACK; `r1` is the
session after the insertion step. -/
def data_temp_seq (r r1 : rel_t) (packet_seq : Nat) : Int :=
  if packet_seq < to_uint32 r.rec_nxt then r.rec_nxt
  else ack_scan r1.rec_buffer (buffer_size r1.rec_buffer + 1) r1.rec_nxt

/-- The delivery step of the DATA branch: `rel_output` is called when the packet
is the one expected next. -/
def data_deliver (r1 : rel_t) (packet_seq : Nat) : rel_t × List Event :=
  if packet_seq = to_uint32 r1.rec_nxt then rel_output r1 else (r1, [])

/-- The DATA branch of `rel_recvpkt`; `pkt` has its checksum field zeroed. -/
def rel_recvpkt_data (ck : packet_t → Nat → Nat) (bufspace : Nat) (now_ms : Int)
    (r : rel_t) (pkt : packet_t) (packet_len : Nat) : Outcome :=
  let packet_seq := ntohl pkt.seqno
  if packet_seq ≥ to_uint32 (r.rec_nxt + r.windowSize) then ⟨r, false, []⟩
  else if bufspace < packet_len then ⟨r, false, []⟩
  else
    let r1 := data_insert now_ms r pkt packet_seq
    let temp_seq := data_temp_seq r r1 packet_seq
    let ackpkt := make_ackpkt ck temp_seq
    let sent := [Event.conn_sendpkt r.c ackpkt 8]
    let o := data_deliver r1 packet_seq
    if o.1.eof_self = 1 ∧ o.1.eof_other = 1 then
      let d := rel_destroy o.1
      ⟨d.1, true, sent ++ o.2 ++ d.2⟩
    else ⟨o.1, false, sent ++ o.2⟩

/-- `rel_recvpkt`: `n` is the expected length of `pkt`. -/
def rel_recvpkt (ck : packet_t → Nat → Nat) (bufspace : Nat) (now_ms : Int)
    (inputs : List conn_input_result) (r : rel_t) (pkt : packet_t) (n : Nat) : Outcome :=
  let packet_len := ntohs pkt.len
  if packet_len ≠ n then ⟨r, false, []⟩
  else
    let packet_ack := ntohl pkt.ackno
    let check := pkt.cksum % 65536
    let pkt0 := { pkt with cksum := 0 }
    if check ≠ ck pkt0 (ntohs pkt0.len) % 65536 then ⟨r, false, []⟩
    else if packet_len = 8 then rel_recvpkt_ack ck now_ms inputs r packet_ack
    else rel_recvpkt_data ck bufspace now_ms r pkt0 packet_len

/-- The inner loop of `rel_timer` over the send buffer of one session. -/
def rel_timer_nodes (c : Nat) (timeout : Int) (now_ms : Int) : buffer_t → buffer_t × List Event
  | [] => ([], [])
  | curr_node :: rest =>
    let tl := rel_timer_nodes c timeout now_ms rest
    if curr_node.last_retransmit + timeout < now_ms then
      ({ curr_node with last_retransmit := now_ms } :: tl.1,
       Event.conn_sendpkt c curr_node.packet (ntohs curr_node.packet.len) :: tl.2)
    else (curr_node :: tl.1, tl.2)

/-- The body of the outer loop of `rel_timer` for one session. -/
def rel_timer_session (now_ms : Int) (current : rel_t) : rel_t × List Event :=
  let t := rel_timer_nodes current.c current.timeout now_ms current.send_buffer
  ({ current with send_buffer := t.1 }, t.2)

/-- `rel_timer`: retransmit, in every session of `rel_list`, the packets whose
timer has expired. -/
def rel_timer (now_ms : Int) : List rel_t → List rel_t × List Event
  | [] => ([], [])
  | current :: rest =>
    let t := rel_timer_session now_ms current
    let tl := rel_timer now_ms rest
    (t.1 :: tl.1, t.2 ++ tl.2)

/-! ## The registry -/

/-- `rel_recvpkt` called on the session at position `i` of `rel_list`; a
destroyed session is unlinked. -/
def recvpkt_at (ck : packet_t → Nat → Nat) (bufspace : Nat) (now_ms : Int)
    (inputs : List conn_input_result) (rel_list : List rel_t) (i : Nat) (pkt : packet_t)
    (n : Nat) : List rel_t × List Event :=
  match rel_list[i]? with
  | none => (rel_list, [])
  | some r =>
    let out := rel_recvpkt ck bufspace now_ms inputs r pkt n
    (if out.destroyed then rel_list.eraseIdx i else rel_list.set i out.r, out.events)

/-- `rel_read` called on the session at position `i` of `rel_list`. -/
def read_at (ck : packet_t → Nat → Nat) (now_ms : Int) (inputs : List conn_input_result)
    (rel_list : List rel_t) (i : Nat) : List rel_t × List Event :=
  match rel_list[i]? with
  | none => (rel_list, [])
  | some r =>
    let out := rel_read ck now_ms inputs r
    (rel_list.set i out.1, out.2)

/-- A configuration `rel_create` can be given: the window is a positive `int`. -/
def config_ok (cc : config_common) : Prop := 1 ≤ cc.window ∧ cc.window < 2147483648

instance (cc : config_common) : Decidable (config_ok cc) := by
  unfold config_ok; infer_instance

/-- The states a live session can be in: made by `rel_create`, then any calls of
`rel_recvpkt` that do not destroy it, of `rel_read` and of `rel_timer`. -/
inductive Reachable (ck : packet_t → Nat → Nat) : rel_t → Prop where
  | create (c : Nat) (cc : config_common) (h : config_ok cc) :
      Reachable ck (rel_create_session c cc)
  | recvpkt (r : rel_t) (bufspace : Nat) (now_ms : Int) (inputs : List conn_input_result)
      (pkt : packet_t) (n : Nat) (h : Reachable ck r)
      (hlive : (rel_recvpkt ck bufspace now_ms inputs r pkt n).destroyed = false) :
      Reachable ck (rel_recvpkt ck bufspace now_ms inputs r pkt n).r
  | read (r : rel_t) (now_ms : Int) (inputs : List conn_input_result) (h : Reachable ck r) :
      Reachable ck (rel_read ck now_ms inputs r).1
  | timer (r : rel_t) (now_ms : Int) (h : Reachable ck r) :
      Reachable ck (rel_timer_session now_ms r).1

/-- The states `rel_list` can be in: empty at first, then any calls of
`rel_create`, `rel_recvpkt`, `rel_read` and `rel_timer`. -/
inductive ListReachable (ck : packet_t → Nat → Nat) : List rel_t → Prop where
  | init : ListReachable ck []
  | create (rel_list : List rel_t) (c created : Option Nat) (cc : config_common)
      (h : ListReachable ck rel_list) (hcc : config_ok cc) :
      ListReachable ck (rel_create rel_list c created cc).2
  | recvpkt (rel_list : List rel_t) (bufspace : Nat) (now_ms : Int)
      (inputs : List conn_input_result) (i : Nat) (pkt : packet_t) (n : Nat)
      (h : ListReachable ck rel_list) :
      ListReachable ck (recvpkt_at ck bufspace now_ms inputs rel_list i pkt n).1
  | read (rel_list : List rel_t) (now_ms : Int) (inputs : List conn_input_result) (i : Nat)
      (h : ListReachable ck rel_list) :
      ListReachable ck (read_at ck now_ms inputs rel_list i).1
  | timer (rel_list : List rel_t) (now_ms : Int) (h : ListReachable ck rel_list) :
      ListReachable ck (rel_timer now_ms rel_list).1

/-- A packet that passes both checks of `rel_recvpkt` for the length `n`. -/
def valid_packet (ck : packet_t → Nat → Nat) (pkt : packet_t) (n : Nat) : Prop :=
  ntohs pkt.len = n ∧
    pkt.cksum % 65536 = ck { pkt with cksum := 0 } (ntohs pkt.len) % 65536

instance (ck : packet_t → Nat → Nat) (pkt : packet_t) (n : Nat) :
    Decidable (valid_packet ck pkt n) := by
  unfold valid_packet; infer_instance

/-! ## Observations on the calls made -/

/-- The packets passed to `conn_sendpkt`, with the lengths passed, in call
order. -/
def sent_packets : List Event → List (packet_t × Nat)
  | [] => []
  | Event.conn_sendpkt _ pkt len :: rest => (pkt, len) :: sent_packets rest
  | Event.conn_output _ _ _ :: rest => sent_packets rest
  | Event.conn_input _ _ :: rest => sent_packets rest
  | Event.conn_destroy _ :: rest => sent_packets rest

/-- The byte strings passed to `conn_output`, in call order: the first `len`
bytes of the data handed over. -/
def output_chunks : List Event → List (List Nat)
  | [] => []
  | Event.conn_output _ data len :: rest => data.take len.toNat :: output_chunks rest
  | Event.conn_sendpkt _ _ _ :: rest => output_chunks rest
  | Event.conn_input _ _ :: rest => output_chunks rest
  | Event.conn_destroy _ :: rest => output_chunks rest

/-- The number of calls of `conn_input`. -/
def input_calls : List Event → Nat
  | [] => 0
  | Event.conn_input _ _ :: rest => input_calls rest + 1
  | Event.conn_sendpkt _ _ _ :: rest => input_calls rest
  | Event.conn_output _ _ _ :: rest => input_calls rest
  | Event.conn_destroy _ :: rest => input_calls rest

/-- One arrival of a packet: the packet, the length `n` handed to `rel_recvpkt`,
and what the collaborators answer during the call. -/
structure arrival where
  pkt : packet_t
  n : Nat
  bufspace : Nat
  now_ms : Int
  inputs : List conn_input_result
deriving DecidableEq, Repr

/-- The event loop calling `rel_recvpkt` for each arrival in turn, for as long
as the session lives; the calls made are collected in order. -/
def recv_all (ck : packet_t → Nat → Nat) : rel_t → List arrival → Outcome
  | r, [] => ⟨r, false, []⟩
  | r, a :: rest =>
    let out := rel_recvpkt ck a.bufspace a.now_ms a.inputs r a.pkt a.n
    if out.destroyed then out
    else
      let tl := recv_all ck out.r rest
      ⟨tl.r, tl.destroyed, out.events ++ tl.events⟩

/-- The payload of a DATA packet: the bytes after the 12-byte header. -/
def payload_of (pkt : packet_t) : List Nat :=
  pkt.data.take ((ntohs pkt.len : Int) - 12).toNat

/-- Whether the sequence number `s` has been taken in by the session: delivered
already, or waiting in the receive buffer. -/
def taken_in (r : rel_t) (s : Nat) : Prop :=
  (s : Int) < r.rec_nxt ∨ ∃ e ∈ r.rec_buffer, node_seq e = s

/-! ## The rounds of `rel_read` -/

/-- The condition of the loop of `rel_read`. -/
def read_cond (s : rel_t) : Prop :=
  to_uint32 s.windowSize > buffer_size s.send_buffer ∧ s.eof_ack = -1

instance (s : rel_t) : Decidable (read_cond s) := by
  unfold read_cond; infer_instance

/-- The data packet a round of `rel_read` builds from the bytes `buf`. -/
def make_datapkt (ck : packet_t → Nat → Nat) (s : rel_t) (buf : List Nat) : packet_t :=
  let pkt0 : packet_t :=
    { cksum := 0, len := htons (12 + (buf.length : Int)), ackno := htonl s.rec_nxt,
      seqno := htonl s.send_nxt, data := buf }
  { pkt0 with cksum := ck pkt0 (ntohs pkt0.len) }

/-- The EOF packet `rel_read` builds at the end of the input stream. -/
def make_eofpkt (ck : packet_t → Nat → Nat) (s : rel_t) : packet_t :=
  let pkt0 : packet_t :=
    { cksum := 0, len := htons 12, ackno := htonl s.rec_nxt, seqno := htonl s.send_nxt,
      data := [] }
  { pkt0 with cksum := ck pkt0 (ntohs pkt0.len) }

/-- The session after a round of `rel_read` that read the bytes `buf`. -/
def read_data_step (ck : packet_t → Nat → Nat) (now_ms : Int) (s : rel_t) (buf : List Nat) :
    rel_t :=
  { s with send_nxt := s.send_nxt + 1
           send_buffer := buffer_insert s.send_buffer (make_datapkt ck s buf) now_ms }

/-- The session after the round of `rel_read` that met the end of the stream. -/
def read_eof_step (ck : packet_t → Nat → Nat) (now_ms : Int) (s : rel_t) : rel_t :=
  { s with eof_ack := s.send_nxt
           send_nxt := s.send_nxt + 1
           send_buffer := buffer_insert s.send_buffer (make_eofpkt ck s) now_ms }

/-- What `conn_input` may return for the buffer of 500 bytes it is given: at
most 500 bytes. -/
def chunk_ok : conn_input_result → Bool
  | conn_input_result.bytes buf => decide (buf.length ≤ 500)
  | _ => true

/-- Every result of `conn_input` in the list respects the buffer of 500 bytes. -/
def chunks_ok (inputs : List conn_input_result) : Prop := inputs.all chunk_ok = true

instance (inputs : List conn_input_result) : Decidable (chunks_ok inputs) := by
  unfold chunks_ok; infer_instance

/-! ## The timer -/

/-- Whether the retransmission timer of the entry `e` has expired at `now_ms`. -/
def expired (timeout now_ms : Int) (e : buffer_node_t) : Bool :=
  decide (e.last_retransmit + timeout < now_ms)

/-- The entry `e` after `rel_timer` has looked at it: stamped with `now_ms` when
its timer has expired, untouched otherwise. -/
def after_timer (timeout now_ms : Int) (e : buffer_node_t) : buffer_node_t :=
  if expired timeout now_ms e then { e with last_retransmit := now_ms } else e

/-- The retransmission of the entry `e` on the connection `c`. -/
def retransmission (c : Nat) (e : buffer_node_t) : Event :=
  Event.conn_sendpkt c e.packet (ntohs e.packet.len)

/-! ## Sequences of calls on one session -/

/-- A call of the event loop on a session, with what the collaborators answer
during the call. -/
inductive Call where
  | recvpkt (bufspace : Nat) (now_ms : Int) (inputs : List conn_input_result)
      (pkt : packet_t) (n : Nat)
  | read (now_ms : Int) (inputs : List conn_input_result)
  | timer (now_ms : Int)
deriving DecidableEq, Repr

/-- The outcome of one call on the session `r`. -/
def call_step (ck : packet_t → Nat → Nat) (r : rel_t) : Call → Outcome
  | Call.recvpkt bufspace now_ms inputs pkt n => rel_recvpkt ck bufspace now_ms inputs r pkt n
  | Call.read now_ms inputs =>
    ⟨(rel_read ck now_ms inputs r).1, false, (rel_read ck now_ms inputs r).2⟩
  | Call.timer now_ms =>
    ⟨(rel_timer_session now_ms r).1, false, (rel_timer_session now_ms r).2⟩

/-- The calls made one after the other, for as long as the session lives. -/
def run_calls (ck : packet_t → Nat → Nat) : rel_t → List Call → Outcome
  | r, [] => ⟨r, false, []⟩
  | r, c :: rest =>
    let out := call_step ck r c
    if out.destroyed then out
    else
      let tl := run_calls ck out.r rest
      ⟨tl.r, tl.destroyed, out.events ++ tl.events⟩

/-- The call `c0` on the session `s` made `rel_read` create the packet `pkt` and
transmit it with the length `len`: it is a call of `rel_read`, or a call of
`rel_recvpkt` with a valid ACK, whose ACK branch calls `rel_read`. -/
def created_by_read (ck : packet_t → Nat → Nat) (s : rel_t) (c0 : Call) (pkt : packet_t)
    (len : Nat) : Prop :=
  match c0 with
  | Call.read now_ms inputs =>
    chunks_ok inputs ∧ (pkt, len) ∈ sent_packets (rel_read ck now_ms inputs s).2
  | Call.recvpkt bufspace now_ms inputs p n =>
    chunks_ok inputs ∧ valid_packet ck p n ∧ ntohs p.len = 8 ∧
      (pkt, len) ∈ sent_packets (rel_recvpkt ck bufspace now_ms inputs s p n).events
  | Call.timer _ => False

/-- The packet `pkt`, created with the number `i`, is the only packet of the send
buffer that can carry this number. -/
def Tracked (pkt : packet_t) (i : Int) (r : rel_t) : Prop :=
  i < r.send_nxt ∧
    ∀ e ∈ r.send_buffer, e.packet = pkt ∨
      ∃ j : Int, 1 ≤ j ∧ j < r.send_nxt ∧ j ≠ i ∧ node_seq e = to_uint32 j

/-! ## Invariants -/

/-- Ascending order with unique sequence numbers. -/
def seq_sorted (buffer : buffer_t) : Prop :=
  buffer.Pairwise (fun a b => node_seq a < node_seq b)

/-- Number of leading entries of the buffer that carry the consecutive sequence
numbers `nxt`, `nxt + 1`, ... -/
def run_len : buffer_t → Int → Nat
  | [], _ => 0
  | node :: rest, nxt =>
    if node_seq node = to_uint32 nxt then run_len rest (nxt + 1) + 1 else 0

/-- The receive buffer is ordered and every entry lies in the window that
starts at `lo`. -/
def window_ok (buffer : buffer_t) (lo : Int) (rec_nxt windowSize : Int) : Prop :=
  seq_sorted buffer ∧
    ∀ e ∈ buffer, lo ≤ (node_seq e : Int) ∧ (node_seq e : Int) < rec_nxt + windowSize ∧
      (node_seq e : Int) + 1 < 4294967296

/-- What holds of every live session between two calls. -/
structure SessionInv (r : rel_t) : Prop where
  window_pos : 1 ≤ r.windowSize
  window_lt : r.windowSize < 2147483648
  rec_nxt_pos : 1 ≤ r.rec_nxt
  rec_nxt_lt : r.rec_nxt < 4294967296
  rec_window : window_ok r.rec_buffer (r.rec_nxt + 1) r.rec_nxt r.windowSize
  send_bound : (buffer_size r.send_buffer : Int) ≤ r.windowSize
  not_both : ¬ (r.eof_self = 1 ∧ r.eof_other = 1)

/-- What holds of the send side of every live session: sequence numbers are
assigned from 1 on, every packet in flight carries a number assigned before
`send_nxt`, and once the EOF packet was built it carries the last number
assigned. -/
structure SendInv (r : rel_t) : Prop where
  send_nxt_pos : 1 ≤ r.send_nxt
  eof_ack_eq : r.eof_ack = -1 ∨ r.eof_ack = r.send_nxt - 1
  send_seqs : ∀ e ∈ r.send_buffer, ∃ j : Int, 1 ≤ j ∧ j < r.send_nxt ∧ node_seq e = to_uint32 j

/-- What holds of a session that has sent no local EOF while it takes in the
DATA packets 1..N, the packet `s` carrying `payload s`. -/
def delivery_inv (N : Nat) (payload : Nat → List Nat) (r : rel_t) : Prop :=
  SessionInv r ∧ r.eof_self = 0 ∧ (N : Int) ≤ r.windowSize ∧ r.rec_nxt ≤ (N : Int) + 1 ∧
    ∀ e ∈ r.rec_buffer, node_seq e ≤ N ∧ payload_of e.packet = payload (node_seq e)

/-- An arrival of a valid DATA packet of length at least 12 with a sequence
number in 1..N and the payload fixed for that number, at a moment when
`conn_bufspace` reports enough space. -/
def arrival_ok (ck : packet_t → Nat → Nat) (N : Nat) (payload : Nat → List Nat)
    (a : arrival) : Prop :=
  valid_packet ck a.pkt a.n ∧ 12 ≤ ntohs a.pkt.len ∧ 1 ≤ ntohl a.pkt.seqno ∧
    ntohl a.pkt.seqno ≤ N ∧ payload_of a.pkt = payload (ntohl a.pkt.seqno) ∧
    ntohs a.pkt.len ≤ a.bufspace

instance (ck : packet_t → Nat → Nat) (N : Nat) (payload : Nat → List Nat) (a : arrival) :
    Decidable (arrival_ok ck N payload a) := by
  unfold arrival_ok; infer_instance

/-! ## Concrete data for the evaluations -/

/-- A checksum routine for the concrete evaluations. -/
def example_cksum (pkt : packet_t) (len : Nat) : Nat :=
  (pkt.len + pkt.ackno + pkt.seqno + pkt.data.sum + len) % 65536

/-- A valid DATA packet with the given sequence number and payload. -/
def example_data (seq : Nat) (payload : List Nat) : packet_t :=
  let pkt0 : packet_t :=
    { cksum := 0, len := 12 + payload.length, ackno := 1, seqno := seq, data := payload }
  { pkt0 with cksum := example_cksum pkt0 (12 + payload.length) }

/-- A valid ACK packet with the given acknowledgment number. -/
def example_ack (ackno : Nat) : packet_t :=
  let pkt0 : packet_t := { cksum := 0, len := 8, ackno := ackno, seqno := 0, data := [] }
  { pkt0 with cksum := example_cksum pkt0 8 }

/-- A fresh session with window 4 and timeout 1000. -/
def example_session : rel_t := rel_create_session 0 { window := 4, timeout := 1000 }

/-- The fresh session after `rel_read` met the end of the input stream: its EOF
packet has sequence number 1. -/
def example_eof_session : rel_t :=
  (rel_read example_cksum 0 [conn_input_result.eof] example_session).1

/-- The fresh session after `rel_read` read one chunk and then met the end of the
input stream: the data packet 1 and the EOF packet 2 are in flight. -/
def example_closing : rel_t × List Event :=
  rel_read example_cksum 0 [conn_input_result.bytes [1], conn_input_result.eof] example_session

/-- A fresh peer session receives the data packet 1 of `example_closing`; the
EOF packet 2 is lost on the way. -/
def example_peer_outcome : Outcome :=
  rel_recvpkt example_cksum 1000 0 [] example_session (example_data 1 [1]) 13

/-- A registry with one fresh session of window 4. -/
def example_list0 : List rel_t :=
  (rel_create [] (some 0) none { window := 4, timeout := 1000 }).2

/-- The registry after `rel_read` found five chunks of input: four packets are
in flight. -/
def example_list1 : List rel_t :=
  (read_at example_cksum 0
    [conn_input_result.bytes [1], conn_input_result.bytes [2], conn_input_result.bytes [3],
      conn_input_result.bytes [4], conn_input_result.bytes [5]] example_list0 0).1

/-- The registry after the DATA packet 2 then arrived out of order. -/
def example_list2 : List rel_t :=
  (recvpkt_at example_cksum 100 0 [] example_list1 0 (example_data 2 [7]) 13).1

/-- A registry whose session has sent its EOF packet (sequence number 1). -/
def example_list3 : List rel_t :=
  (read_at example_cksum 0 [conn_input_result.eof] example_list0 0).1

/-- The registry after the ACK 2 for that EOF packet arrived: `eof_self = 1`. -/
def example_list4 : List rel_t :=
  (recvpkt_at example_cksum 100 0 [] example_list3 0 (example_ack 2) 8).1

/-- The session of `example_list2`. -/
def example_session2 : rel_t :=
  (rel_recvpkt example_cksum 100 0 []
    (rel_read example_cksum 0
      [conn_input_result.bytes [1], conn_input_result.bytes [2], conn_input_result.bytes [3],
        conn_input_result.bytes [4], conn_input_result.bytes [5]] example_session).1
    (example_data 2 [7]) 13).r

/-- The session of `example_list4`. -/
def example_session4 : rel_t :=
  (rel_recvpkt example_cksum 100 0 [] example_eof_session (example_ack 2) 8).r

/-- The fresh session after `rel_read` sent one data packet (sequence number 1). -/
def example_sent_session : rel_t :=
  (rel_read example_cksum 0 [conn_input_result.bytes [1]] example_session).1

/-- The scenario of the spec: a fresh session with window 4 receives the DATA
packets 2, 1, 3 in this order.  This is the outcome of the first arrival. -/
def example_outcome1 : Outcome :=
  rel_recvpkt example_cksum 1000 0 [] example_session (example_data 2 [7]) 13

/-- The outcome of the second arrival of the scenario. -/
def example_outcome2 : Outcome :=
  rel_recvpkt example_cksum 1000 0 [] example_outcome1.r (example_data 1 [5]) 13

/-- The outcome of the third arrival of the scenario. -/
def example_outcome3 : Outcome :=
  rel_recvpkt example_cksum 1000 0 [] example_outcome2.r (example_data 3 [9]) 13

/-- The acknowledgment numbers transmitted by the three calls of the scenario. -/
def example_scenario_acks : List (List Nat) :=
  [example_outcome1, example_outcome2, example_outcome3].map (fun o =>
    (sent_packets o.events).map (fun p => ntohl p.1.ackno))

/-- The payload fixed for the sequence number `s` in the delivery example. -/
def example_payload (s : Nat) : List Nat := [10 * s, s]

/-- An arrival of the DATA packet `s` of the delivery example. -/
def example_arrival (s : Nat) : arrival :=
  { pkt := example_data s (example_payload s), n := 14, bufspace := 14, now_ms := 0, inputs := [] }

/-- The arrivals of the delivery example: 2, 1, 2 again, 3, 1 again. -/
def example_arrivals : List arrival :=
  [example_arrival 2, example_arrival 1, example_arrival 2, example_arrival 3, example_arrival 1]

/-- A packet of 9 bytes with a correct length field and checksum: the header of
an ACK and one more byte. -/
def example_short : packet_t :=
  let pkt0 : packet_t := { cksum := 0, len := 9, ackno := 1, seqno := 1, data := [] }
  { pkt0 with cksum := example_cksum pkt0 9 }

/-- The session that sent the packets 1 and 2 and then received the ACK 3. -/
def example_acked_session : rel_t :=
  (rel_recvpkt example_cksum 0 0 []
    (rel_read example_cksum 0 [conn_input_result.bytes [1], conn_input_result.bytes [2]]
      example_session).1 (example_ack 3) 8).r

/-- The session that buffered the DATA packets 2 and 4 and has just inserted
the EOF packet 1: the state in which `rel_recvpkt` calls `rel_output`. -/
def example_output_session : rel_t :=
  data_insert 0
    (rel_recvpkt example_cksum 1000 0 [] example_outcome1.r (example_data 4 [9]) 13).r
    { example_data 1 [] with cksum := 0 } 1

/-- The fresh session with window 4 after `rel_read` drained three chunks of 500
bytes followed by "no data available". -/
def example_drained : rel_t × List Event :=
  rel_read example_cksum 0
    [conn_input_result.bytes (List.replicate 500 7), conn_input_result.bytes (List.replicate 500 8),
      conn_input_result.bytes (List.replicate 500 9), conn_input_result.no_data]
    example_session

/-- The calls of the retransmission example: a late duplicate of the ACK 1, more
input while the window is open, a timer tick, the DATA packet 1 of the peer. -/
def example_calls : List Call :=
  [Call.recvpkt 1000 5 [conn_input_result.bytes [3]] (example_ack 1) 8,
   Call.read 6 [conn_input_result.bytes [4]],
   Call.timer 2000,
   Call.recvpkt 1000 2001 [] (example_data 1 [5]) 13]

/-! ## Packet validation -/

theorem set_of_getElem? {α : Type} :
    ∀ (l : List α) (i : Nat) (a : α), l[i]? = some a → l.set i a = l
  | [], _, _, h => by simp at h
  | x :: l, 0, a, h => by
    simp only [List.getElem?_cons_zero, Option.some.injEq] at h
    simp [h]
  | x :: l, i + 1, a, h => by
    simp only [List.getElem?_cons_succ] at h
    simp [set_of_getElem? l i a h]

theorem rel_recvpkt_of_invalid (ck : packet_t → Nat → Nat) (bufspace : Nat) (now_ms : Int)
    (inputs : List conn_input_result) (r : rel_t) (pkt : packet_t) (n : Nat)
    (h : ¬ valid_packet ck pkt n) :
    rel_recvpkt ck bufspace now_ms inputs r pkt n = ⟨r, false, []⟩ := by
  unfold valid_packet at h
  unfold rel_recvpkt
  by_cases hn : ntohs pkt.len = n
  · have hc : pkt.cksum % 65536 ≠ ck { pkt with cksum := 0 } (ntohs pkt.len) % 65536 :=
      fun hc => h ⟨hn, hc⟩
    simp only [hn, ne_eq, not_true_eq_false, if_false]
    rw [← hn]
    simp only [hc, not_false_eq_true, if_true]
  · simp only [ne_eq, hn, not_false_eq_true, if_true]

theorem rel_recvpkt_of_valid (ck : packet_t → Nat → Nat) (bufspace : Nat) (now_ms : Int)
    (inputs : List conn_input_result) (r : rel_t) (pkt : packet_t) (n : Nat)
    (h : valid_packet ck pkt n) :
    rel_recvpkt ck bufspace now_ms inputs r pkt n =
      if ntohs pkt.len = 8 then rel_recvpkt_ack ck now_ms inputs r (ntohl pkt.ackno)
      else rel_recvpkt_data ck bufspace now_ms r { pkt with cksum := 0 } (ntohs pkt.len) := by
  obtain ⟨hn, hc⟩ := h
  unfold rel_recvpkt
  simp only [hn, ne_eq, not_true_eq_false, if_false]
  rw [← hn]
  simp only [hc, not_true_eq_false, if_false]

/-- C2: a packet whose length field differs from `n`, or whose stored checksum
differs from the checksum of the packet with the checksum field zeroed, is
dropped by `rel_recvpkt` without effect: every field of the session is
unchanged, the session stays in `rel_list`, and no call of `conn_sendpkt`,
`conn_output` or `conn_input` (nor any other call on the connection) is made. -/
theorem C2_corrupt_packet_dropped (ck : packet_t → Nat → Nat) (bufspace : Nat) (now_ms : Int)
    (inputs : List conn_input_result) (r : rel_t) (pkt : packet_t) (n : Nat)
    (h : ntohs pkt.len ≠ n ∨
      pkt.cksum % 65536 ≠ ck { pkt with cksum := 0 } (ntohs pkt.len) % 65536) :
    rel_recvpkt ck bufspace now_ms inputs r pkt n = ⟨r, false, []⟩ ∧
    ∀ (rel_list : List rel_t) (i : Nat), rel_list[i]? = some r →
      recvpkt_at ck bufspace now_ms inputs rel_list i pkt n = (rel_list, []) := by
  have h1 : rel_recvpkt ck bufspace now_ms inputs r pkt n = ⟨r, false, []⟩ := by
    apply rel_recvpkt_of_invalid
    intro hv
    rcases h with h | h
    · exact h hv.1
    · exact h hv.2
  refine ⟨h1, ?_⟩
  intro rel_list i hi
  unfold recvpkt_at
  rw [hi]
  simp only [h1]
  simp only [Bool.false_eq_true, if_false]
  rw [set_of_getElem? rel_list i r hi]

/-- Witness of C2: a DATA packet whose checksum field was overwritten, received
by the session at the head of a registry of two sessions. -/
theorem C2_corrupt_packet_dropped_witness :
    (ntohs ({ example_data 1 [7] with cksum := 0 } : packet_t).len ≠ 13 ∨
      ({ example_data 1 [7] with cksum := 0 } : packet_t).cksum % 65536 ≠
        example_cksum { ({ example_data 1 [7] with cksum := 0 } : packet_t) with cksum := 0 }
          (ntohs ({ example_data 1 [7] with cksum := 0 } : packet_t).len) % 65536) ∧
    (rel_recvpkt example_cksum 100 5 [conn_input_result.bytes [1]] example_eof_session
        { example_data 1 [7] with cksum := 0 } 13 = ⟨example_eof_session, false, []⟩ ∧
      ∀ (rel_list : List rel_t) (i : Nat), rel_list[i]? = some example_eof_session →
        recvpkt_at example_cksum 100 5 [conn_input_result.bytes [1]] rel_list i
          { example_data 1 [7] with cksum := 0 } 13 = (rel_list, [])) :=
  ⟨by decide,
   C2_corrupt_packet_dropped example_cksum 100 5 [conn_input_result.bytes [1]]
     example_eof_session { example_data 1 [7] with cksum := 0 } 13 (by decide)⟩

theorem rel_recvpkt_data_accept (ck : packet_t → Nat → Nat) (bufspace : Nat) (now_ms : Int)
    (r : rel_t) (pkt : packet_t) (packet_len : Nat)
    (hwin : ntohl pkt.seqno < to_uint32 (r.rec_nxt + r.windowSize))
    (hspace : packet_len ≤ bufspace) :
    rel_recvpkt_data ck bufspace now_ms r pkt packet_len =
      if (data_deliver (data_insert now_ms r pkt (ntohl pkt.seqno)) (ntohl pkt.seqno)).1.eof_self = 1 ∧
          (data_deliver (data_insert now_ms r pkt (ntohl pkt.seqno)) (ntohl pkt.seqno)).1.eof_other = 1
      then
        ⟨(rel_destroy (data_deliver (data_insert now_ms r pkt (ntohl pkt.seqno))
            (ntohl pkt.seqno)).1).1, true,
          Event.conn_sendpkt r.c (make_ackpkt ck (data_temp_seq r
              (data_insert now_ms r pkt (ntohl pkt.seqno)) (ntohl pkt.seqno))) 8 ::
            ((data_deliver (data_insert now_ms r pkt (ntohl pkt.seqno)) (ntohl pkt.seqno)).2 ++
              (rel_destroy (data_deliver (data_insert now_ms r pkt (ntohl pkt.seqno))
                (ntohl pkt.seqno)).1).2)⟩
      else
        ⟨(data_deliver (data_insert now_ms r pkt (ntohl pkt.seqno)) (ntohl pkt.seqno)).1, false,
          Event.conn_sendpkt r.c (make_ackpkt ck (data_temp_seq r
              (data_insert now_ms r pkt (ntohl pkt.seqno)) (ntohl pkt.seqno))) 8 ::
            (data_deliver (data_insert now_ms r pkt (ntohl pkt.seqno)) (ntohl pkt.seqno)).2⟩ := by
  unfold rel_recvpkt_data
  have h1 : ¬ ntohl pkt.seqno ≥ to_uint32 (r.rec_nxt + r.windowSize) := by omega
  have h2 : ¬ bufspace < packet_len := by omega
  simp only [h1, h2, if_false, List.singleton_append, List.cons_append, List.nil_append]

theorem rel_recvpkt_data_events (ck : packet_t → Nat → Nat) (bufspace : Nat) (now_ms : Int)
    (r : rel_t) (pkt : packet_t) (packet_len : Nat)
    (hwin : ntohl pkt.seqno < to_uint32 (r.rec_nxt + r.windowSize))
    (hspace : packet_len ≤ bufspace) :
    ∃ rest, (rel_recvpkt_data ck bufspace now_ms r pkt packet_len).events =
      Event.conn_sendpkt r.c
        (make_ackpkt ck (data_temp_seq r (data_insert now_ms r pkt (ntohl pkt.seqno))
          (ntohl pkt.seqno))) 8 :: rest := by
  rw [rel_recvpkt_data_accept ck bufspace now_ms r pkt packet_len hwin hspace]
  split
  · exact ⟨_, rfl⟩
  · exact ⟨_, rfl⟩

theorem rel_recvpkt_data_drop (ck : packet_t → Nat → Nat) (bufspace : Nat) (now_ms : Int)
    (r : rel_t) (pkt : packet_t) (packet_len : Nat)
    (hspace : bufspace < packet_len) :
    rel_recvpkt_data ck bufspace now_ms r pkt packet_len = ⟨r, false, []⟩ := by
  unfold rel_recvpkt_data
  simp only [hspace, if_true, ite_self]

/-- C10 (amended): for every session and every valid DATA packet whose sequence
number is below `rec_nxt + windowSize`, `rel_recvpkt` drops the packet (state
unchanged, nothing buffered, no call made) if and only if the space reported by
`conn_bufspace` is smaller than the length field of the packet, header
included; whenever the reported space is at least the length field the packet
is processed and an ACK of length 8 is transmitted first. -/
theorem C10_backpressure_drop (ck : packet_t → Nat → Nat) (bufspace : Nat) (now_ms : Int)
    (inputs : List conn_input_result) (r : rel_t) (pkt : packet_t) (n : Nat)
    (hv : valid_packet ck pkt n) (hdata : ntohs pkt.len ≠ 8)
    (hwin : ntohl pkt.seqno < to_uint32 (r.rec_nxt + r.windowSize)) :
    (rel_recvpkt ck bufspace now_ms inputs r pkt n = ⟨r, false, []⟩ ↔ bufspace < ntohs pkt.len) ∧
    (ntohs pkt.len ≤ bufspace →
      ∃ ackpkt rest, ntohs ackpkt.len = 8 ∧
        (rel_recvpkt ck bufspace now_ms inputs r pkt n).events =
          Event.conn_sendpkt r.c ackpkt 8 :: rest) := by
  rw [rel_recvpkt_of_valid ck bufspace now_ms inputs r pkt n hv]
  simp only [hdata, if_false]
  have key : ntohs pkt.len ≤ bufspace →
      ∃ ackpkt rest, ntohs ackpkt.len = 8 ∧
        (rel_recvpkt_data ck bufspace now_ms r { pkt with cksum := 0 } (ntohs pkt.len)).events =
          Event.conn_sendpkt r.c ackpkt 8 :: rest := by
    intro hs
    obtain ⟨rest, hr⟩ := rel_recvpkt_data_events ck bufspace now_ms r { pkt with cksum := 0 }
      (ntohs pkt.len) hwin hs
    exact ⟨_, rest, by simp [make_ackpkt, htons, ntohs], hr⟩
  refine ⟨⟨?_, ?_⟩, key⟩
  · intro hdrop
    by_contra hs
    obtain ⟨a, rest, _, hr⟩ := key (by omega)
    rw [hdrop] at hr
    simp at hr
  · intro hs
    exact rel_recvpkt_data_drop ck bufspace now_ms r _ _ hs

/-- Witness of C10 (amended): a 13-byte DATA packet and 13 bytes of space. -/
theorem C10_backpressure_drop_witness :
    (rel_recvpkt example_cksum 13 0 [] example_session (example_data 1 [7]) 13 =
        ⟨example_session, false, []⟩ ↔ 13 < ntohs (example_data 1 [7]).len) ∧
    (ntohs (example_data 1 [7]).len ≤ 13 →
      ∃ ackpkt rest, ntohs ackpkt.len = 8 ∧
        (rel_recvpkt example_cksum 13 0 [] example_session (example_data 1 [7]) 13).events =
          Event.conn_sendpkt example_session.c ackpkt 8 :: rest) :=
  C10_backpressure_drop example_cksum 13 0 [] example_session (example_data 1 [7]) 13
    (by decide) (by decide) (by decide)

/-- C10 as stated fails: a valid DATA packet in the window with a 1-byte payload
(length field 13) is dropped when `conn_bufspace` reports 5 bytes, although 5 is
not smaller than the payload length 1. -/
theorem C10_counterexample :
    valid_packet example_cksum (example_data 1 [7]) 13 ∧
    ntohs (example_data 1 [7]).len ≠ 8 ∧
    ntohl (example_data 1 [7]).seqno <
      to_uint32 (example_session.rec_nxt + example_session.windowSize) ∧
    ¬ (rel_recvpkt example_cksum 5 0 [] example_session (example_data 1 [7]) 13 =
        ⟨example_session, false, []⟩ ↔
      ((5 : Nat) : Int) < (ntohs (example_data 1 [7]).len : Int) - 12) := by
  decide

/-- C8 at the failing input: the session has the data packet 1 and its EOF
packet 2 in flight (`eof_ack = 2`).  The peer receives packet 1 only and replies,
by the DATA branch of `rel_recvpkt`, with the acknowledgment number 2, which is
not greater than `eof_ack`; it has not seen the EOF (`eof_other = 0`).  On this
ACK `rel_recvpkt` sets `eof_self` to 1. -/
theorem C8_eof_self_set_by_ack_equal_to_eof_ack :
    Reachable example_cksum example_closing.1 ∧
    example_closing.1.eof_ack = 2 ∧ example_closing.1.eof_self = 0 ∧
    sent_packets example_closing.2 =
      [(example_data 1 [1], 13), (example_data 2 [], 12)] ∧
    sent_packets example_peer_outcome.events = [(example_ack 2, 8)] ∧
    example_peer_outcome.r.eof_other = 0 ∧
    valid_packet example_cksum (example_ack 2) 8 ∧
    (rel_recvpkt example_cksum 0 0 [] example_closing.1 (example_ack 2) 8).r.eof_self = 1 ∧
    ¬ ((ntohl (example_ack 2).ackno : Int) > example_closing.1.eof_ack) := by
  refine ⟨?_, by decide, by decide, by decide, by decide, by decide, by decide, by decide,
    by decide⟩
  exact Reachable.read _ 0 [conn_input_result.bytes [1], conn_input_result.eof]
    (Reachable.create 0 _ (by decide))

/-! ## Packet buffers -/

theorem to_uint32_of_range (x : Int) (h0 : 0 ≤ x) (h1 : x < 4294967296) :
    (to_uint32 x : Int) = x := by
  unfold to_uint32; omega

theorem buffer_contains_eq_zero (buffer : buffer_t) (seq : Nat) :
    buffer_contains buffer seq = 0 ↔ ∀ e ∈ buffer, node_seq e ≠ seq := by
  unfold buffer_contains
  cases h : buffer.any (fun node => decide (node_seq node = seq)) with
  | true =>
    simp only [if_true]
    simp only [List.any_eq_true, decide_eq_true_eq] at h
    obtain ⟨e, he, hs⟩ := h
    constructor
    · intro h0; omega
    · intro hall; exact absurd hs (hall e he)
  | false =>
    simp only [Bool.false_eq_true, if_false, true_iff]
    intro e he hs
    have : buffer.any (fun node => decide (node_seq node = seq)) = true := by
      simp only [List.any_eq_true, decide_eq_true_eq]
      exact ⟨e, he, hs⟩
    rw [h] at this
    exact Bool.false_ne_true this

theorem buffer_contains_ne_zero (buffer : buffer_t) (seq : Nat) :
    buffer_contains buffer seq ≠ 0 ↔ ∃ e ∈ buffer, node_seq e = seq := by
  rw [Ne, buffer_contains_eq_zero]
  push_neg
  rfl

theorem mem_buffer_insert (buffer : buffer_t) (pkt : packet_t) (now_ms : Int)
    (e : buffer_node_t) :
    e ∈ buffer_insert buffer pkt now_ms ↔ e = ⟨pkt, now_ms⟩ ∨ e ∈ buffer := by
  induction buffer with
  | nil => simp [buffer_insert]
  | cons node rest ih =>
    unfold buffer_insert
    split
    · simp
    · simp only [List.mem_cons, ih]
      tauto

theorem buffer_size_insert (buffer : buffer_t) (pkt : packet_t) (now_ms : Int) :
    buffer_size (buffer_insert buffer pkt now_ms) = buffer_size buffer + 1 := by
  unfold buffer_size
  induction buffer with
  | nil => simp [buffer_insert]
  | cons node rest ih =>
    unfold buffer_insert
    split
    · simp
    · simp [ih]

theorem seq_sorted_insert (buffer : buffer_t) (pkt : packet_t) (now_ms : Int)
    (hs : seq_sorted buffer) (hnew : ∀ e ∈ buffer, node_seq e ≠ ntohl pkt.seqno) :
    seq_sorted (buffer_insert buffer pkt now_ms) := by
  unfold seq_sorted at *
  induction buffer with
  | nil => simp [buffer_insert]
  | cons node rest ih =>
    unfold buffer_insert
    have hn := hnew node (List.mem_cons_self _ _)
    rw [List.pairwise_cons] at hs
    split
    · rename_i hlt
      rw [List.pairwise_cons]
      refine ⟨?_, List.pairwise_cons.mpr hs⟩
      intro b hb
      rcases List.mem_cons.mp hb with rfl | hb
      · exact hlt
      · have := hs.1 b hb
        show ntohl pkt.seqno < node_seq b
        omega
    · rename_i hge
      rw [List.pairwise_cons]
      refine ⟨?_, ih hs.2 (fun e he => hnew e (List.mem_cons_of_mem _ he))⟩
      intro b hb
      rcases (mem_buffer_insert rest pkt now_ms b).mp hb with rfl | hb
      · show node_seq node < ntohl pkt.seqno
        omega
      · exact hs.1 b hb

theorem mem_buffer_remove (buffer : buffer_t) (threshold : Nat) (e : buffer_node_t) :
    e ∈ buffer_remove buffer threshold ↔ e ∈ buffer ∧ threshold < node_seq e := by
  unfold buffer_remove
  simp [List.mem_filter]

theorem buffer_size_remove (buffer : buffer_t) (threshold : Nat) :
    buffer_size (buffer_remove buffer threshold) ≤ buffer_size buffer := by
  unfold buffer_size buffer_remove
  exact List.length_filter_le _ _

/-! ## Output delivery -/

theorem rel_output_loop_eq : ∀ (fuel : Nat) (r : rel_t), buffer_size r.rec_buffer ≤ fuel →
    rel_output_loop fuel r =
      ({ r with
          rec_nxt := r.rec_nxt + run_len r.rec_buffer r.rec_nxt
          rec_buffer := r.rec_buffer.drop (run_len r.rec_buffer r.rec_nxt)
          eof_other :=
            if (r.rec_buffer.take (run_len r.rec_buffer r.rec_nxt)).any
                (fun e => decide (ntohs e.packet.len = 12)) then 1
            else r.eof_other },
       (r.rec_buffer.take (run_len r.rec_buffer r.rec_nxt)).map
          (fun e => Event.conn_output r.c e.packet.data ((ntohs e.packet.len : Int) - 12))) := by
  intro fuel
  induction fuel with
  | zero =>
    intro r h
    obtain ⟨c, sb, su, sn, rb, rn, tmo, w, es, eo, ea⟩ := r
    simp only [buffer_size] at h
    have hrb : rb = [] := List.length_eq_zero.mp (by omega)
    subst hrb
    simp [rel_output_loop, run_len]
  | succ fuel ih =>
    intro r h
    obtain ⟨c, sb, su, sn, rb, rn, tmo, w, es, eo, ea⟩ := r
    cases rb with
    | nil => simp [rel_output_loop, run_len, buffer_get_first]
    | cons first rest =>
      simp only [buffer_size, List.length_cons] at h
      by_cases hseq : node_seq first = to_uint32 rn
      · have hseq2 : ntohl first.packet.seqno = to_uint32 rn := hseq
        simp only [rel_output_loop, buffer_get_first, List.head?_cons, buffer_size,
          List.length_cons, hseq2, and_true, Nat.succ_pos, gt_iff_lt, if_true,
          buffer_remove_first, List.tail_cons, run_len, hseq]
        by_cases h12 : ntohs first.packet.len = 12
        · have h12i : ((ntohs first.packet.len : Nat) : Int) = 12 := by omega
          simp only [h12i, if_true]
          rw [ih _ (by simp only [buffer_size]; omega)]
          simp only [List.take_succ_cons, List.drop_succ_cons, List.any_cons, h12, List.map_cons,
            Nat.cast_add, Nat.cast_one, decide_True, decide_False, Bool.true_or, Bool.false_or, if_true]
          refine Prod.ext ?_ rfl
          simp only [rel_t.mk.injEq, true_and, and_true]
          omega
        · have h12i : ¬ ((ntohs first.packet.len : Nat) : Int) = 12 := by omega
          simp only [h12i, if_false]
          rw [ih _ (by simp only [buffer_size]; omega)]
          simp only [List.take_succ_cons, List.drop_succ_cons, List.any_cons, h12, List.map_cons,
            Nat.cast_add, Nat.cast_one, decide_True, decide_False, Bool.true_or, Bool.false_or, if_true]
          refine Prod.ext ?_ rfl
          simp only [rel_t.mk.injEq, true_and, and_true]
          omega
      · have hseq2 : ¬ ntohl first.packet.seqno = to_uint32 rn := hseq
        simp [rel_output_loop, buffer_get_first, run_len, hseq, hseq2]

theorem rel_output_eq (r : rel_t) :
    rel_output r =
      ({ r with
          rec_nxt := r.rec_nxt + run_len r.rec_buffer r.rec_nxt
          rec_buffer := r.rec_buffer.drop (run_len r.rec_buffer r.rec_nxt)
          eof_other :=
            if (r.rec_buffer.take (run_len r.rec_buffer r.rec_nxt)).any
                (fun e => decide (ntohs e.packet.len = 12)) then 1
            else r.eof_other },
       (r.rec_buffer.take (run_len r.rec_buffer r.rec_nxt)).map
          (fun e => Event.conn_output r.c e.packet.data ((ntohs e.packet.len : Int) - 12))) :=
  rel_output_loop_eq _ r (le_refl _)

theorem run_len_le (buffer : buffer_t) : ∀ (nxt : Int), run_len buffer nxt ≤ buffer.length := by
  induction buffer with
  | nil => intro nxt; simp [run_len]
  | cons node rest ih =>
    intro nxt
    unfold run_len
    split
    · have := ih (nxt + 1)
      simp only [List.length_cons]
      omega
    · omega

theorem run_len_contains (buffer : buffer_t) :
    ∀ (nxt : Int) (j : Nat), j < run_len buffer nxt →
      ∃ e ∈ buffer, node_seq e = to_uint32 (nxt + j) := by
  induction buffer with
  | nil => intro nxt j h; simp [run_len] at h
  | cons node rest ih =>
    intro nxt j h
    unfold run_len at h
    split at h
    · rename_i hseq
      cases j with
      | zero => exact ⟨node, List.mem_cons_self _ _, by simpa using hseq⟩
      | succ j =>
        obtain ⟨e, he, hs⟩ := ih (nxt + 1) j (by omega)
        refine ⟨e, List.mem_cons_of_mem _ he, ?_⟩
        rw [hs]
        congr 1
        push_cast
        omega
    · omega

theorem run_len_drop (buffer : buffer_t) :
    ∀ (nxt rec_nxt windowSize : Int), 0 ≤ nxt → nxt < 4294967296 →
      window_ok buffer nxt rec_nxt windowSize →
      nxt + run_len buffer nxt < 4294967296 ∧
      (∀ e ∈ buffer.drop (run_len buffer nxt), nxt + run_len buffer nxt < (node_seq e : Int)) ∧
      (∀ e ∈ buffer.take (run_len buffer nxt), (node_seq e : Int) < nxt + run_len buffer nxt ∧
        nxt ≤ (node_seq e : Int)) := by
  induction buffer with
  | nil => intro nxt _ _ h0 h1 _; simp [run_len]; omega
  | cons node rest ih =>
    intro nxt rec_nxt windowSize h0 h1 hw
    obtain ⟨hs, hb⟩ := hw
    unfold seq_sorted at hs
    rw [List.pairwise_cons] at hs
    have hnode := hb node (List.mem_cons_self _ _)
    have hu := to_uint32_of_range nxt h0 h1
    unfold run_len
    split
    · rename_i hseq
      have hrest : window_ok rest (nxt + 1) rec_nxt windowSize := by
        refine ⟨hs.2, ?_⟩
        intro e he
        have h1 := hb e (List.mem_cons_of_mem _ he)
        have h2 := hs.1 e he
        omega
      obtain ⟨i1, i2, i3⟩ := ih (nxt + 1) rec_nxt windowSize (by omega) (by omega) hrest
      simp only [List.drop_succ_cons, List.take_succ_cons, List.mem_cons, Nat.cast_add,
        Nat.cast_one]
      refine ⟨by omega, ?_, ?_⟩
      · intro e he
        have := i2 e he
        omega
      · intro e he
        rcases he with rfl | he
        · omega
        · have := i3 e he
          omega
    · rename_i hseq
      simp only [List.drop_zero, List.take_zero, List.not_mem_nil, CharP.cast_eq_zero, add_zero,
        false_implies, implies_true, and_true]
      refine ⟨h1, ?_⟩
      intro e he
      rcases List.mem_cons.mp he with rfl | he
      · omega
      · have := hs.1 e he
        omega

theorem ack_scan_skip (node : buffer_node_t) (rest : buffer_t)
    (hrest : ∀ e ∈ rest, (node_seq e : Int) + 1 < 4294967296) :
    ∀ (fuel : Nat) (t : Int), (node_seq node : Int) < t → t < 4294967296 →
      ack_scan (node :: rest) fuel t = ack_scan rest fuel t := by
  intro fuel
  induction fuel with
  | zero => intro t _ _; simp [ack_scan]
  | succ fuel ih =>
    intro t hlt ht
    have hu := to_uint32_of_range t (by omega) ht
    unfold ack_scan
    by_cases hc : buffer_contains rest (to_uint32 t) ≠ 0
    · have hc2 : buffer_contains (node :: rest) (to_uint32 t) ≠ 0 := by
        rw [buffer_contains_ne_zero] at hc ⊢
        obtain ⟨e, he, hs⟩ := hc
        exact ⟨e, List.mem_cons_of_mem _ he, hs⟩
      obtain ⟨e, he, hs⟩ := (buffer_contains_ne_zero _ _).mp hc
      have := hrest e he
      rw [if_pos hc2, if_pos hc]
      exact ih (t + 1) (by omega) (by omega)
    · have hc2 : ¬ buffer_contains (node :: rest) (to_uint32 t) ≠ 0 := by
        intro h
        apply hc
        rw [buffer_contains_ne_zero] at h ⊢
        obtain ⟨e, he, hs⟩ := h
        rcases List.mem_cons.mp he with rfl | he
        · omega
        · exact ⟨e, he, hs⟩
      rw [if_neg hc2, if_neg hc]

theorem ack_scan_eq_run (buffer : buffer_t) :
    ∀ (fuel : Nat) (nxt rec_nxt windowSize : Int), buffer.length + 1 ≤ fuel →
      0 ≤ nxt → nxt < 4294967296 → window_ok buffer nxt rec_nxt windowSize →
      ack_scan buffer fuel nxt = nxt + run_len buffer nxt := by
  induction buffer with
  | nil =>
    intro fuel nxt _ _ hf _ _ _
    cases fuel with
    | zero => simp at hf
    | succ fuel => simp [ack_scan, run_len, buffer_contains]
  | cons node rest ih =>
    intro fuel nxt rec_nxt windowSize hf h0 h1 hw
    obtain ⟨hs, hb⟩ := hw
    unfold seq_sorted at hs
    rw [List.pairwise_cons] at hs
    have hnode := hb node (List.mem_cons_self _ _)
    have hu := to_uint32_of_range nxt h0 h1
    cases fuel with
    | zero => simp at hf
    | succ fuel =>
      simp only [List.length_cons] at hf
      unfold ack_scan run_len
      by_cases hseq : node_seq node = to_uint32 nxt
      · have hc : buffer_contains (node :: rest) (to_uint32 nxt) ≠ 0 :=
          (buffer_contains_ne_zero _ _).mpr ⟨node, List.mem_cons_self _ _, hseq⟩
        have hrest : window_ok rest (nxt + 1) rec_nxt windowSize := by
          refine ⟨hs.2, ?_⟩
          intro e he
          have h1 := hb e (List.mem_cons_of_mem _ he)
          have h2 := hs.1 e he
          omega
        simp only [hc, hseq, if_true]
        rw [ack_scan_skip node rest (fun e he => (hb e (List.mem_cons_of_mem _ he)).2.2) fuel
          (nxt + 1) (by omega) (by omega)]
        rw [ih fuel (nxt + 1) rec_nxt windowSize (by omega) (by omega) (by omega) hrest]
        push_cast
        omega
      · have hc : ¬ buffer_contains (node :: rest) (to_uint32 nxt) ≠ 0 := by
          intro h
          obtain ⟨e, he, hse⟩ := (buffer_contains_ne_zero _ _).mp h
          rcases List.mem_cons.mp he with rfl | he
          · exact hseq hse
          · have := hs.1 e he
            omega
        simp only [hc, hseq, if_false]
        simp

theorem run_len_not_contains (buffer : buffer_t) (nxt rec_nxt windowSize : Int)
    (h0 : 0 ≤ nxt) (h1 : nxt < 4294967296) (hw : window_ok buffer nxt rec_nxt windowSize) :
    ∀ e ∈ buffer, (node_seq e : Int) ≠ nxt + run_len buffer nxt := by
  intro e he
  obtain ⟨_, i2, i3⟩ := run_len_drop buffer nxt rec_nxt windowSize h0 h1 hw
  rw [← List.take_append_drop (run_len buffer nxt) buffer] at he
  rcases List.mem_append.mp he with he | he
  · have := i3 e he
    omega
  · have := i2 e he
    omega

/-! ## Input draining and the timer -/

theorem rel_read_loop_frame (ck : packet_t → Nat → Nat) (now_ms : Int) :
    ∀ (inputs : List conn_input_result) (s : rel_t),
      (rel_read_loop ck now_ms inputs s).1.c = s.c ∧
      (rel_read_loop ck now_ms inputs s).1.rec_buffer = s.rec_buffer ∧
      (rel_read_loop ck now_ms inputs s).1.rec_nxt = s.rec_nxt ∧
      (rel_read_loop ck now_ms inputs s).1.timeout = s.timeout ∧
      (rel_read_loop ck now_ms inputs s).1.windowSize = s.windowSize ∧
      (rel_read_loop ck now_ms inputs s).1.eof_self = s.eof_self ∧
      (rel_read_loop ck now_ms inputs s).1.eof_other = s.eof_other ∧
      (rel_read_loop ck now_ms inputs s).1.send_unack = s.send_unack := by
  intro inputs
  induction inputs with
  | nil =>
    intro s
    unfold rel_read_loop
    split <;> simp
  | cons input inputs ih =>
    intro s
    unfold rel_read_loop
    split
    · cases input with
      | no_data => simp
      | eof => simp
      | bytes buf =>
        simp only
        split
        · simp
        · exact ih _
    · simp

theorem rel_read_loop_bound (ck : packet_t → Nat → Nat) (now_ms : Int) :
    ∀ (inputs : List conn_input_result) (s : rel_t),
      0 ≤ s.windowSize → s.windowSize < 4294967296 →
      (buffer_size s.send_buffer : Int) ≤ s.windowSize →
      (buffer_size (rel_read_loop ck now_ms inputs s).1.send_buffer : Int) ≤ s.windowSize := by
  intro inputs
  induction inputs with
  | nil =>
    intro s _ _ h
    unfold rel_read_loop
    split <;> exact h
  | cons input inputs ih =>
    intro s h0 h1 h
    have hu := to_uint32_of_range s.windowSize h0 h1
    unfold rel_read_loop
    split
    · rename_i hcond
      cases input with
      | no_data => exact h
      | eof =>
        simp only [buffer_size_insert]
        omega
      | bytes buf =>
        simp only
        split
        · exact h
        · refine ih _ h0 h1 ?_
          simp only [buffer_size_insert]
          omega
    · exact h

theorem rel_read_loop_mem (ck : packet_t → Nat → Nat) (now_ms : Int) :
    ∀ (inputs : List conn_input_result) (s : rel_t) (e : buffer_node_t),
      e ∈ (rel_read_loop ck now_ms inputs s).1.send_buffer →
      e ∈ s.send_buffer ∨
        ∃ len, Event.conn_sendpkt s.c e.packet len ∈ (rel_read_loop ck now_ms inputs s).2 := by
  intro inputs
  induction inputs with
  | nil =>
    intro s e
    unfold rel_read_loop
    split <;> exact fun h => Or.inl h
  | cons input inputs ih =>
    intro s e
    unfold rel_read_loop
    split
    · cases input with
      | no_data => exact fun h => Or.inl h
      | eof =>
        simp only [mem_buffer_insert]
        intro h
        rcases h with rfl | h
        · exact Or.inr ⟨12, by simp⟩
        · exact Or.inl h
      | bytes buf =>
        simp only
        split
        · exact fun h => Or.inl h
        · intro h
          rcases ih _ e h with h | ⟨len, h⟩
          · simp only [mem_buffer_insert] at h
            rcases h with rfl | h
            · exact Or.inr ⟨12 + buf.length, by simp⟩
            · exact Or.inl h
          · exact Or.inr ⟨len, by simp only [List.mem_cons]; exact Or.inr (Or.inr h)⟩
    · exact fun h => Or.inl h

theorem rel_timer_nodes_length (c : Nat) (timeout now_ms : Int) (buffer : buffer_t) :
    (rel_timer_nodes c timeout now_ms buffer).1.length = buffer.length := by
  induction buffer with
  | nil => simp [rel_timer_nodes]
  | cons node rest ih =>
    unfold rel_timer_nodes
    simp only
    split <;> simp [ih]

/-! ## The DATA branch -/

theorem data_insert_frame (now_ms : Int) (r : rel_t) (pkt : packet_t) (packet_seq : Nat) :
    data_insert now_ms r pkt packet_seq =
      { r with rec_buffer := (data_insert now_ms r pkt packet_seq).rec_buffer } := by
  unfold data_insert
  split
  · rfl
  · split <;> rfl

theorem data_insert_window (now_ms : Int) (r : rel_t) (pkt : packet_t)
    (hinv : SessionInv r)
    (hwin : ntohl pkt.seqno < to_uint32 (r.rec_nxt + r.windowSize)) :
    window_ok (data_insert now_ms r pkt (ntohl pkt.seqno)).rec_buffer r.rec_nxt r.rec_nxt
        r.windowSize ∧
      (ntohl pkt.seqno ≠ to_uint32 r.rec_nxt →
        window_ok (data_insert now_ms r pkt (ntohl pkt.seqno)).rec_buffer (r.rec_nxt + 1)
          r.rec_nxt r.windowSize) := by
  obtain ⟨hw1, hw2, hn1, hn2, ⟨hsorted, hbound⟩, _, _⟩ := hinv
  have hu := to_uint32_of_range r.rec_nxt (by omega) hn2
  have hweak : window_ok r.rec_buffer r.rec_nxt r.rec_nxt r.windowSize :=
    ⟨hsorted, fun e he => by have := hbound e he; omega⟩
  unfold data_insert
  split
  · exact ⟨hweak, fun _ => ⟨hsorted, hbound⟩⟩
  · rename_i hge
    split
    · rename_i hc
      rw [buffer_contains_eq_zero] at hc
      have hs2 := seq_sorted_insert r.rec_buffer pkt now_ms hsorted hc
      have hrange : (r.rec_nxt : Int) ≤ (ntohl pkt.seqno : Nat) ∧
          ((ntohl pkt.seqno : Nat) : Int) < r.rec_nxt + r.windowSize ∧
          ((ntohl pkt.seqno : Nat) : Int) + 1 < 4294967296 := by
        unfold to_uint32 at hwin hge hu
        omega
      refine ⟨⟨hs2, ?_⟩, fun hne => ⟨hs2, ?_⟩⟩
      · intro e he
        rcases (mem_buffer_insert _ _ _ _).mp he with rfl | he
        · have hns : node_seq ⟨pkt, now_ms⟩ = ntohl pkt.seqno := rfl
          rw [hns]
          exact hrange
        · have := hbound e he; omega
      · intro e he
        rcases (mem_buffer_insert _ _ _ _).mp he with rfl | he
        · have hns : node_seq ⟨pkt, now_ms⟩ = ntohl pkt.seqno := rfl
          rw [hns]
          omega
        · exact hbound e he
    · exact ⟨hweak, fun _ => ⟨hsorted, hbound⟩⟩

theorem data_insert_contains (now_ms : Int) (r : rel_t) (pkt : packet_t)
    (h : ¬ ntohl pkt.seqno < to_uint32 r.rec_nxt) :
    ∃ e ∈ (data_insert now_ms r pkt (ntohl pkt.seqno)).rec_buffer,
      node_seq e = ntohl pkt.seqno := by
  unfold data_insert
  rw [if_neg h]
  split
  · exact ⟨⟨pkt, now_ms⟩, (mem_buffer_insert _ _ _ _).mpr (Or.inl rfl), rfl⟩
  · rename_i hc
    exact (buffer_contains_ne_zero _ _).mp hc

/-- The session after the insertion and delivery steps of the DATA branch, and
the acknowledgment number sent in between. -/
theorem data_step_spec (now_ms : Int) (r : rel_t) (pkt : packet_t)
    (hinv : SessionInv r)
    (hwin : ntohl pkt.seqno < to_uint32 (r.rec_nxt + r.windowSize)) :
    data_temp_seq r (data_insert now_ms r pkt (ntohl pkt.seqno)) (ntohl pkt.seqno) =
        (data_deliver (data_insert now_ms r pkt (ntohl pkt.seqno)) (ntohl pkt.seqno)).1.rec_nxt ∧
      r.rec_nxt ≤
        (data_deliver (data_insert now_ms r pkt (ntohl pkt.seqno)) (ntohl pkt.seqno)).1.rec_nxt ∧
      (¬ ((data_deliver (data_insert now_ms r pkt (ntohl pkt.seqno))
              (ntohl pkt.seqno)).1.eof_self = 1 ∧
            (data_deliver (data_insert now_ms r pkt (ntohl pkt.seqno))
              (ntohl pkt.seqno)).1.eof_other = 1) →
        SessionInv
          (data_deliver (data_insert now_ms r pkt (ntohl pkt.seqno)) (ntohl pkt.seqno)).1) := by
  have hinv0 := hinv
  obtain ⟨hw1, hw2, hn1, hn2, ⟨hsorted, hbound⟩, hsend, hnb⟩ := hinv
  have hu := to_uint32_of_range r.rec_nxt (by omega) hn2
  obtain ⟨hweak, hstrict⟩ := data_insert_window now_ms r pkt hinv0 hwin
  have hframe := data_insert_frame now_ms r pkt (ntohl pkt.seqno)
  generalize data_insert now_ms r pkt (ntohl pkt.seqno) = r1 at *
  have hf_nxt : r1.rec_nxt = r.rec_nxt := by rw [hframe]
  have hf_w : r1.windowSize = r.windowSize := by rw [hframe]
  have hf_sb : r1.send_buffer = r.send_buffer := by rw [hframe]
  have hf_es : r1.eof_self = r.eof_self := by rw [hframe]
  have hf_eo : r1.eof_other = r.eof_other := by rw [hframe]
  unfold data_deliver data_temp_seq
  by_cases heq : ntohl pkt.seqno = to_uint32 r1.rec_nxt
  · have hnlt : ¬ ntohl pkt.seqno < to_uint32 r.rec_nxt := by rw [hf_nxt] at heq; omega
    rw [if_pos heq, if_neg hnlt, rel_output_eq]
    simp only
    rw [hf_nxt]
    obtain ⟨k1, k2, k3⟩ := run_len_drop r1.rec_buffer r.rec_nxt r.rec_nxt r.windowSize
      (by omega) hn2 hweak
    refine ⟨ack_scan_eq_run _ _ _ _ _ (by simp [buffer_size]) (by omega) hn2 hweak, by omega, ?_⟩
    intro hboth
    refine ⟨by simpa [hf_w] using hw1, by simpa [hf_w] using hw2, by simp only; omega,
      by simp only; omega, ⟨?_, ?_⟩, by simpa [hf_w, hf_sb] using hsend, hboth⟩
    · exact List.Pairwise.sublist (List.drop_sublist _ _) hweak.1
    · intro e he
      have h1 := k2 e he
      have h2 := hweak.2 e (List.mem_of_mem_drop he)
      simp only [hf_w]
      omega
  · rw [if_neg heq]
    simp only
    have hstrict2 : window_ok r1.rec_buffer (r.rec_nxt + 1) r.rec_nxt r.windowSize :=
      hstrict (by rw [hf_nxt] at heq; exact heq)
    refine ⟨?_, by omega, ?_⟩
    · split
      · exact hf_nxt.symm
      · rw [ack_scan_eq_run _ _ _ r.rec_nxt r.windowSize (by simp [buffer_size]) (by omega)
          (by omega) (by rw [hf_nxt]; exact hweak)]
        have : run_len r1.rec_buffer r1.rec_nxt = 0 := by
          rw [hf_nxt]
          cases hb : r1.rec_buffer with
          | nil => simp [run_len]
          | cons node rest =>
            have := hstrict2.2 node (by rw [hb]; exact List.mem_cons_self _ _)
            unfold run_len
            rw [if_neg (by omega)]
        rw [this]
        simp
    · intro hboth
      exact ⟨by rw [hf_w]; exact hw1, by rw [hf_w]; exact hw2, by omega, by omega,
        by rw [hf_nxt, hf_w]; exact hstrict2, by rw [hf_w, hf_sb]; exact hsend, hboth⟩

/-! ## The invariant of live sessions -/

theorem rel_read_inv (ck : packet_t → Nat → Nat) (now_ms : Int)
    (inputs : List conn_input_result) (s : rel_t) (hinv : SessionInv s) :
    SessionInv (rel_read ck now_ms inputs s).1 := by
  obtain ⟨hw1, hw2, hn1, hn2, hwin, hsend, hnb⟩ := hinv
  obtain ⟨_, f2, f3, _, f5, f6, f7, _⟩ := rel_read_loop_frame ck now_ms inputs s
  have hb := rel_read_loop_bound ck now_ms inputs s (by omega) (by omega) hsend
  unfold rel_read
  exact ⟨by rw [f5]; exact hw1, by rw [f5]; exact hw2, by rw [f3]; exact hn1,
    by rw [f3]; exact hn2, by rw [f2, f3, f5]; exact hwin, by rw [f5]; exact hb,
    by rw [f6, f7]; exact hnb⟩

theorem rel_timer_session_inv (now_ms : Int) (r : rel_t) (hinv : SessionInv r) :
    SessionInv (rel_timer_session now_ms r).1 := by
  obtain ⟨hw1, hw2, hn1, hn2, hwin, hsend, hnb⟩ := hinv
  refine ⟨hw1, hw2, hn1, hn2, hwin, ?_, hnb⟩
  simp only [rel_timer_session, buffer_size, rel_timer_nodes_length]
  exact hsend

theorem rel_create_session_inv (c : Nat) (cc : config_common) (h : config_ok cc) :
    SessionInv (rel_create_session c cc) := by
  obtain ⟨h1, h2⟩ := h
  refine ⟨h1, h2, by simp [rel_create_session], by simp [rel_create_session], ⟨?_, ?_⟩, ?_, ?_⟩
  · simp [rel_create_session, seq_sorted]
  · simp [rel_create_session]
  · simp only [rel_create_session, buffer_size, List.length_nil]
    exact_mod_cast (by omega : (0 : Int) ≤ cc.window)
  · simp [rel_create_session]

theorem rel_recvpkt_ack_inv (ck : packet_t → Nat → Nat) (now_ms : Int)
    (inputs : List conn_input_result) (r : rel_t) (packet_ack : Nat) (hinv : SessionInv r)
    (hlive : (rel_recvpkt_ack ck now_ms inputs r packet_ack).destroyed = false) :
    SessionInv (rel_recvpkt_ack ck now_ms inputs r packet_ack).r := by
  obtain ⟨hw1, hw2, hn1, hn2, hwin, hsend, hnb⟩ := hinv
  have hsz := buffer_size_remove r.send_buffer packet_ack
  unfold rel_recvpkt_ack at hlive ⊢
  simp only at hlive ⊢
  split
  · rename_i hcond
    rw [if_pos hcond] at hlive
    split
    · rename_i ho
      rw [if_pos ho] at hlive
      simp at hlive
    · rename_i ho
      apply rel_read_inv
      exact ⟨hw1, hw2, hn1, hn2, hwin, by simp only; omega, fun h => ho h.2⟩
  · apply rel_read_inv
    exact ⟨hw1, hw2, hn1, hn2, hwin, by simp only; omega, hnb⟩

theorem rel_recvpkt_data_inv (ck : packet_t → Nat → Nat) (bufspace : Nat) (now_ms : Int)
    (r : rel_t) (pkt : packet_t) (packet_len : Nat) (hinv : SessionInv r)
    (hlive : (rel_recvpkt_data ck bufspace now_ms r pkt packet_len).destroyed = false) :
    SessionInv (rel_recvpkt_data ck bufspace now_ms r pkt packet_len).r := by
  by_cases hwin : ntohl pkt.seqno < to_uint32 (r.rec_nxt + r.windowSize)
  · by_cases hspace : packet_len ≤ bufspace
    · rw [rel_recvpkt_data_accept ck bufspace now_ms r pkt packet_len hwin hspace] at hlive ⊢
      obtain ⟨_, _, h3⟩ := data_step_spec now_ms r pkt hinv hwin
      split
      · rename_i hboth
        rw [if_pos hboth] at hlive
        simp at hlive
      · rename_i hboth
        exact h3 hboth
    · rw [rel_recvpkt_data_drop ck bufspace now_ms r pkt packet_len (by omega)]
      exact hinv
  · unfold rel_recvpkt_data
    rw [if_pos (by omega)]
    exact hinv

theorem rel_recvpkt_inv (ck : packet_t → Nat → Nat) (bufspace : Nat) (now_ms : Int)
    (inputs : List conn_input_result) (r : rel_t) (pkt : packet_t) (n : Nat)
    (hinv : SessionInv r)
    (hlive : (rel_recvpkt ck bufspace now_ms inputs r pkt n).destroyed = false) :
    SessionInv (rel_recvpkt ck bufspace now_ms inputs r pkt n).r := by
  by_cases hv : valid_packet ck pkt n
  · rw [rel_recvpkt_of_valid ck bufspace now_ms inputs r pkt n hv] at hlive ⊢
    split
    · rename_i h8
      rw [if_pos h8] at hlive
      exact rel_recvpkt_ack_inv ck now_ms inputs r _ hinv hlive
    · rename_i h8
      rw [if_neg h8] at hlive
      exact rel_recvpkt_data_inv ck bufspace now_ms r _ _ hinv hlive
  · rw [rel_recvpkt_of_invalid ck bufspace now_ms inputs r pkt n hv]
    exact hinv

theorem reachable_inv (ck : packet_t → Nat → Nat) (r : rel_t) (h : Reachable ck r) :
    SessionInv r := by
  induction h with
  | create c cc h => exact rel_create_session_inv c cc h
  | recvpkt r bufspace now_ms inputs pkt n _ hlive ih =>
    exact rel_recvpkt_inv ck bufspace now_ms inputs r pkt n ih hlive
  | read r now_ms inputs _ ih => exact rel_read_inv ck now_ms inputs r ih
  | timer r now_ms _ ih => exact rel_timer_session_inv now_ms r ih

theorem mem_rel_timer (now_ms : Int) (rel_list : List rel_t) (r : rel_t)
    (h : r ∈ (rel_timer now_ms rel_list).1) :
    ∃ r0 ∈ rel_list, r = (rel_timer_session now_ms r0).1 := by
  induction rel_list with
  | nil => simp [rel_timer] at h
  | cons current rest ih =>
    simp only [rel_timer, List.mem_cons] at h
    rcases h with h | h
    · exact ⟨current, List.mem_cons_self _ _, h⟩
    · obtain ⟨r0, h0, h1⟩ := ih h
      exact ⟨r0, List.mem_cons_of_mem _ h0, h1⟩

theorem list_reachable_mem (ck : packet_t → Nat → Nat) (rel_list : List rel_t)
    (h : ListReachable ck rel_list) : ∀ r ∈ rel_list, Reachable ck r := by
  induction h with
  | init => intro r hr; simp at hr
  | create rel_list c created cc _ hcc ih =>
    intro r hr
    unfold rel_create at hr
    split at hr
    · exact ih r hr
    · rename_i c1 _
      rcases List.mem_cons.mp hr with rfl | hr
      · exact Reachable.create c1 cc hcc
      · exact ih r hr
  | recvpkt rel_list bufspace now_ms inputs i pkt n _ ih =>
    intro r hr
    unfold recvpkt_at at hr
    split at hr
    · exact ih r hr
    · rename_i r0 hget
      simp only at hr
      split at hr
      · exact ih r (List.mem_of_mem_eraseIdx hr)
      · rename_i hd
        rcases List.mem_or_eq_of_mem_set hr with hr | rfl
        · exact ih r hr
        · exact Reachable.recvpkt r0 bufspace now_ms inputs pkt n
            (ih r0 (List.getElem?_mem hget)) (by simpa using hd)
  | read rel_list now_ms inputs i _ ih =>
    intro r hr
    unfold read_at at hr
    split at hr
    · exact ih r hr
    · rename_i r0 hget
      rcases List.mem_or_eq_of_mem_set hr with hr | rfl
      · exact ih r hr
      · exact Reachable.read r0 now_ms inputs (ih r0 (List.getElem?_mem hget))
  | timer rel_list now_ms _ ih =>
    intro r hr
    obtain ⟨r0, h0, rfl⟩ := mem_rel_timer now_ms rel_list r hr
    exact Reachable.timer r0 now_ms (ih r0 h0)

/-! ## Window bounds and termination -/

theorem seq_sorted_length (buffer : buffer_t) :
    ∀ (lo hi : Int), seq_sorted buffer →
      (∀ e ∈ buffer, lo ≤ (node_seq e : Int) ∧ (node_seq e : Int) < hi) → lo ≤ hi →
      (buffer.length : Int) ≤ hi - lo := by
  induction buffer with
  | nil => intro lo hi _ _ h; simp only [List.length_nil, CharP.cast_eq_zero]; omega
  | cons node rest ih =>
    intro lo hi hs hb hle
    unfold seq_sorted at hs
    rw [List.pairwise_cons] at hs
    have hnode := hb node (List.mem_cons_self _ _)
    have := ih ((node_seq node : Int) + 1) hi hs.2 (fun e he => by
      have h1 := hs.1 e he
      have h2 := hb e (List.mem_cons_of_mem _ he)
      omega) (by omega)
    simp only [List.length_cons, Nat.cast_add, Nat.cast_one]
    omega

theorem rel_recvpkt_destroyed_buffers (ck : packet_t → Nat → Nat) (bufspace : Nat)
    (now_ms : Int) (inputs : List conn_input_result) (r : rel_t) (pkt : packet_t) (n : Nat)
    (h : (rel_recvpkt ck bufspace now_ms inputs r pkt n).destroyed = true) :
    (rel_recvpkt ck bufspace now_ms inputs r pkt n).r.send_buffer = [] ∧
      (rel_recvpkt ck bufspace now_ms inputs r pkt n).r.rec_buffer = [] := by
  by_cases hv : valid_packet ck pkt n
  · rw [rel_recvpkt_of_valid ck bufspace now_ms inputs r pkt n hv] at h ⊢
    split
    · rename_i h8
      rw [if_pos h8] at h
      unfold rel_recvpkt_ack at h ⊢
      simp only at h ⊢
      split
      · rename_i hc
        rw [if_pos hc] at h
        split
        · simp [rel_destroy, buffer_clear]
        · rename_i ho
          rw [if_neg ho] at h
          simp at h
      · rename_i hc
        rw [if_neg hc] at h
        simp at h
    · rename_i h8
      rw [if_neg h8] at h
      unfold rel_recvpkt_data at h ⊢
      simp only at h ⊢
      split
      · rename_i hc
        rw [if_pos hc] at h
        simp at h
      · rename_i hc
        rw [if_neg hc] at h
        split
        · rename_i hs
          rw [if_pos hs] at h
          simp at h
        · rename_i hs
          rw [if_neg hs] at h
          split
          · simp [rel_destroy, buffer_clear]
          · rename_i hb
            rw [if_neg hb] at h
            simp at h
  · rw [rel_recvpkt_of_invalid ck bufspace now_ms inputs r pkt n hv] at h
    simp at h

/-- C5: in every state of `rel_list` reachable from `rel_create` (window size at
least 1) by calls of `rel_recvpkt`, `rel_read` and `rel_timer` with arbitrary
packets and arbitrary behaviour of the input source, the send buffer of every
session holds at most `windowSize` entries. -/
theorem C5_send_window_bound (ck : packet_t → Nat → Nat) (rel_list : List rel_t)
    (h : ListReachable ck rel_list) (r : rel_t) (hr : r ∈ rel_list) :
    (buffer_size r.send_buffer : Int) ≤ r.windowSize :=
  (reachable_inv ck r (list_reachable_mem ck rel_list h r hr)).send_bound

/-- C6: in every state of `rel_list` reachable from `rel_create` by calls of
`rel_recvpkt`, `rel_read` and `rel_timer` with arbitrary packets, every entry of
the receive buffer of every session has a sequence number `s` with
`rec_nxt <= s < rec_nxt + windowSize`, and the receive buffer holds at most
`windowSize` entries. -/
theorem C6_receive_window_bound (ck : packet_t → Nat → Nat) (rel_list : List rel_t)
    (h : ListReachable ck rel_list) (r : rel_t) (hr : r ∈ rel_list) :
    (∀ e ∈ r.rec_buffer,
        r.rec_nxt ≤ (node_seq e : Int) ∧ (node_seq e : Int) < r.rec_nxt + r.windowSize) ∧
      (buffer_size r.rec_buffer : Int) ≤ r.windowSize := by
  obtain ⟨hw1, _, _, _, ⟨hsorted, hbound⟩, _, _⟩ :=
    reachable_inv ck r (list_reachable_mem ck rel_list h r hr)
  refine ⟨fun e he => ?_, ?_⟩
  · have := hbound e he
    omega
  · have := seq_sorted_length r.rec_buffer (r.rec_nxt + 1) (r.rec_nxt + r.windowSize) hsorted
      (fun e he => by have := hbound e he; omega) (by omega)
    unfold buffer_size
    omega

/-- C7: for every session of a reachable `rel_list` and every call of
`rel_recvpkt` on it, if the call leaves both `eof_self = 1` and `eof_other = 1`
then the session is destroyed within that call: it is unlinked from `rel_list`
and both its buffers are cleared.  No session that is in `rel_list` after the
call has `eof_self = 1` and `eof_other = 1`. -/
theorem C7_termination (ck : packet_t → Nat → Nat) (rel_list : List rel_t)
    (h : ListReachable ck rel_list) (bufspace : Nat) (now_ms : Int)
    (inputs : List conn_input_result) (i : Nat) (r : rel_t) (hget : rel_list[i]? = some r)
    (pkt : packet_t) (n : Nat) :
    ((rel_recvpkt ck bufspace now_ms inputs r pkt n).r.eof_self = 1 ∧
        (rel_recvpkt ck bufspace now_ms inputs r pkt n).r.eof_other = 1 →
      (rel_recvpkt ck bufspace now_ms inputs r pkt n).destroyed = true ∧
        (rel_recvpkt ck bufspace now_ms inputs r pkt n).r.send_buffer = [] ∧
        (rel_recvpkt ck bufspace now_ms inputs r pkt n).r.rec_buffer = [] ∧
        (recvpkt_at ck bufspace now_ms inputs rel_list i pkt n).1 = rel_list.eraseIdx i) ∧
    ∀ r1 ∈ (recvpkt_at ck bufspace now_ms inputs rel_list i pkt n).1,
      ¬ (r1.eof_self = 1 ∧ r1.eof_other = 1) := by
  have hreach := list_reachable_mem ck rel_list h r (List.getElem?_mem hget)
  refine ⟨fun hboth => ?_, fun r1 hr1 => ?_⟩
  · have hd : (rel_recvpkt ck bufspace now_ms inputs r pkt n).destroyed = true := by
      by_contra hd
      have hlive : (rel_recvpkt ck bufspace now_ms inputs r pkt n).destroyed = false := by
        simpa using hd
      exact (rel_recvpkt_inv ck bufspace now_ms inputs r pkt n (reachable_inv ck r hreach)
        hlive).not_both hboth
    obtain ⟨hb1, hb2⟩ := rel_recvpkt_destroyed_buffers ck bufspace now_ms inputs r pkt n hd
    refine ⟨hd, hb1, hb2, ?_⟩
    unfold recvpkt_at
    rw [hget]
    simp only [hd, if_true]
  · exact (reachable_inv ck r1 (list_reachable_mem ck _
      (ListReachable.recvpkt rel_list bufspace now_ms inputs i pkt n h) r1 hr1)).not_both

theorem example_list0_reachable : ListReachable example_cksum example_list0 :=
  ListReachable.create [] (some 0) none { window := 4, timeout := 1000 } ListReachable.init
    (by decide)

theorem example_list1_reachable : ListReachable example_cksum example_list1 :=
  ListReachable.read example_list0 0 _ 0 example_list0_reachable

theorem example_list2_reachable : ListReachable example_cksum example_list2 :=
  ListReachable.recvpkt example_list1 100 0 [] 0 (example_data 2 [7]) 13 example_list1_reachable

theorem example_list4_reachable : ListReachable example_cksum example_list4 :=
  ListReachable.recvpkt example_list3 100 0 [] 0 (example_ack 2) 8
    (ListReachable.read example_list0 0 _ 0 example_list0_reachable)

/-- Witness of C5: the session whose window of 4 is full. -/
theorem C5_send_window_bound_witness :
    ListReachable example_cksum example_list2 ∧ example_session2 ∈ example_list2 ∧
    buffer_size example_session2.send_buffer = 4 ∧
    (buffer_size example_session2.send_buffer : Int) ≤ example_session2.windowSize :=
  ⟨example_list2_reachable, by decide, by decide,
   C5_send_window_bound example_cksum example_list2 example_list2_reachable
     example_session2 (by decide)⟩

/-- Witness of C6: the session that buffered packet 2 while waiting for 1. -/
theorem C6_receive_window_bound_witness :
    ListReachable example_cksum example_list2 ∧ example_session2 ∈ example_list2 ∧
    buffer_size example_session2.rec_buffer = 1 ∧
    ((∀ e ∈ example_session2.rec_buffer,
        example_session2.rec_nxt ≤ (node_seq e : Int) ∧
          (node_seq e : Int) < example_session2.rec_nxt + example_session2.windowSize) ∧
      (buffer_size example_session2.rec_buffer : Int) ≤ example_session2.windowSize) :=
  ⟨example_list2_reachable, by decide, by decide,
   C6_receive_window_bound example_cksum example_list2 example_list2_reachable
     example_session2 (by decide)⟩

/-- Witness of C7: the session was told that its EOF packet arrived and now
receives the EOF packet of the peer; the call destroys it. -/
theorem C7_termination_witness :
    ListReachable example_cksum example_list4 ∧ example_list4[0]? = some example_session4 ∧
    ((rel_recvpkt example_cksum 100 0 [] example_session4 (example_data 1 []) 12).r.eof_self = 1 ∧
      (rel_recvpkt example_cksum 100 0 [] example_session4 (example_data 1 []) 12).r.eof_other
        = 1) ∧
    (((rel_recvpkt example_cksum 100 0 [] example_session4 (example_data 1 []) 12).r.eof_self
          = 1 ∧
        (rel_recvpkt example_cksum 100 0 [] example_session4 (example_data 1 []) 12).r.eof_other
          = 1 →
      (rel_recvpkt example_cksum 100 0 [] example_session4 (example_data 1 []) 12).destroyed
          = true ∧
        (rel_recvpkt example_cksum 100 0 [] example_session4 (example_data 1 []) 12).r.send_buffer
          = [] ∧
        (rel_recvpkt example_cksum 100 0 [] example_session4 (example_data 1 []) 12).r.rec_buffer
          = [] ∧
        (recvpkt_at example_cksum 100 0 [] example_list4 0 (example_data 1 []) 12).1 =
          example_list4.eraseIdx 0) ∧
    ∀ r1 ∈ (recvpkt_at example_cksum 100 0 [] example_list4 0 (example_data 1 []) 12).1,
      ¬ (r1.eof_self = 1 ∧ r1.eof_other = 1)) :=
  ⟨example_list4_reachable, by decide, by decide,
   C7_termination example_cksum example_list4 example_list4_reachable 100 0 [] 0
     example_session4 (by decide) (example_data 1 []) 12⟩

/-! ## The ACK branch -/

theorem rel_recvpkt_ack_spec (ck : packet_t → Nat → Nat) (now_ms : Int)
    (inputs : List conn_input_result) (r : rel_t) (packet_ack : Nat)
    (hlive : (rel_recvpkt_ack ck now_ms inputs r packet_ack).destroyed = false) :
    (rel_recvpkt_ack ck now_ms inputs r packet_ack).r.send_unack = to_int packet_ack ∧
    ∀ e ∈ (rel_recvpkt_ack ck now_ms inputs r packet_ack).r.send_buffer,
      (e ∈ r.send_buffer ∧ packet_ack < node_seq e) ∨
        ∃ len, Event.conn_sendpkt r.c e.packet len ∈
          (rel_recvpkt_ack ck now_ms inputs r packet_ack).events := by
  unfold rel_recvpkt_ack at hlive ⊢
  simp only at hlive ⊢
  split
  · rename_i hcond
    rw [if_pos hcond] at hlive
    split
    · rename_i ho
      rw [if_pos ho] at hlive
      simp at hlive
    · unfold rel_read
      refine ⟨(rel_read_loop_frame ck now_ms inputs _).2.2.2.2.2.2.2, fun e he => ?_⟩
      rcases rel_read_loop_mem ck now_ms inputs _ e he with h | h
      · exact Or.inl ((mem_buffer_remove _ _ _).mp h)
      · exact Or.inr h
  · unfold rel_read
    refine ⟨(rel_read_loop_frame ck now_ms inputs _).2.2.2.2.2.2.2, fun e he => ?_⟩
    rcases rel_read_loop_mem ck now_ms inputs _ e he with h | h
    · exact Or.inl ((mem_buffer_remove _ _ _).mp h)
    · exact Or.inr h

/-- C3 (amended): for every session and every valid ACK packet (length 8, correct
checksum) with acknowledgment number `k` that does not cause the session to be
destroyed, after `rel_recvpkt` returns `send_unack` is `k` converted to `int`
(which is `k` itself when `k < 2^31`), and every entry of the send buffer either
was in the send buffer before the call and has a sequence number greater than
`k`, or is a packet that the `rel_read` call at the end of the ACK path created
and transmitted during this call. -/
theorem C3_cumulative_ack (ck : packet_t → Nat → Nat) (bufspace : Nat) (now_ms : Int)
    (inputs : List conn_input_result) (r : rel_t) (pkt : packet_t)
    (hv : valid_packet ck pkt 8)
    (hlive : (rel_recvpkt ck bufspace now_ms inputs r pkt 8).destroyed = false) :
    (rel_recvpkt ck bufspace now_ms inputs r pkt 8).r.send_unack = to_int (ntohl pkt.ackno) ∧
    (ntohl pkt.ackno < 2147483648 →
      (rel_recvpkt ck bufspace now_ms inputs r pkt 8).r.send_unack = (ntohl pkt.ackno : Int)) ∧
    ∀ e ∈ (rel_recvpkt ck bufspace now_ms inputs r pkt 8).r.send_buffer,
      (e ∈ r.send_buffer ∧ ntohl pkt.ackno < node_seq e) ∨
        ∃ len, Event.conn_sendpkt r.c e.packet len ∈
          (rel_recvpkt ck bufspace now_ms inputs r pkt 8).events := by
  rw [rel_recvpkt_of_valid ck bufspace now_ms inputs r pkt 8 hv] at hlive ⊢
  rw [if_pos hv.1] at hlive ⊢
  obtain ⟨h1, h2⟩ := rel_recvpkt_ack_spec ck now_ms inputs r (ntohl pkt.ackno) hlive
  refine ⟨h1, fun hk => ?_, h2⟩
  rw [h1]
  unfold to_int
  have : ntohl pkt.ackno % 4294967296 = ntohl pkt.ackno := by unfold ntohl; omega
  rw [this, if_pos hk]

/-- Witness of C3 (amended): the session that has packet 1 in flight receives
the ACK 2 while one more chunk of input is available. -/
theorem C3_cumulative_ack_witness :
    valid_packet example_cksum (example_ack 2) 8 ∧
    (rel_recvpkt example_cksum 0 0 [conn_input_result.bytes [9]] example_sent_session
      (example_ack 2) 8).destroyed = false ∧
    ((rel_recvpkt example_cksum 0 0 [conn_input_result.bytes [9]] example_sent_session
        (example_ack 2) 8).r.send_unack = to_int (ntohl (example_ack 2).ackno) ∧
    (ntohl (example_ack 2).ackno < 2147483648 →
      (rel_recvpkt example_cksum 0 0 [conn_input_result.bytes [9]] example_sent_session
        (example_ack 2) 8).r.send_unack = (ntohl (example_ack 2).ackno : Int)) ∧
    ∀ e ∈ (rel_recvpkt example_cksum 0 0 [conn_input_result.bytes [9]] example_sent_session
        (example_ack 2) 8).r.send_buffer,
      (e ∈ example_sent_session.send_buffer ∧ ntohl (example_ack 2).ackno < node_seq e) ∨
        ∃ len, Event.conn_sendpkt example_sent_session.c e.packet len ∈
          (rel_recvpkt example_cksum 0 0 [conn_input_result.bytes [9]] example_sent_session
            (example_ack 2) 8).events) :=
  ⟨by decide, by decide,
   C3_cumulative_ack example_cksum 0 0 [conn_input_result.bytes [9]] example_sent_session
     (example_ack 2) (by decide) (by decide)⟩

/-- C3 as stated fails: the reachable session that has packet 1 in flight
receives the valid ACK 2 while one more chunk of input is available; the session
is not destroyed, and after the call the send buffer holds the new packet with
sequence number 2, which is not greater than the acknowledgment number 2. -/
theorem C3_counterexample :
    Reachable example_cksum example_sent_session ∧
    valid_packet example_cksum (example_ack 2) 8 ∧
    (rel_recvpkt example_cksum 0 0 [conn_input_result.bytes [9]] example_sent_session
      (example_ack 2) 8).destroyed = false ∧
    ¬ ((∀ e ∈ (rel_recvpkt example_cksum 0 0 [conn_input_result.bytes [9]] example_sent_session
          (example_ack 2) 8).r.send_buffer, ¬ node_seq e ≤ ntohl (example_ack 2).ackno) ∧
      (rel_recvpkt example_cksum 0 0 [conn_input_result.bytes [9]] example_sent_session
        (example_ack 2) 8).r.send_unack = (ntohl (example_ack 2).ackno : Int)) :=
  ⟨Reachable.read example_session 0 [conn_input_result.bytes [1]]
     (Reachable.create 0 { window := 4, timeout := 1000 } (by decide)),
   by decide, by decide, by decide⟩

/-! ## The acknowledgment number of the reply -/

theorem sent_packets_append (a b : List Event) :
    sent_packets (a ++ b) = sent_packets a ++ sent_packets b := by
  induction a with
  | nil => rfl
  | cons e a ih => cases e <;> simp [sent_packets, ih]

theorem output_chunks_append (a b : List Event) :
    output_chunks (a ++ b) = output_chunks a ++ output_chunks b := by
  induction a with
  | nil => rfl
  | cons e a ih => cases e <;> simp [output_chunks, ih]

theorem sent_packets_outputs (c : Nat) (l : List buffer_node_t) :
    sent_packets (l.map (fun e =>
      Event.conn_output c e.packet.data ((ntohs e.packet.len : Int) - 12))) = [] := by
  induction l with
  | nil => rfl
  | cons e l ih => simp [sent_packets, ih]

theorem run_len_zero_of_strict (buffer : buffer_t) (nxt rec_nxt windowSize : Int)
    (h0 : 0 ≤ nxt) (h1 : nxt < 4294967296)
    (hw : window_ok buffer (nxt + 1) rec_nxt windowSize) : run_len buffer nxt = 0 := by
  have hu := to_uint32_of_range nxt h0 h1
  cases buffer with
  | nil => rfl
  | cons node rest =>
    have := hw.2 node (List.mem_cons_self _ _)
    unfold run_len
    rw [if_neg (by omega)]

theorem make_ackpkt_ackno (ck : packet_t → Nat → Nat) (t : Int) :
    ntohl (make_ackpkt ck t).ackno = to_uint32 t := by
  simp only [make_ackpkt, htonl, ntohl, to_uint32]
  omega

theorem data_deliver_events (r1 : rel_t) (packet_seq : Nat) :
    sent_packets (data_deliver r1 packet_seq).2 = [] := by
  unfold data_deliver
  split
  · rw [rel_output_eq]
    exact sent_packets_outputs _ _
  · rfl

theorem data_temp_seq_eq (now_ms : Int) (r : rel_t) (pkt : packet_t)
    (hinv : SessionInv r)
    (hwin : ntohl pkt.seqno < to_uint32 (r.rec_nxt + r.windowSize)) :
    data_temp_seq r (data_insert now_ms r pkt (ntohl pkt.seqno)) (ntohl pkt.seqno) =
        r.rec_nxt + run_len (data_insert now_ms r pkt (ntohl pkt.seqno)).rec_buffer r.rec_nxt ∧
      r.rec_nxt + run_len (data_insert now_ms r pkt (ntohl pkt.seqno)).rec_buffer r.rec_nxt
        < 4294967296 := by
  obtain ⟨hweak, _⟩ := data_insert_window now_ms r pkt hinv hwin
  obtain ⟨hw1, hw2, hn1, hn2, hstrict, hsend, hnb⟩ := hinv
  obtain ⟨k1, _, _⟩ := run_len_drop _ r.rec_nxt r.rec_nxt r.windowSize (by omega) hn2 hweak
  refine ⟨?_, k1⟩
  unfold data_temp_seq
  split
  · rename_i hlt
    have : data_insert now_ms r pkt (ntohl pkt.seqno) = r := by
      unfold data_insert; rw [if_pos hlt]
    rw [this, run_len_zero_of_strict _ _ _ _ (by omega) hn2 hstrict]
    simp
  · have hf : (data_insert now_ms r pkt (ntohl pkt.seqno)).rec_nxt = r.rec_nxt := by
      rw [data_insert_frame]
    rw [hf]
    exact ack_scan_eq_run _ _ _ _ _ (by simp [buffer_size]) (by omega) hn2 hweak

theorem rel_recvpkt_data_rec_nxt (ck : packet_t → Nat → Nat) (bufspace : Nat) (now_ms : Int)
    (r : rel_t) (pkt : packet_t) (packet_len : Nat)
    (hwin : ntohl pkt.seqno < to_uint32 (r.rec_nxt + r.windowSize))
    (hspace : packet_len ≤ bufspace) :
    (rel_recvpkt_data ck bufspace now_ms r pkt packet_len).r.rec_nxt =
        (data_deliver (data_insert now_ms r pkt (ntohl pkt.seqno)) (ntohl pkt.seqno)).1.rec_nxt ∧
      sent_packets (rel_recvpkt_data ck bufspace now_ms r pkt packet_len).events =
        [(make_ackpkt ck (data_temp_seq r (data_insert now_ms r pkt (ntohl pkt.seqno))
          (ntohl pkt.seqno)), 8)] := by
  rw [rel_recvpkt_data_accept ck bufspace now_ms r pkt packet_len hwin hspace]
  have hd := data_deliver_events (data_insert now_ms r pkt (ntohl pkt.seqno)) (ntohl pkt.seqno)
  split
  · simp [rel_destroy, sent_packets, sent_packets_append, hd]
  · simp [sent_packets, hd]

/-- C9: for every reachable live session and every valid DATA packet that is not
dropped (sequence number below `rec_nxt + windowSize`, enough space reported by
`conn_bufspace`), `rel_recvpkt` transmits exactly one packet, of length 8; its
acknowledgment number is the smallest sequence number from the old `rec_nxt` on
that is not in the receive buffer after the insertion step (the old `rec_nxt`
itself for a stale packet), and it equals `rec_nxt` when the call returns.  In
the scenario of the spec, a fresh session with window 4 that receives the
sequence numbers 2, 1, 3 replies with the acknowledgment numbers 1, 3, 4. -/
theorem C9_ack_reply_value (ck : packet_t → Nat → Nat) (bufspace : Nat) (now_ms : Int)
    (inputs : List conn_input_result) (r : rel_t) (pkt : packet_t) (n : Nat)
    (hr : Reachable ck r) (hv : valid_packet ck pkt n) (hdata : ntohs pkt.len ≠ 8)
    (hwin : ntohl pkt.seqno < to_uint32 (r.rec_nxt + r.windowSize))
    (hspace : ntohs pkt.len ≤ bufspace) :
    ∃ ackpkt : packet_t,
      sent_packets (rel_recvpkt ck bufspace now_ms inputs r pkt n).events = [(ackpkt, 8)] ∧
      ntohs ackpkt.len = 8 ∧
      (ntohl ackpkt.ackno : Int) = (rel_recvpkt ck bufspace now_ms inputs r pkt n).r.rec_nxt ∧
      r.rec_nxt ≤ (ntohl ackpkt.ackno : Int) ∧
      (∀ e ∈ (data_insert now_ms r { pkt with cksum := 0 } (ntohl pkt.seqno)).rec_buffer,
        node_seq e ≠ ntohl ackpkt.ackno) ∧
      (∀ s : Nat, r.rec_nxt ≤ (s : Int) → s < ntohl ackpkt.ackno →
        ∃ e ∈ (data_insert now_ms r { pkt with cksum := 0 } (ntohl pkt.seqno)).rec_buffer,
          node_seq e = s) ∧
      (ntohl pkt.seqno < to_uint32 r.rec_nxt → (ntohl ackpkt.ackno : Int) = r.rec_nxt) ∧
      example_scenario_acks = [[1], [3], [4]] := by
  have hinv := reachable_inv ck r hr
  rw [rel_recvpkt_of_valid ck bufspace now_ms inputs r pkt n hv, if_neg hdata]
  have hwin0 : ntohl ({ pkt with cksum := 0 } : packet_t).seqno <
      to_uint32 (r.rec_nxt + r.windowSize) := hwin
  obtain ⟨e1, e2⟩ := rel_recvpkt_data_rec_nxt ck bufspace now_ms r { pkt with cksum := 0 }
    (ntohs pkt.len) hwin0 hspace
  obtain ⟨t1, t2⟩ := data_temp_seq_eq now_ms r { pkt with cksum := 0 } hinv hwin0
  obtain ⟨s1, s2, _⟩ := data_step_spec now_ms r { pkt with cksum := 0 } hinv hwin0
  obtain ⟨hweak, _⟩ := data_insert_window now_ms r { pkt with cksum := 0 } hinv hwin0
  have hn1 := hinv.rec_nxt_pos
  have hn2 := hinv.rec_nxt_lt
  refine ⟨_, e2, by simp [make_ackpkt, htons, ntohs], ?_⟩
  simp only at e1 s1 s2 t1 t2 hweak ⊢
  have hack : (ntohl (make_ackpkt ck (data_temp_seq r
      (data_insert now_ms r { pkt with cksum := 0 } (ntohl pkt.seqno)) (ntohl pkt.seqno))).ackno
        : Int) = r.rec_nxt +
      run_len (data_insert now_ms r { pkt with cksum := 0 } (ntohl pkt.seqno)).rec_buffer
        r.rec_nxt := by
    rw [make_ackpkt_ackno, t1]
    exact to_uint32_of_range _ (by omega) t2
  refine ⟨?_, ?_, ?_, ?_, ?_, by decide⟩
  · rw [hack, e1, ← s1, t1]
  · rw [hack]; omega
  · intro e he hs
    have := run_len_not_contains _ r.rec_nxt r.rec_nxt r.windowSize (by omega) hn2 hweak e he
    omega
  · intro s hs1 hs2
    obtain ⟨e, he, hse⟩ := run_len_contains
      (data_insert now_ms r { pkt with cksum := 0 } (ntohl pkt.seqno)).rec_buffer r.rec_nxt
      (s - r.rec_nxt).toNat (by omega)
    refine ⟨e, he, ?_⟩
    rw [hse]
    unfold to_uint32
    omega
  · intro hstale
    have : data_insert now_ms r { pkt with cksum := 0 } (ntohl pkt.seqno) = r := by
      unfold data_insert; rw [if_pos hstale]
    rw [hack, this, run_len_zero_of_strict _ _ _ _ (by omega) hn2 hinv.rec_window]
    simp

/-- Witness of C9: the second arrival of the scenario, packet 1 received by the
session that has buffered packet 2. -/
theorem C9_ack_reply_value_witness :
    Reachable example_cksum example_outcome1.r ∧
    valid_packet example_cksum (example_data 1 [5]) 13 ∧
    ntohs (example_data 1 [5]).len ≠ 8 ∧
    ntohl (example_data 1 [5]).seqno <
      to_uint32 (example_outcome1.r.rec_nxt +
        example_outcome1.r.windowSize) ∧
    ntohs (example_data 1 [5]).len ≤ 1000 ∧
    ∃ ackpkt : packet_t,
      sent_packets (rel_recvpkt example_cksum 1000 0 [] example_outcome1.r
        (example_data 1 [5]) 13).events = [(ackpkt, 8)] ∧
      ntohs ackpkt.len = 8 ∧
      (ntohl ackpkt.ackno : Int) = (rel_recvpkt example_cksum 1000 0 []
        example_outcome1.r (example_data 1 [5]) 13).r.rec_nxt ∧
      example_outcome1.r.rec_nxt ≤ (ntohl ackpkt.ackno : Int) ∧
      (∀ e ∈ (data_insert 0 example_outcome1.r
          { example_data 1 [5] with cksum := 0 } (ntohl (example_data 1 [5]).seqno)).rec_buffer,
        node_seq e ≠ ntohl ackpkt.ackno) ∧
      (∀ s : Nat, example_outcome1.r.rec_nxt ≤ (s : Int) → s < ntohl ackpkt.ackno →
        ∃ e ∈ (data_insert 0 example_outcome1.r
            { example_data 1 [5] with cksum := 0 } (ntohl (example_data 1 [5]).seqno)).rec_buffer,
          node_seq e = s) ∧
      (ntohl (example_data 1 [5]).seqno < to_uint32 example_outcome1.r.rec_nxt →
        (ntohl ackpkt.ackno : Int) = example_outcome1.r.rec_nxt) ∧
      example_scenario_acks = [[1], [3], [4]] :=
  ⟨Reachable.recvpkt example_session 1000 0 [] (example_data 2 [7]) 13
      (Reachable.create 0 { window := 4, timeout := 1000 } (by decide)) (by decide),
   by decide, by decide, by decide, by decide,
   C9_ack_reply_value example_cksum 1000 0 [] example_outcome1.r (example_data 1 [5])
     13
     (Reachable.recvpkt example_session 1000 0 [] (example_data 2 [7]) 13
       (Reachable.create 0 { window := 4, timeout := 1000 } (by decide)) (by decide))
     (by decide) (by decide) (by decide) (by decide)⟩

/-! ## In-order delivery -/

theorem data_insert_mem (now_ms : Int) (r : rel_t) (pkt : packet_t) (packet_seq : Nat) :
    (∀ e ∈ (data_insert now_ms r pkt packet_seq).rec_buffer,
      e ∈ r.rec_buffer ∨ e = ⟨pkt, now_ms⟩) ∧
    (∀ e ∈ r.rec_buffer, e ∈ (data_insert now_ms r pkt packet_seq).rec_buffer) := by
  unfold data_insert
  split
  · exact ⟨fun e he => Or.inl he, fun e he => he⟩
  · split
    · refine ⟨fun e he => ?_, fun e he => ?_⟩
      · rcases (mem_buffer_insert _ _ _ _).mp he with h | h
        · exact Or.inr h
        · exact Or.inl h
      · exact (mem_buffer_insert _ _ _ _).mpr (Or.inr he)
    · exact ⟨fun e he => Or.inl he, fun e he => he⟩

theorem run_len_take_seqs (buffer : buffer_t) :
    ∀ (nxt rec_nxt windowSize : Int), 0 ≤ nxt → nxt < 4294967296 →
      window_ok buffer nxt rec_nxt windowSize →
      (buffer.take (run_len buffer nxt)).map node_seq =
        List.range' nxt.toNat (run_len buffer nxt) := by
  induction buffer with
  | nil => intro nxt _ _ _ _ _; simp [run_len]
  | cons node rest ih =>
    intro nxt rec_nxt windowSize h0 h1 hw
    obtain ⟨hs, hb⟩ := hw
    unfold seq_sorted at hs
    rw [List.pairwise_cons] at hs
    have hnode := hb node (List.mem_cons_self _ _)
    have hu := to_uint32_of_range nxt h0 h1
    unfold run_len
    split
    · rename_i hseq
      have hrest : window_ok rest (nxt + 1) rec_nxt windowSize := by
        refine ⟨hs.2, ?_⟩
        intro e he
        have h1 := hb e (List.mem_cons_of_mem _ he)
        have h2 := hs.1 e he
        omega
      have := ih (nxt + 1) rec_nxt windowSize (by omega) (by omega) hrest
      simp only [List.take_succ_cons, List.map_cons, List.range'_succ, this]
      congr 1
      · omega
      · congr 1
        omega
    · simp

theorem output_chunks_outputs (c : Nat) (l : List buffer_node_t) :
    output_chunks (l.map (fun e =>
      Event.conn_output c e.packet.data ((ntohs e.packet.len : Int) - 12))) =
      l.map (fun e => payload_of e.packet) := by
  induction l with
  | nil => rfl
  | cons e l ih => simp [output_chunks, payload_of, ih]

theorem data_deliver_spec (r1 : rel_t) (packet_seq : Nat)
    (h0 : 0 ≤ r1.rec_nxt) (h1 : r1.rec_nxt < 4294967296)
    (hw : window_ok r1.rec_buffer r1.rec_nxt r1.rec_nxt r1.windowSize) :
    (data_deliver r1 packet_seq).1.c = r1.c ∧
    (data_deliver r1 packet_seq).1.eof_self = r1.eof_self ∧
    (data_deliver r1 packet_seq).1.windowSize = r1.windowSize ∧
    r1.rec_nxt ≤ (data_deliver r1 packet_seq).1.rec_nxt ∧
    (∀ e ∈ (data_deliver r1 packet_seq).1.rec_buffer, e ∈ r1.rec_buffer) ∧
    (∀ e ∈ r1.rec_buffer, (node_seq e : Int) < (data_deliver r1 packet_seq).1.rec_nxt ∨
      e ∈ (data_deliver r1 packet_seq).1.rec_buffer) ∧
    (∀ s : Nat, r1.rec_nxt ≤ (s : Int) → (s : Int) < (data_deliver r1 packet_seq).1.rec_nxt →
      ∃ e ∈ r1.rec_buffer, node_seq e = s) ∧
    ∀ payload : Nat → List Nat,
      (∀ e ∈ r1.rec_buffer, payload_of e.packet = payload (node_seq e)) →
      output_chunks (data_deliver r1 packet_seq).2 =
        (List.range' r1.rec_nxt.toNat
          ((data_deliver r1 packet_seq).1.rec_nxt - r1.rec_nxt).toNat).map payload := by
  unfold data_deliver
  split
  · rw [rel_output_eq]
    simp only
    obtain ⟨k1, k2, k3⟩ := run_len_drop r1.rec_buffer r1.rec_nxt r1.rec_nxt r1.windowSize h0 h1 hw
    refine ⟨trivial, trivial, trivial, by omega, fun e he => List.mem_of_mem_drop he, ?_, ?_, ?_⟩
    · intro e he
      rw [← List.take_append_drop (run_len r1.rec_buffer r1.rec_nxt) r1.rec_buffer] at he
      rcases List.mem_append.mp he with he | he
      · exact Or.inl (k3 e he).1
      · exact Or.inr he
    · intro s hs1 hs2
      obtain ⟨e, he, hse⟩ := run_len_contains r1.rec_buffer r1.rec_nxt (s - r1.rec_nxt).toNat
        (by omega)
      refine ⟨e, he, ?_⟩
      rw [hse]
      unfold to_uint32
      omega
    · intro payload hp
      rw [output_chunks_outputs]
      have hseqs := run_len_take_seqs r1.rec_buffer r1.rec_nxt r1.rec_nxt r1.windowSize h0 h1 hw
      have hk : (r1.rec_nxt + (run_len r1.rec_buffer r1.rec_nxt : Int) - r1.rec_nxt).toNat =
          run_len r1.rec_buffer r1.rec_nxt := by omega
      rw [hk, ← hseqs, List.map_map]
      apply List.map_congr_left
      intro e he
      exact hp e (List.mem_of_mem_take he)
  · simp only [sub_self, Int.toNat_zero, List.range'_zero, List.map_nil, output_chunks]
    refine ⟨trivial, trivial, trivial, le_refl _, fun e he => he, fun e he => Or.inr he, ?_,
      fun _ _ => trivial⟩
    intro s hs1 hs2
    omega

theorem taken_in_mono (r r2 : rel_t) (hle : r.rec_nxt ≤ r2.rec_nxt)
    (hmem : ∀ e ∈ r.rec_buffer, (node_seq e : Int) < r2.rec_nxt ∨ e ∈ r2.rec_buffer) (s : Nat)
    (h : taken_in r s) : taken_in r2 s := by
  rcases h with h | ⟨e, he, hs⟩
  · exact Or.inl (by omega)
  · rcases hmem e he with h | h
    · exact Or.inl (by omega)
    · exact Or.inr ⟨e, h, hs⟩

theorem recv_step (ck : packet_t → Nat → Nat) (N : Nat) (payload : Nat → List Nat) (r : rel_t)
    (a : arrival) (hJ : delivery_inv N payload r) (ha : arrival_ok ck N payload a) :
    (rel_recvpkt ck a.bufspace a.now_ms a.inputs r a.pkt a.n).destroyed = false ∧
    delivery_inv N payload (rel_recvpkt ck a.bufspace a.now_ms a.inputs r a.pkt a.n).r ∧
    r.rec_nxt ≤ (rel_recvpkt ck a.bufspace a.now_ms a.inputs r a.pkt a.n).r.rec_nxt ∧
    output_chunks (rel_recvpkt ck a.bufspace a.now_ms a.inputs r a.pkt a.n).events =
      (List.range' r.rec_nxt.toNat
        ((rel_recvpkt ck a.bufspace a.now_ms a.inputs r a.pkt a.n).r.rec_nxt
          - r.rec_nxt).toNat).map payload ∧
    taken_in (rel_recvpkt ck a.bufspace a.now_ms a.inputs r a.pkt a.n).r (ntohl a.pkt.seqno) ∧
    ∀ s, taken_in r s → taken_in (rel_recvpkt ck a.bufspace a.now_ms a.inputs r a.pkt a.n).r s := by
  obtain ⟨hinv, hes, hNW, hnN, hent⟩ := hJ
  obtain ⟨hv, h12, hs1, hsN, hpay, hspace⟩ := ha
  have hn1 := hinv.rec_nxt_pos
  have hn2 := hinv.rec_nxt_lt
  have hw2 := hinv.window_lt
  have hu := to_uint32_of_range r.rec_nxt (by omega) hn2
  have hwin0 : ntohl ({ a.pkt with cksum := 0 } : packet_t).seqno <
      to_uint32 (r.rec_nxt + r.windowSize) := by
    show ntohl a.pkt.seqno < to_uint32 (r.rec_nxt + r.windowSize)
    unfold to_uint32
    omega
  rw [rel_recvpkt_of_valid ck a.bufspace a.now_ms a.inputs r a.pkt a.n hv,
    if_neg (by omega : ¬ ntohs a.pkt.len = 8),
    rel_recvpkt_data_accept ck a.bufspace a.now_ms r _ _ hwin0 hspace]
  obtain ⟨hweak, _⟩ := data_insert_window a.now_ms r { a.pkt with cksum := 0 } hinv hwin0
  obtain ⟨_, _, hstep⟩ := data_step_spec a.now_ms r { a.pkt with cksum := 0 } hinv hwin0
  obtain ⟨m1, m2⟩ := data_insert_mem a.now_ms r { a.pkt with cksum := 0 } (ntohl a.pkt.seqno)
  have hframe := data_insert_frame a.now_ms r { a.pkt with cksum := 0 } (ntohl a.pkt.seqno)
  have hcont : ¬ ntohl a.pkt.seqno < to_uint32 r.rec_nxt →
      ∃ e ∈ (data_insert a.now_ms r { a.pkt with cksum := 0 } (ntohl a.pkt.seqno)).rec_buffer,
        node_seq e = ntohl a.pkt.seqno :=
    fun h => data_insert_contains a.now_ms r { a.pkt with cksum := 0 } h
  simp only at hweak hstep m1 m2 hframe hcont ⊢
  generalize data_insert a.now_ms r { a.pkt with cksum := 0 } (ntohl a.pkt.seqno) = r1 at *
  have hf_nxt : r1.rec_nxt = r.rec_nxt := by rw [hframe]
  have hf_w : r1.windowSize = r.windowSize := by rw [hframe]
  have hf_es : r1.eof_self = r.eof_self := by rw [hframe]
  have hent1 : ∀ e ∈ r1.rec_buffer, node_seq e ≤ N ∧ payload_of e.packet = payload (node_seq e) := by
    intro e he
    rcases m1 e he with h | rfl
    · exact hent e h
    · exact ⟨hsN, hpay⟩
  obtain ⟨d1, d2, d3, d4, d5, d6, d7, d8⟩ := data_deliver_spec r1 (ntohl a.pkt.seqno)
    (by omega) (by omega) (by rw [hf_nxt, hf_w]; exact hweak)
  replace d8 := d8 payload (fun e he => (hent1 e he).2)
  generalize data_deliver r1 (ntohl a.pkt.seqno) = o at *
  have hnb : ¬ (o.1.eof_self = 1 ∧ o.1.eof_other = 1) := by
    intro h
    rw [d2, hf_es, hes] at h
    omega
  rw [if_neg hnb]
  simp only [output_chunks]
  rw [hf_nxt] at d4 d7 d8
  refine ⟨trivial, ⟨hstep hnb, by rw [d2, hf_es]; exact hes, by rw [d3, hf_w]; exact hNW, ?_,
    fun e he => hent1 e (d5 e he)⟩, d4, d8, ?_, ?_⟩
  · by_contra hgt
    obtain ⟨e, he, hse⟩ := d7 (N + 1) (by push_cast; omega) (by push_cast; omega)
    have := (hent1 e he).1
    omega
  · by_cases hstale : ntohl a.pkt.seqno < to_uint32 r.rec_nxt
    · exact Or.inl (by omega)
    · obtain ⟨e, he, hse⟩ := hcont hstale
      rcases d6 e he with h | h
      · exact Or.inl (by omega)
      · exact Or.inr ⟨e, h, hse⟩
  · intro s hs
    apply taken_in_mono r o.1 d4 ?_ s hs
    intro e he
    exact d6 e (m2 e he)

theorem recv_all_spec (ck : packet_t → Nat → Nat) (N : Nat) (payload : Nat → List Nat) :
    ∀ (arrivals : List arrival) (r : rel_t), delivery_inv N payload r →
      (∀ a ∈ arrivals, arrival_ok ck N payload a) →
      (recv_all ck r arrivals).destroyed = false ∧
      delivery_inv N payload (recv_all ck r arrivals).r ∧
      r.rec_nxt ≤ (recv_all ck r arrivals).r.rec_nxt ∧
      output_chunks (recv_all ck r arrivals).events =
        (List.range' r.rec_nxt.toNat
          ((recv_all ck r arrivals).r.rec_nxt - r.rec_nxt).toNat).map payload ∧
      (∀ s, taken_in r s → taken_in (recv_all ck r arrivals).r s) ∧
      ∀ a ∈ arrivals, taken_in (recv_all ck r arrivals).r (ntohl a.pkt.seqno) := by
  intro arrivals
  induction arrivals with
  | nil =>
    intro r hJ _
    simp only [recv_all, sub_self, Int.toNat_zero, List.range'_zero, List.map_nil, output_chunks]
    exact ⟨trivial, hJ, le_refl _, trivial, fun s hs => hs, fun a ha => by simp at ha⟩
  | cons a rest ih =>
    intro r hJ hok
    obtain ⟨s1, s2, s3, s4, s5, s6⟩ := recv_step ck N payload r a hJ
      (hok a (List.mem_cons_self _ _))
    obtain ⟨t1, t2, t3, t4, t5, t6⟩ := ih (rel_recvpkt ck a.bufspace a.now_ms a.inputs r a.pkt a.n).r
      s2 (fun b hb => hok b (List.mem_cons_of_mem _ hb))
    have hn1 := hJ.1.rec_nxt_pos
    unfold recv_all
    simp only [s1, Bool.false_eq_true, if_false]
    generalize rel_recvpkt ck a.bufspace a.now_ms a.inputs r a.pkt a.n = out at *
    generalize recv_all ck out.r rest = tl at *
    refine ⟨t1, t2, by omega, ?_, fun s hs => t5 s (s6 s hs), ?_⟩
    · rw [output_chunks_append, s4, t4, ← List.map_append]
      congr 1
      have e1 : out.r.rec_nxt.toNat = r.rec_nxt.toNat + (out.r.rec_nxt - r.rec_nxt).toNat := by
        omega
      have e2 : (tl.r.rec_nxt - r.rec_nxt).toNat =
          (tl.r.rec_nxt - out.r.rec_nxt).toNat + (out.r.rec_nxt - r.rec_nxt).toNat := by omega
      rw [e1, e2, List.range'_append_1]
    · intro b hb
      rcases List.mem_cons.mp hb with rfl | hb
      · exact t5 _ s5
      · exact t6 b hb

/-- C1: for every `N >= 1`, every session freshly made by `rel_create` with a
window size of at least `N`, and every finite sequence of valid DATA packets of
length at least 12 with sequence numbers in 1..N in which every number of 1..N
occurs at least once (any order, duplicates allowed, one fixed payload per
sequence number), if `conn_bufspace` reports enough space at every arrival, then
after `rel_recvpkt` has processed the whole sequence the byte strings passed to
`conn_output` are, in call order, `payload 1`, ..., `payload N`, each exactly
once (so their concatenation is `payload 1 ++ ... ++ payload N`), the session is
still alive, and `rec_nxt = N + 1`. -/
theorem C1_in_order_delivery (ck : packet_t → Nat → Nat) (c : Nat) (cc : config_common) (N : Nat)
    (payload : Nat → List Nat) (arrivals : List arrival)
    (hN : 1 ≤ N) (hcc : config_ok cc) (hW : (N : Int) ≤ cc.window)
    (hok : ∀ a ∈ arrivals, arrival_ok ck N payload a)
    (hall : ∀ s : Nat, 1 ≤ s → s ≤ N → ∃ a ∈ arrivals, ntohl a.pkt.seqno = s) :
    (recv_all ck (rel_create_session c cc) arrivals).destroyed = false ∧
    output_chunks (recv_all ck (rel_create_session c cc) arrivals).events =
      (List.range' 1 N).map payload ∧
    (output_chunks (recv_all ck (rel_create_session c cc) arrivals).events).flatten =
      ((List.range' 1 N).map payload).flatten ∧
    (recv_all ck (rel_create_session c cc) arrivals).r.rec_nxt = (N : Int) + 1 := by
  have hJ : delivery_inv N payload (rel_create_session c cc) := by
    refine ⟨rel_create_session_inv c cc hcc, rfl, hW, ?_, ?_⟩
    · simp only [rel_create_session]; omega
    · intro e he
      simp [rel_create_session] at he
  obtain ⟨t1, t2, t3, t4, _, t6⟩ := recv_all_spec ck N payload arrivals _ hJ hok
  generalize recv_all ck (rel_create_session c cc) arrivals = out at *
  have hfin : out.r.rec_nxt = (N : Int) + 1 := by
    obtain ⟨hinv, _, _, hle, _⟩ := t2
    have hn1 := hinv.rec_nxt_pos
    by_contra hne
    obtain ⟨a, ha, hs⟩ := hall out.r.rec_nxt.toNat (by omega) (by omega)
    have ht := t6 a ha
    rw [hs] at ht
    rcases ht with h | ⟨e, he, hse⟩
    · omega
    · have := hinv.rec_window.2 e he
      omega
  have hchunks : output_chunks out.events = (List.range' 1 N).map payload := by
    rw [t4, hfin]
    simp [rel_create_session]
  exact ⟨t1, hchunks, by rw [hchunks], hfin⟩

/-- Witness of C1: window 4, `N = 3`, arrivals 2, 1, 2, 3, 1. -/
theorem C1_in_order_delivery_witness :
    config_ok { window := 4, timeout := 1000 } ∧
    (∀ a ∈ example_arrivals, arrival_ok example_cksum 3 example_payload a) ∧
    (∀ s : Nat, 1 ≤ s → s ≤ 3 → ∃ a ∈ example_arrivals, ntohl a.pkt.seqno = s) ∧
    ((recv_all example_cksum (rel_create_session 0 { window := 4, timeout := 1000 })
        example_arrivals).destroyed = false ∧
    output_chunks (recv_all example_cksum (rel_create_session 0 { window := 4, timeout := 1000 })
        example_arrivals).events = (List.range' 1 3).map example_payload ∧
    (output_chunks (recv_all example_cksum
        (rel_create_session 0 { window := 4, timeout := 1000 }) example_arrivals).events).flatten =
      ((List.range' 1 3).map example_payload).flatten ∧
    (recv_all example_cksum (rel_create_session 0 { window := 4, timeout := 1000 })
        example_arrivals).r.rec_nxt = ((3 : Nat) : Int) + 1) :=
  ⟨by decide, by decide, fun s h1 h2 => by interval_cases s <;> decide,
   C1_in_order_delivery example_cksum 0 { window := 4, timeout := 1000 } 3 example_payload
     example_arrivals (by decide) (by decide) (by decide) (by decide)
     (fun s h1 h2 => by interval_cases s <;> decide)⟩

/-! ## The fuel of the acknowledgment scan -/

theorem ack_scan_cases (buffer : buffer_t) :
    ∀ (fuel : Nat) (t : Int),
      buffer_contains buffer (to_uint32 (ack_scan buffer fuel t)) = 0 ∨
      (ack_scan buffer fuel t = t + fuel ∧
        ∀ j : Nat, j < fuel → buffer_contains buffer (to_uint32 (t + j)) ≠ 0) := by
  intro fuel
  induction fuel with
  | zero => intro t; right; simp [ack_scan]
  | succ fuel ih =>
    intro t
    unfold ack_scan
    split
    · rename_i hc
      rcases ih (t + 1) with h | ⟨h1, h2⟩
      · exact Or.inl h
      · right
        refine ⟨by rw [h1]; push_cast; omega, ?_⟩
        intro j hj
        cases j with
        | zero => simpa using hc
        | succ j =>
          have := h2 j (by omega)
          have e : t + 1 + (j : Int) = t + ((j + 1 : Nat) : Int) := by push_cast; omega
          rw [e] at this
          exact this
    · rename_i hc
      exact Or.inl (by simpa using hc)

/-- The fuel of `ack_scan` is enough: with `buffer_size + 1` rounds the scan ends
on a sequence number that the buffer does not contain, as the loop of the
source does. -/
theorem ack_scan_terminates (buffer : buffer_t) (t : Int)
    (hsize : buffer_size buffer < 4294967296) :
    buffer_contains buffer (to_uint32 (ack_scan buffer (buffer_size buffer + 1) t)) = 0 := by
  rcases ack_scan_cases buffer (buffer_size buffer + 1) t with h | ⟨_, h⟩
  · exact h
  · exfalso
    have hnodup : ((List.range (buffer_size buffer + 1)).map
        (fun j : Nat => to_uint32 (t + j))).Nodup := by
      apply List.Nodup.map_on _ (List.nodup_range _)
      intro x hx y hy hxy
      rw [List.mem_range] at hx hy
      simp only [to_uint32] at hxy
      omega
    have hsub : (List.range (buffer_size buffer + 1)).map (fun j : Nat => to_uint32 (t + j)) ⊆
        buffer.map node_seq := by
      intro s hs
      obtain ⟨j, hj, rfl⟩ := List.mem_map.mp hs
      obtain ⟨e, he, hse⟩ := (buffer_contains_ne_zero _ _).mp (h j (List.mem_range.mp hj))
      exact List.mem_map.mpr ⟨e, he, hse⟩
    have := (List.subperm_of_subset hnodup hsub).length_le
    simp only [List.length_map, List.length_range, buffer_size] at this
    omega

/-! ## Receiving a DATA packet twice -/

theorem data_insert_of_stale (now_ms : Int) (r : rel_t) (pkt : packet_t) (packet_seq : Nat)
    (h : packet_seq < to_uint32 r.rec_nxt) : data_insert now_ms r pkt packet_seq = r := by
  unfold data_insert
  rw [if_pos h]

theorem data_insert_of_contained (now_ms : Int) (r : rel_t) (pkt : packet_t) (packet_seq : Nat)
    (h : buffer_contains r.rec_buffer packet_seq ≠ 0) :
    data_insert now_ms r pkt packet_seq = r := by
  unfold data_insert
  rw [if_neg h]
  simp

theorem data_deliver_of_ne (r1 : rel_t) (packet_seq : Nat)
    (h : packet_seq ≠ to_uint32 r1.rec_nxt) : data_deliver r1 packet_seq = (r1, []) := by
  unfold data_deliver
  rw [if_neg h]

theorem data_step_idem (now1 now2 : Int) (r : rel_t) (pkt : packet_t)
    (hinv : SessionInv r)
    (hwin : ntohl pkt.seqno < to_uint32 (r.rec_nxt + r.windowSize)) :
    data_insert now2
        (data_deliver (data_insert now1 r pkt (ntohl pkt.seqno)) (ntohl pkt.seqno)).1 pkt
        (ntohl pkt.seqno) =
      (data_deliver (data_insert now1 r pkt (ntohl pkt.seqno)) (ntohl pkt.seqno)).1 ∧
    data_deliver (data_deliver (data_insert now1 r pkt (ntohl pkt.seqno)) (ntohl pkt.seqno)).1
        (ntohl pkt.seqno) =
      ((data_deliver (data_insert now1 r pkt (ntohl pkt.seqno)) (ntohl pkt.seqno)).1, []) := by
  obtain ⟨hweak, _⟩ := data_insert_window now1 r pkt hinv hwin
  have hn1 := hinv.rec_nxt_pos
  have hn2 := hinv.rec_nxt_lt
  have hu := to_uint32_of_range r.rec_nxt (by omega) hn2
  have hf : (data_insert now1 r pkt (ntohl pkt.seqno)).rec_nxt = r.rec_nxt := by
    rw [data_insert_frame]
  obtain ⟨k1, _, _⟩ := run_len_drop _ r.rec_nxt r.rec_nxt r.windowSize (by omega) hn2 hweak
  by_cases heq : ntohl pkt.seqno = to_uint32 (data_insert now1 r pkt (ntohl pkt.seqno)).rec_nxt
  · have hstale : ¬ ntohl pkt.seqno < to_uint32 r.rec_nxt := by rw [hf] at heq; omega
    obtain ⟨e, he, hse⟩ := data_insert_contains now1 r pkt hstale
    have hne := run_len_not_contains _ r.rec_nxt r.rec_nxt r.windowSize (by omega) hn2 hweak e he
    have hnew : (data_deliver (data_insert now1 r pkt (ntohl pkt.seqno))
        (ntohl pkt.seqno)).1.rec_nxt =
        r.rec_nxt + run_len (data_insert now1 r pkt (ntohl pkt.seqno)).rec_buffer r.rec_nxt := by
      unfold data_deliver
      rw [if_pos heq, rel_output_eq, hf]
    have hu2 := to_uint32_of_range _ (by omega) k1
    rw [← hnew] at hu2
    rw [hf] at heq
    have hlt : ntohl pkt.seqno < to_uint32 (data_deliver (data_insert now1 r pkt
        (ntohl pkt.seqno)) (ntohl pkt.seqno)).1.rec_nxt := by omega
    exact ⟨data_insert_of_stale _ _ _ _ hlt, data_deliver_of_ne _ _ (by omega)⟩
  · have hd : data_deliver (data_insert now1 r pkt (ntohl pkt.seqno)) (ntohl pkt.seqno) =
        (data_insert now1 r pkt (ntohl pkt.seqno), []) := by
      unfold data_deliver
      rw [if_neg heq]
    rw [hd]
    refine ⟨?_, hd⟩
    simp only
    by_cases hstale : ntohl pkt.seqno < to_uint32 r.rec_nxt
    · exact data_insert_of_stale _ _ _ _ (by rw [hf]; exact hstale)
    · obtain ⟨e, he, hse⟩ := data_insert_contains now1 r pkt hstale
      exact data_insert_of_contained _ _ _ _ ((buffer_contains_ne_zero _ _).mpr ⟨e, he, hse⟩)

/-- C4: for every reachable live session and every valid DATA packet that is
accepted (its sequence number is below `rec_nxt + windowSize`, a sum within the
range of `int`; `conn_bufspace` reports enough space on both receipts; the
first receipt does not destroy the session), processing the same packet twice
in succession leaves, after the second receipt, the session exactly as it was
after the first (the same receive buffer and the same `rec_nxt`), writes no
further bytes to `conn_output`, and transmits exactly two ACK packets, one per
receipt, which are equal and so carry the same acknowledgment number. -/
theorem C4_data_receipt_idempotent (ck : packet_t → Nat → Nat) (b1 b2 : Nat) (now1 now2 : Int)
    (inputs1 inputs2 : List conn_input_result) (r : rel_t) (pkt : packet_t) (n : Nat)
    (hr : Reachable ck r) (hv : valid_packet ck pkt n) (hdata : ntohs pkt.len ≠ 8)
    (hwin : ntohl pkt.seqno < to_uint32 (r.rec_nxt + r.windowSize))
    (hs1 : ntohs pkt.len ≤ b1) (hs2 : ntohs pkt.len ≤ b2)
    (hlive : (rel_recvpkt ck b1 now1 inputs1 r pkt n).destroyed = false)
    (hdef : r.rec_nxt + r.windowSize < 2147483648) :
    (rel_recvpkt ck b2 now2 inputs2 (rel_recvpkt ck b1 now1 inputs1 r pkt n).r pkt n).r =
        (rel_recvpkt ck b1 now1 inputs1 r pkt n).r ∧
    (rel_recvpkt ck b2 now2 inputs2 (rel_recvpkt ck b1 now1 inputs1 r pkt n).r pkt n).destroyed
        = false ∧
    output_chunks ((rel_recvpkt ck b1 now1 inputs1 r pkt n).events ++
        (rel_recvpkt ck b2 now2 inputs2 (rel_recvpkt ck b1 now1 inputs1 r pkt n).r pkt n).events)
      = output_chunks (rel_recvpkt ck b1 now1 inputs1 r pkt n).events ∧
    ∃ ackpkt : packet_t, ntohs ackpkt.len = 8 ∧
      sent_packets (rel_recvpkt ck b1 now1 inputs1 r pkt n).events = [(ackpkt, 8)] ∧
      sent_packets
        (rel_recvpkt ck b2 now2 inputs2 (rel_recvpkt ck b1 now1 inputs1 r pkt n).r pkt n).events
        = [(ackpkt, 8)] := by
  have hinv := reachable_inv ck r hr
  have hinv1 := rel_recvpkt_inv ck b1 now1 inputs1 r pkt n hinv hlive
  have hwin0 : ntohl ({ pkt with cksum := 0 } : packet_t).seqno <
      to_uint32 (r.rec_nxt + r.windowSize) := hwin
  obtain ⟨s1, _, _⟩ := data_step_spec now1 r { pkt with cksum := 0 } hinv hwin0
  obtain ⟨_, e2⟩ := rel_recvpkt_data_rec_nxt ck b1 now1 r { pkt with cksum := 0 }
    (ntohs pkt.len) hwin0 hs1
  obtain ⟨i1, i2⟩ := data_step_idem now1 now2 r { pkt with cksum := 0 } hinv hwin0
  have hout1 : (rel_recvpkt ck b1 now1 inputs1 r pkt n).r =
      (data_deliver (data_insert now1 r { pkt with cksum := 0 } (ntohl pkt.seqno))
        (ntohl pkt.seqno)).1 := by
    rw [rel_recvpkt_of_valid ck b1 now1 inputs1 r pkt n hv, if_neg hdata] at hlive ⊢
    rw [rel_recvpkt_data_accept ck b1 now1 r _ _ hwin0 hs1] at hlive ⊢
    split
    · rename_i hb
      rw [if_pos hb] at hlive
      simp at hlive
    · rfl
  have hev1 : sent_packets (rel_recvpkt ck b1 now1 inputs1 r pkt n).events =
      [(make_ackpkt ck (data_temp_seq r
        (data_insert now1 r { pkt with cksum := 0 } (ntohl pkt.seqno)) (ntohl pkt.seqno)), 8)] := by
    rw [rel_recvpkt_of_valid ck b1 now1 inputs1 r pkt n hv, if_neg hdata]
    exact e2
  have hwin20 : ntohl ({ pkt with cksum := 0 } : packet_t).seqno <
      to_uint32 ((rel_recvpkt ck b1 now1 inputs1 r pkt n).r.rec_nxt +
        (rel_recvpkt ck b1 now1 inputs1 r pkt n).r.windowSize) := by
    rw [hout1]
    obtain ⟨hweak, _⟩ := data_insert_window now1 r { pkt with cksum := 0 } hinv hwin0
    have hframe := data_insert_frame now1 r { pkt with cksum := 0 } (ntohl pkt.seqno)
    have hn1 := hinv.rec_nxt_pos
    have hw1 := hinv.window_pos
    simp only at hweak hframe ⊢
    generalize data_insert now1 r { pkt with cksum := 0 } (ntohl pkt.seqno) = r1 at *
    have hf_nxt : r1.rec_nxt = r.rec_nxt := by rw [hframe]
    have hf_w : r1.windowSize = r.windowSize := by rw [hframe]
    obtain ⟨_, _, d3, d4, _, _, d7, _⟩ := data_deliver_spec r1 (ntohl pkt.seqno)
      (by omega) (by omega) (by rw [hf_nxt, hf_w]; exact hweak)
    have hle : (data_deliver r1 (ntohl pkt.seqno)).1.rec_nxt ≤ r.rec_nxt + r.windowSize := by
      by_contra hgt
      obtain ⟨e, he, hse⟩ := d7 (r.rec_nxt + r.windowSize).toNat (by omega) (by omega)
      have := hweak.2 e he
      omega
    rw [d3, hf_w]
    show ntohl pkt.seqno < _
    unfold to_uint32 at hwin ⊢
    omega
  generalize rel_recvpkt ck b1 now1 inputs1 r pkt n = out1 at *
  obtain ⟨t1, _, _⟩ := data_step_spec now2 out1.r { pkt with cksum := 0 } hinv1 hwin20
  simp only at s1 t1 i1 i2 hout1
  rw [← hout1] at i1 i2 s1
  have hsecond : rel_recvpkt ck b2 now2 inputs2 out1.r pkt n =
      ⟨out1.r, false, [Event.conn_sendpkt out1.r.c (make_ackpkt ck out1.r.rec_nxt) 8]⟩ := by
    rw [rel_recvpkt_of_valid ck b2 now2 inputs2 out1.r pkt n hv, if_neg hdata]
    rw [rel_recvpkt_data_accept ck b2 now2 out1.r _ _ hwin20 hs2]
    simp only
    rw [t1, i1, i2]
    simp only
    rw [if_neg hinv1.not_both]
  rw [hsecond, hev1, s1]
  refine ⟨rfl, rfl, ?_, _, by simp [make_ackpkt, htons, ntohs], rfl, rfl⟩
  rw [output_chunks_append]
  simp [output_chunks]

/-- Witness of C4: the fresh session receives the DATA packet 1 twice. -/
theorem C4_data_receipt_idempotent_witness :
    Reachable example_cksum example_session ∧
    valid_packet example_cksum (example_data 1 [5]) 13 ∧
    (rel_recvpkt example_cksum 1000 0 [] example_session (example_data 1 [5]) 13).destroyed
      = false ∧
    example_session.rec_nxt + example_session.windowSize < 2147483648 ∧
    output_chunks (rel_recvpkt example_cksum 1000 0 [] example_session
      (example_data 1 [5]) 13).events = [[5]] ∧
    ((rel_recvpkt example_cksum 1000 7 []
        (rel_recvpkt example_cksum 1000 0 [] example_session (example_data 1 [5]) 13).r
        (example_data 1 [5]) 13).r =
        (rel_recvpkt example_cksum 1000 0 [] example_session (example_data 1 [5]) 13).r ∧
    (rel_recvpkt example_cksum 1000 7 []
        (rel_recvpkt example_cksum 1000 0 [] example_session (example_data 1 [5]) 13).r
        (example_data 1 [5]) 13).destroyed = false ∧
    output_chunks ((rel_recvpkt example_cksum 1000 0 [] example_session
          (example_data 1 [5]) 13).events ++
        (rel_recvpkt example_cksum 1000 7 []
          (rel_recvpkt example_cksum 1000 0 [] example_session (example_data 1 [5]) 13).r
          (example_data 1 [5]) 13).events)
      = output_chunks (rel_recvpkt example_cksum 1000 0 [] example_session
          (example_data 1 [5]) 13).events ∧
    ∃ ackpkt : packet_t, ntohs ackpkt.len = 8 ∧
      sent_packets (rel_recvpkt example_cksum 1000 0 [] example_session
        (example_data 1 [5]) 13).events = [(ackpkt, 8)] ∧
      sent_packets
        (rel_recvpkt example_cksum 1000 7 []
          (rel_recvpkt example_cksum 1000 0 [] example_session (example_data 1 [5]) 13).r
          (example_data 1 [5]) 13).events
        = [(ackpkt, 8)]) :=
  ⟨Reachable.create 0 { window := 4, timeout := 1000 } (by decide), by decide, by decide,
   by decide, by decide,
   C4_data_receipt_idempotent example_cksum 1000 1000 0 7 [] [] example_session
     (example_data 1 [5]) 13
     (Reachable.create 0 { window := 4, timeout := 1000 } (by decide))
     (by decide) (by decide) (by decide) (by decide) (by decide) (by decide) (by decide)⟩

/-! ## Frame of the DATA branch -/

theorem input_calls_append (a b : List Event) :
    input_calls (a ++ b) = input_calls a + input_calls b := by
  induction a with
  | nil => simp [input_calls]
  | cons e a ih =>
    cases e <;> simp [input_calls, ih]
    omega

theorem input_calls_outputs (c : Nat) (l : List buffer_node_t) :
    input_calls (l.map (fun e =>
      Event.conn_output c e.packet.data ((ntohs e.packet.len : Int) - 12))) = 0 := by
  induction l with
  | nil => rfl
  | cons e l ih => simp [input_calls, ih]

theorem data_deliver_frame (r1 : rel_t) (packet_seq : Nat) :
    (data_deliver r1 packet_seq).1.c = r1.c ∧
    (data_deliver r1 packet_seq).1.send_buffer = r1.send_buffer ∧
    (data_deliver r1 packet_seq).1.send_unack = r1.send_unack ∧
    (data_deliver r1 packet_seq).1.send_nxt = r1.send_nxt ∧
    (data_deliver r1 packet_seq).1.timeout = r1.timeout ∧
    (data_deliver r1 packet_seq).1.windowSize = r1.windowSize ∧
    (data_deliver r1 packet_seq).1.eof_self = r1.eof_self ∧
    (data_deliver r1 packet_seq).1.eof_ack = r1.eof_ack ∧
    input_calls (data_deliver r1 packet_seq).2 = 0 := by
  unfold data_deliver
  split
  · rw [rel_output_eq]
    exact ⟨rfl, rfl, rfl, rfl, rfl, rfl, rfl, rfl, input_calls_outputs _ _⟩
  · exact ⟨rfl, rfl, rfl, rfl, rfl, rfl, rfl, rfl, rfl⟩

theorem rel_recvpkt_data_frame (ck : packet_t → Nat → Nat) (bufspace : Nat) (now_ms : Int)
    (r : rel_t) (pkt : packet_t) (packet_len : Nat)
    (hlive : (rel_recvpkt_data ck bufspace now_ms r pkt packet_len).destroyed = false) :
    (rel_recvpkt_data ck bufspace now_ms r pkt packet_len).r.send_buffer = r.send_buffer ∧
    (rel_recvpkt_data ck bufspace now_ms r pkt packet_len).r.send_unack = r.send_unack ∧
    (rel_recvpkt_data ck bufspace now_ms r pkt packet_len).r.send_nxt = r.send_nxt ∧
    (rel_recvpkt_data ck bufspace now_ms r pkt packet_len).r.eof_ack = r.eof_ack ∧
    (rel_recvpkt_data ck bufspace now_ms r pkt packet_len).r.eof_self = r.eof_self ∧
    (rel_recvpkt_data ck bufspace now_ms r pkt packet_len).r.c = r.c ∧
    input_calls (rel_recvpkt_data ck bufspace now_ms r pkt packet_len).events = 0 := by
  by_cases hwin : ntohl pkt.seqno < to_uint32 (r.rec_nxt + r.windowSize)
  · by_cases hspace : packet_len ≤ bufspace
    · rw [rel_recvpkt_data_accept ck bufspace now_ms r pkt packet_len hwin hspace] at hlive ⊢
      obtain ⟨f0, f1, f2, f3, _, _, f7, f8, f9⟩ :=
        data_deliver_frame (data_insert now_ms r pkt (ntohl pkt.seqno)) (ntohl pkt.seqno)
      have hframe := data_insert_frame now_ms r pkt (ntohl pkt.seqno)
      generalize data_insert now_ms r pkt (ntohl pkt.seqno) = r1 at *
      have g0 : r1.c = r.c := by rw [hframe]
      have g1 : r1.send_buffer = r.send_buffer := by rw [hframe]
      have g2 : r1.send_unack = r.send_unack := by rw [hframe]
      have g3 : r1.send_nxt = r.send_nxt := by rw [hframe]
      have g7 : r1.eof_self = r.eof_self := by rw [hframe]
      have g8 : r1.eof_ack = r.eof_ack := by rw [hframe]
      split
      · rename_i hb
        rw [if_pos hb] at hlive
        simp at hlive
      · simp only [input_calls, f9]
        exact ⟨f1.trans g1, f2.trans g2, f3.trans g3, f8.trans g8, f7.trans g7, f0.trans g0,
          trivial⟩
    · rw [rel_recvpkt_data_drop ck bufspace now_ms r pkt packet_len (by omega)]
      exact ⟨rfl, rfl, rfl, rfl, rfl, rfl, rfl⟩
  · unfold rel_recvpkt_data
    rw [if_pos (by omega)]
    exact ⟨rfl, rfl, rfl, rfl, rfl, rfl, rfl⟩

/-- C19: for every session and every valid packet whose length is not 8
(processed as DATA), whatever acknowledgment number it carries, if the call does
not destroy the session then `rel_recvpkt` leaves the send buffer (entries and
timestamps), `send_unack`, `send_nxt`, `eof_ack` and `eof_self` unchanged and
makes no call of `conn_input`. -/
theorem C19_data_leaves_send_side (ck : packet_t → Nat → Nat) (bufspace : Nat) (now_ms : Int)
    (inputs : List conn_input_result) (r : rel_t) (pkt : packet_t) (n : Nat)
    (hv : valid_packet ck pkt n) (hdata : ntohs pkt.len ≠ 8)
    (hlive : (rel_recvpkt ck bufspace now_ms inputs r pkt n).destroyed = false) :
    (rel_recvpkt ck bufspace now_ms inputs r pkt n).r.send_buffer = r.send_buffer ∧
    (rel_recvpkt ck bufspace now_ms inputs r pkt n).r.send_unack = r.send_unack ∧
    (rel_recvpkt ck bufspace now_ms inputs r pkt n).r.send_nxt = r.send_nxt ∧
    (rel_recvpkt ck bufspace now_ms inputs r pkt n).r.eof_ack = r.eof_ack ∧
    (rel_recvpkt ck bufspace now_ms inputs r pkt n).r.eof_self = r.eof_self ∧
    input_calls (rel_recvpkt ck bufspace now_ms inputs r pkt n).events = 0 := by
  rw [rel_recvpkt_of_valid ck bufspace now_ms inputs r pkt n hv, if_neg hdata] at hlive ⊢
  obtain ⟨h1, h2, h3, h4, h5, _, h7⟩ := rel_recvpkt_data_frame ck bufspace now_ms r _ _ hlive
  exact ⟨h1, h2, h3, h4, h5, h7⟩

/-- Witness of C19: the session with four packets in flight receives the DATA
packet 1, which carries the acknowledgment number 1, while input is waiting. -/
theorem C19_data_leaves_send_side_witness :
    valid_packet example_cksum (example_data 1 [5]) 13 ∧
    ntohs (example_data 1 [5]).len ≠ 8 ∧
    (rel_recvpkt example_cksum 1000 9 [conn_input_result.bytes [3]] example_session2
      (example_data 1 [5]) 13).destroyed = false ∧
    buffer_size example_session2.send_buffer = 4 ∧
    ((rel_recvpkt example_cksum 1000 9 [conn_input_result.bytes [3]] example_session2
        (example_data 1 [5]) 13).r.send_buffer = example_session2.send_buffer ∧
    (rel_recvpkt example_cksum 1000 9 [conn_input_result.bytes [3]] example_session2
        (example_data 1 [5]) 13).r.send_unack = example_session2.send_unack ∧
    (rel_recvpkt example_cksum 1000 9 [conn_input_result.bytes [3]] example_session2
        (example_data 1 [5]) 13).r.send_nxt = example_session2.send_nxt ∧
    (rel_recvpkt example_cksum 1000 9 [conn_input_result.bytes [3]] example_session2
        (example_data 1 [5]) 13).r.eof_ack = example_session2.eof_ack ∧
    (rel_recvpkt example_cksum 1000 9 [conn_input_result.bytes [3]] example_session2
        (example_data 1 [5]) 13).r.eof_self = example_session2.eof_self ∧
    input_calls (rel_recvpkt example_cksum 1000 9 [conn_input_result.bytes [3]] example_session2
        (example_data 1 [5]) 13).events = 0) :=
  ⟨by decide, by decide, by decide, by decide,
   C19_data_leaves_send_side example_cksum 1000 9 [conn_input_result.bytes [3]] example_session2
     (example_data 1 [5]) 13 (by decide) (by decide) (by decide)⟩

/-- C18 at the failing input: a fresh session receives a 9-byte packet whose
length field (9) and checksum are correct.  It passes both checks, is processed
on the DATA path, is inserted into the receive buffer and delivered at once, and
`rel_output` passes the byte count `9 - 12 = -3` to `conn_output`. -/
theorem C18_negative_byte_count :
    valid_packet example_cksum example_short 9 ∧
    ntohs example_short.len ≠ 8 ∧ ¬ 12 ≤ ntohs example_short.len ∧
    (rel_recvpkt example_cksum 1000 0 [] example_session example_short 9).events =
      [Event.conn_sendpkt 0 (example_ack 2) 8, Event.conn_output 0 [] (-3)] ∧
    (rel_recvpkt example_cksum 1000 0 [] example_session example_short 9).r.rec_nxt = 2 := by
  decide

/-! ## The rounds of `rel_read` -/

theorem rel_read_loop_stop (ck : packet_t → Nat → Nat) (now_ms : Int)
    (inputs : List conn_input_result) (s : rel_t) (h : ¬ read_cond s) :
    rel_read_loop ck now_ms inputs s = (s, []) := by
  unfold read_cond at h
  cases inputs with
  | nil => unfold rel_read_loop; rw [if_neg h]
  | cons input inputs => unfold rel_read_loop; rw [if_neg h]

theorem rel_read_loop_nil (ck : packet_t → Nat → Nat) (now_ms : Int) (s : rel_t)
    (h : read_cond s) : rel_read_loop ck now_ms [] s = (s, [Event.conn_input s.c 500]) := by
  unfold read_cond at h
  unfold rel_read_loop
  rw [if_pos h]

theorem rel_read_loop_no_data (ck : packet_t → Nat → Nat) (now_ms : Int)
    (inputs : List conn_input_result) (s : rel_t) (h : read_cond s) :
    rel_read_loop ck now_ms (conn_input_result.no_data :: inputs) s =
      (s, [Event.conn_input s.c 500]) := by
  unfold read_cond at h
  unfold rel_read_loop
  rw [if_pos h]

theorem rel_read_loop_eof (ck : packet_t → Nat → Nat) (now_ms : Int)
    (inputs : List conn_input_result) (s : rel_t) (h : read_cond s) :
    rel_read_loop ck now_ms (conn_input_result.eof :: inputs) s =
      (read_eof_step ck now_ms s,
        [Event.conn_input s.c 500, Event.conn_sendpkt s.c (make_eofpkt ck s) 12]) := by
  unfold read_cond at h
  unfold rel_read_loop
  rw [if_pos h]
  rfl

theorem rel_read_loop_empty (ck : packet_t → Nat → Nat) (now_ms : Int)
    (inputs : List conn_input_result) (s : rel_t) (h : read_cond s) :
    rel_read_loop ck now_ms (conn_input_result.bytes [] :: inputs) s =
      (s, [Event.conn_input s.c 500]) := by
  unfold read_cond at h
  unfold rel_read_loop
  rw [if_pos h]
  rfl

theorem rel_read_loop_bytes (ck : packet_t → Nat → Nat) (now_ms : Int)
    (inputs : List conn_input_result) (s : rel_t) (buf : List Nat) (h : read_cond s)
    (hbuf : buf ≠ []) :
    rel_read_loop ck now_ms (conn_input_result.bytes buf :: inputs) s =
      ((rel_read_loop ck now_ms inputs (read_data_step ck now_ms s buf)).1,
        Event.conn_input s.c 500 ::
          Event.conn_sendpkt s.c (make_datapkt ck s buf) (12 + buf.length) ::
            (rel_read_loop ck now_ms inputs (read_data_step ck now_ms s buf)).2) := by
  unfold read_cond at h
  have hlen : ¬ ((buf.length : Nat) : Int) = 0 := by
    have := List.length_pos.mpr hbuf
    omega
  conv_lhs => unfold rel_read_loop
  rw [if_pos h]
  simp only
  rw [if_neg hlen]
  rfl

/-! ## The counter `send_unack` -/

theorem rel_read_loop_cases (ck : packet_t → Nat → Nat) (now_ms : Int)
    (inputs : List conn_input_result) (s : rel_t) :
    (rel_read_loop ck now_ms inputs s = (s, []) ∧ ¬ read_cond s) ∨
    (rel_read_loop ck now_ms inputs s = (s, [Event.conn_input s.c 500]) ∧ read_cond s ∧
      (inputs = [] ∨ ∃ rest, inputs = conn_input_result.no_data :: rest ∨
        inputs = conn_input_result.bytes [] :: rest)) ∨
    (∃ rest, inputs = conn_input_result.eof :: rest ∧ read_cond s ∧
      rel_read_loop ck now_ms inputs s =
        (read_eof_step ck now_ms s,
          [Event.conn_input s.c 500, Event.conn_sendpkt s.c (make_eofpkt ck s) 12])) ∨
    (∃ buf rest, inputs = conn_input_result.bytes buf :: rest ∧ buf ≠ [] ∧ read_cond s ∧
      rel_read_loop ck now_ms inputs s =
        ((rel_read_loop ck now_ms rest (read_data_step ck now_ms s buf)).1,
          Event.conn_input s.c 500 ::
            Event.conn_sendpkt s.c (make_datapkt ck s buf) (12 + buf.length) ::
              (rel_read_loop ck now_ms rest (read_data_step ck now_ms s buf)).2)) := by
  by_cases h : read_cond s
  · cases inputs with
    | nil => exact Or.inr (Or.inl ⟨rel_read_loop_nil ck now_ms s h, h, Or.inl rfl⟩)
    | cons input rest =>
      cases input with
      | no_data =>
        exact Or.inr (Or.inl ⟨rel_read_loop_no_data ck now_ms rest s h, h,
          Or.inr ⟨rest, Or.inl rfl⟩⟩)
      | eof => exact Or.inr (Or.inr (Or.inl ⟨rest, rfl, h, rel_read_loop_eof ck now_ms rest s h⟩))
      | bytes buf =>
        by_cases hbuf : buf = []
        · subst hbuf
          exact Or.inr (Or.inl ⟨rel_read_loop_empty ck now_ms rest s h, h,
            Or.inr ⟨rest, Or.inr rfl⟩⟩)
        · exact Or.inr (Or.inr (Or.inr ⟨buf, rest, rfl, hbuf, h,
            rel_read_loop_bytes ck now_ms rest s buf h hbuf⟩))
  · exact Or.inl ⟨rel_read_loop_stop ck now_ms inputs s h, h⟩

theorem rel_read_loop_send_nxt_le (ck : packet_t → Nat → Nat) (now_ms : Int) :
    ∀ (inputs : List conn_input_result) (s : rel_t),
      s.send_nxt ≤ (rel_read_loop ck now_ms inputs s).1.send_nxt := by
  intro inputs
  induction inputs with
  | nil =>
    intro s
    rcases rel_read_loop_cases ck now_ms [] s with ⟨h, _⟩ | ⟨h, _⟩ | ⟨_, h, _⟩ | ⟨_, _, h, _⟩
    · rw [h]
    · rw [h]
    · simp at h
    · simp at h
  | cons input inputs ih =>
    intro s
    rcases rel_read_loop_cases ck now_ms (input :: inputs) s with
      ⟨h, _⟩ | ⟨h, _⟩ | ⟨_, _, _, h⟩ | ⟨buf, rest, hi, _, _, h⟩
    · rw [h]
    · rw [h]
    · rw [h]
      simp only [read_eof_step]
      omega
    · rw [h]
      obtain ⟨_, rfl⟩ := List.cons.inj hi
      have := ih (read_data_step ck now_ms s buf)
      simp only [read_data_step] at this ⊢
      omega

theorem rel_recvpkt_ack_send_unack (ck : packet_t → Nat → Nat) (now_ms : Int)
    (inputs : List conn_input_result) (r : rel_t) (packet_ack : Nat) :
    (rel_recvpkt_ack ck now_ms inputs r packet_ack).r.send_unack = to_int packet_ack ∧
    r.send_nxt ≤ (rel_recvpkt_ack ck now_ms inputs r packet_ack).r.send_nxt := by
  unfold rel_recvpkt_ack
  simp only
  split
  · split
    · rw [rel_output_eq]
      exact ⟨rfl, le_refl _⟩
    · unfold rel_read
      exact ⟨(rel_read_loop_frame ck now_ms inputs _).2.2.2.2.2.2.2,
        rel_read_loop_send_nxt_le ck now_ms inputs _⟩
  · unfold rel_read
    exact ⟨(rel_read_loop_frame ck now_ms inputs _).2.2.2.2.2.2.2,
      rel_read_loop_send_nxt_le ck now_ms inputs _⟩

/-- C17 (amended): for every session and every valid ACK packet with the
acknowledgment number `k`, the value of `send_unack` after `rel_recvpkt` is `k`
converted to `int` (`k` itself when `k` is below `2^31`), whatever it was before
the call; so when `k` is at least the old `send_unack` and at most `send_nxt`
(and below `2^31`), `send_unack` after the call is greater than or equal to its
value before the call and does not exceed `send_nxt`. -/
theorem C17_send_unack_follows_ack (ck : packet_t → Nat → Nat) (bufspace : Nat) (now_ms : Int)
    (inputs : List conn_input_result) (r : rel_t) (pkt : packet_t)
    (hv : valid_packet ck pkt 8) :
    (rel_recvpkt ck bufspace now_ms inputs r pkt 8).r.send_unack = to_int (ntohl pkt.ackno) ∧
    (ntohl pkt.ackno < 2147483648 →
      (rel_recvpkt ck bufspace now_ms inputs r pkt 8).r.send_unack = (ntohl pkt.ackno : Int)) ∧
    (r.send_unack ≤ (ntohl pkt.ackno : Int) → (ntohl pkt.ackno : Int) ≤ r.send_nxt →
      ntohl pkt.ackno < 2147483648 →
      r.send_unack ≤ (rel_recvpkt ck bufspace now_ms inputs r pkt 8).r.send_unack ∧
      (rel_recvpkt ck bufspace now_ms inputs r pkt 8).r.send_unack ≤
        (rel_recvpkt ck bufspace now_ms inputs r pkt 8).r.send_nxt) := by
  rw [rel_recvpkt_of_valid ck bufspace now_ms inputs r pkt 8 hv, if_pos hv.1]
  obtain ⟨h1, h2⟩ := rel_recvpkt_ack_send_unack ck now_ms inputs r (ntohl pkt.ackno)
  have h3 : ntohl pkt.ackno < 2147483648 →
      to_int (ntohl pkt.ackno) = (ntohl pkt.ackno : Int) := by
    intro hrange
    unfold to_int
    have : ntohl pkt.ackno % 4294967296 = ntohl pkt.ackno := by unfold ntohl; omega
    rw [this, if_pos hrange]
  refine ⟨h1, fun hrange => ?_, fun hlow hhigh hrange => ?_⟩
  · rw [h1, h3 hrange]
  · rw [h1, h3 hrange]
    exact ⟨hlow, by omega⟩

/-- Witness of C17 (amended): the session that sent the packets 1 and 2 and
received the ACK 3 (`send_unack = 3`) receives the ACK 2 late, and `send_unack`
is 2 after the call; the session with the packets 1 and 2 in flight
(`send_unack = 1`, `send_nxt = 3`) receives the ACK 2, and `send_unack` moves
forward to 2, below `send_nxt`. -/
theorem C17_send_unack_follows_ack_witness :
    (valid_packet example_cksum (example_ack 2) 8 ∧
      example_acked_session.send_unack = 3 ∧
      (rel_recvpkt example_cksum 0 0 [] example_acked_session (example_ack 2) 8).r.send_unack
        = to_int (ntohl (example_ack 2).ackno) ∧
      to_int (ntohl (example_ack 2).ackno) = 2) ∧
    (valid_packet example_cksum (example_ack 2) 8 ∧
      (rel_read example_cksum 0 [conn_input_result.bytes [1], conn_input_result.bytes [2]]
        example_session).1.send_unack ≤ (ntohl (example_ack 2).ackno : Int) ∧
      (ntohl (example_ack 2).ackno : Int) ≤
        (rel_read example_cksum 0 [conn_input_result.bytes [1], conn_input_result.bytes [2]]
          example_session).1.send_nxt ∧
      ntohl (example_ack 2).ackno < 2147483648 ∧
      ((rel_read example_cksum 0 [conn_input_result.bytes [1], conn_input_result.bytes [2]]
          example_session).1.send_unack ≤
        (rel_recvpkt example_cksum 0 0 []
          (rel_read example_cksum 0 [conn_input_result.bytes [1], conn_input_result.bytes [2]]
            example_session).1 (example_ack 2) 8).r.send_unack ∧
      (rel_recvpkt example_cksum 0 0 []
          (rel_read example_cksum 0 [conn_input_result.bytes [1], conn_input_result.bytes [2]]
            example_session).1 (example_ack 2) 8).r.send_unack ≤
        (rel_recvpkt example_cksum 0 0 []
          (rel_read example_cksum 0 [conn_input_result.bytes [1], conn_input_result.bytes [2]]
            example_session).1 (example_ack 2) 8).r.send_nxt)) :=
  ⟨⟨by decide, by decide,
     (C17_send_unack_follows_ack example_cksum 0 0 [] example_acked_session (example_ack 2)
       (by decide)).1, by decide⟩,
   ⟨by decide, by decide, by decide, by decide,
     (C17_send_unack_follows_ack example_cksum 0 0 []
       (rel_read example_cksum 0 [conn_input_result.bytes [1], conn_input_result.bytes [2]]
         example_session).1 (example_ack 2) (by decide)).2.2 (by decide) (by decide)
       (by decide)⟩⟩

/-- C17 as stated fails, in both parts.  The reachable session that sent the
packets 1 and 2 and received the ACK 3 (`send_unack = 3`) receives the old ACK 2
late: `send_unack` drops to 2.  A fresh session (`send_nxt = 1`) receives the
valid ACK 5: `send_unack` becomes 5 and exceeds `send_nxt`. -/
theorem C17_counterexample :
    (Reachable example_cksum example_acked_session ∧
      valid_packet example_cksum (example_ack 2) 8 ∧
      (rel_recvpkt example_cksum 0 0 [] example_acked_session (example_ack 2) 8).destroyed
        = false ∧
      ¬ (example_acked_session.send_unack ≤
        (rel_recvpkt example_cksum 0 0 [] example_acked_session (example_ack 2) 8).r.send_unack)) ∧
    (Reachable example_cksum example_session ∧
      valid_packet example_cksum (example_ack 5) 8 ∧
      (rel_recvpkt example_cksum 0 0 [] example_session (example_ack 5) 8).destroyed = false ∧
      ¬ ((rel_recvpkt example_cksum 0 0 [] example_session (example_ack 5) 8).r.send_unack ≤
        (rel_recvpkt example_cksum 0 0 [] example_session (example_ack 5) 8).r.send_nxt)) :=
  ⟨⟨Reachable.recvpkt _ 0 0 [] (example_ack 3) 8
      (Reachable.read example_session 0
        [conn_input_result.bytes [1], conn_input_result.bytes [2]]
        (Reachable.create 0 { window := 4, timeout := 1000 } (by decide))) (by decide),
    by decide, by decide, by decide⟩,
   ⟨Reachable.create 0 { window := 4, timeout := 1000 } (by decide),
    by decide, by decide, by decide⟩⟩

/-! ## The timer -/

theorem rel_timer_nodes_eq (c : Nat) (timeout now_ms : Int) (buffer : buffer_t) :
    rel_timer_nodes c timeout now_ms buffer =
      (buffer.map (after_timer timeout now_ms),
        (buffer.filter (expired timeout now_ms)).map (retransmission c)) := by
  induction buffer with
  | nil => rfl
  | cons node rest ih =>
    unfold rel_timer_nodes
    rw [ih]
    by_cases h : node.last_retransmit + timeout < now_ms
    · have he : expired timeout now_ms node = true := by simp [expired, h]
      simp [h, he, after_timer, retransmission]
    · have he : expired timeout now_ms node = false := by simp [expired, h]
      simp [h, he, after_timer]

theorem rel_timer_session_eq (now_ms : Int) (r : rel_t) :
    rel_timer_session now_ms r =
      ({ r with send_buffer := r.send_buffer.map (after_timer r.timeout now_ms) },
        (r.send_buffer.filter (expired r.timeout now_ms)).map (retransmission r.c)) := by
  unfold rel_timer_session
  rw [rel_timer_nodes_eq]

/-- C11: for every registry state and every clock value `now_ms`, `rel_timer`
leaves every session of `rel_list` in place and as it was, but for the
timestamps of its send buffer: an entry `e` is stamped with `now_ms` if and only
if `e.last_retransmit + timeout < now_ms` (strictly), in which case its packet is
transmitted exactly once, with the length of its length field; every other entry
is not transmitted and keeps its timestamp.  The transmissions are made session
by session and entry by entry, in the order of `rel_list` and of the buffers; no
packet content, no membership or order of a buffer, and no counter or flag of a
session changes. -/
theorem C11_timer_rule (now_ms : Int) (rel_list : List rel_t) :
    (rel_timer now_ms rel_list).1 =
      rel_list.map (fun r =>
        { r with send_buffer := r.send_buffer.map (fun e =>
            if e.last_retransmit + r.timeout < now_ms then { e with last_retransmit := now_ms }
            else e) }) ∧
    (rel_timer now_ms rel_list).2 =
      (rel_list.map (fun r =>
        (r.send_buffer.filter (fun e => decide (e.last_retransmit + r.timeout < now_ms))).map
          (fun e => Event.conn_sendpkt r.c e.packet (ntohs e.packet.len)))).flatten ∧
    ((rel_timer now_ms rel_list).1.map (fun r => r.send_buffer.map (fun e => e.packet)) =
      rel_list.map (fun r => r.send_buffer.map (fun e => e.packet))) := by
  induction rel_list with
  | nil => exact ⟨rfl, rfl, rfl⟩
  | cons current rest ih =>
    obtain ⟨h1, h2, h3⟩ := ih
    unfold rel_timer
    simp only [rel_timer_session_eq, h1, h2, List.map_cons, List.flatten_cons]
    refine ⟨?_, ?_, ?_⟩
    · congr 2
      apply List.map_congr_left
      intro e _
      simp only [after_timer, expired, decide_eq_true_eq]
    · congr 1
    · rw [h1] at h3
      rw [h3]
      congr 1
      rw [List.map_map]
      apply List.map_congr_left
      intro e _
      simp only [Function.comp, after_timer]
      split <;> rfl

/-! ## The run that `rel_output` delivers -/

theorem run_len_sorted (buffer : buffer_t) :
    ∀ (nxt : Int), 0 ≤ nxt → nxt < 4294967296 → seq_sorted buffer →
      (buffer.take (run_len buffer nxt)).map node_seq =
          List.range' nxt.toNat (run_len buffer nxt) ∧
        ∀ e, buffer[run_len buffer nxt]? = some e → (node_seq e : Int) ≠ nxt + run_len buffer nxt := by
  induction buffer with
  | nil => intro nxt _ _ _; simp [run_len]
  | cons node rest ih =>
    intro nxt h0 h1 hs
    unfold seq_sorted at hs
    rw [List.pairwise_cons] at hs
    have hu := to_uint32_of_range nxt h0 h1
    unfold run_len
    split
    · rename_i hseq
      by_cases hwrap : nxt + 1 < 4294967296
      · obtain ⟨i1, i2⟩ := ih (nxt + 1) (by omega) hwrap hs.2
        refine ⟨?_, ?_⟩
        · simp only [List.take_succ_cons, List.map_cons, List.range'_succ, i1]
          congr 1
          · omega
          · congr 1
            omega
        · intro e he
          simp only [List.getElem?_cons_succ] at he
          have := i2 e he
          push_cast
          omega
      · have hrest : rest = [] := by
          cases hr : rest with
          | nil => rfl
          | cons e tl =>
            have h2 := hs.1 e (by rw [hr]; exact List.mem_cons_self _ _)
            have h3 : node_seq e < 4294967296 := by
              unfold node_seq ntohl; omega
            omega
        subst hrest
        simp only [run_len, List.take_succ_cons, List.take_nil, List.map_cons, List.map_nil,
          zero_add, List.range'_one]
        refine ⟨?_, ?_⟩
        · congr 1
          omega
        · intro e he
          simp at he
    · rename_i hseq
      refine ⟨by simp, ?_⟩
      intro e he
      simp only [List.getElem?_cons_zero, Option.some.injEq] at he
      subst he
      simp only [CharP.cast_eq_zero, add_zero]
      omega

/-- C16: for every session whose receive buffer is ordered by ascending unique
sequence numbers (`rec_nxt` being a 32-bit sequence number), `rel_output`
terminates (any number of rounds from the buffer size on gives the same result).
With `k = run_len r.rec_buffer r.rec_nxt`, the first `k` entries of the buffer
carry the sequence numbers `rec_nxt, ..., rec_nxt + k - 1` and the entry after
them, if there is one, does not carry `rec_nxt + k`, so `k` is the largest such
number; `rel_output` calls `conn_output` exactly `k` times, for these entries in
order, each with the data of the entry and the byte count length field - 12,
makes no other call, removes exactly these `k` entries, leaves the others as they
are, increases `rec_nxt` by `k`, sets `eof_other` to 1 if a delivered entry has
the length 12 and leaves it unchanged otherwise, and changes no other field. -/
theorem C16_rel_output_run (r : rel_t) (hs : seq_sorted r.rec_buffer) (h0 : 0 ≤ r.rec_nxt)
    (h1 : r.rec_nxt < 4294967296) :
    (∀ fuel, buffer_size r.rec_buffer ≤ fuel → rel_output_loop fuel r = rel_output r) ∧
    run_len r.rec_buffer r.rec_nxt ≤ buffer_size r.rec_buffer ∧
    (r.rec_buffer.take (run_len r.rec_buffer r.rec_nxt)).map node_seq =
      List.range' r.rec_nxt.toNat (run_len r.rec_buffer r.rec_nxt) ∧
    (∀ e, r.rec_buffer[run_len r.rec_buffer r.rec_nxt]? = some e →
      (node_seq e : Int) ≠ r.rec_nxt + run_len r.rec_buffer r.rec_nxt) ∧
    (rel_output r).2 =
      (r.rec_buffer.take (run_len r.rec_buffer r.rec_nxt)).map
        (fun e => Event.conn_output r.c e.packet.data ((ntohs e.packet.len : Int) - 12)) ∧
    (rel_output r).1 =
      { r with
          rec_buffer := r.rec_buffer.drop (run_len r.rec_buffer r.rec_nxt)
          rec_nxt := r.rec_nxt + run_len r.rec_buffer r.rec_nxt
          eof_other :=
            if (r.rec_buffer.take (run_len r.rec_buffer r.rec_nxt)).any
                (fun e => decide (ntohs e.packet.len = 12)) then 1
            else r.eof_other } := by
  obtain ⟨i1, i2⟩ := run_len_sorted r.rec_buffer r.rec_nxt h0 h1 hs
  refine ⟨fun fuel hf => ?_, run_len_le _ _, i1, i2, ?_, ?_⟩
  · rw [rel_output_loop_eq fuel r hf, rel_output_eq]
  · rw [rel_output_eq]
  · rw [rel_output_eq]

/-- Witness of C16: the receive buffer holds the packets 1 (an EOF packet), 2 and
4 and `rec_nxt = 1`; the run has the length 2. -/
theorem C16_rel_output_run_witness :
    seq_sorted example_output_session.rec_buffer ∧ 0 ≤ example_output_session.rec_nxt ∧
    example_output_session.rec_nxt < 4294967296 ∧
    example_output_session.rec_buffer.map node_seq = [1, 2, 4] ∧
    run_len example_output_session.rec_buffer example_output_session.rec_nxt = 2 ∧
    (rel_output example_output_session).2 =
      [Event.conn_output 0 [] 0, Event.conn_output 0 [7] 1] ∧
    (rel_output example_output_session).1.eof_other = 1 ∧
    ((∀ fuel, buffer_size example_output_session.rec_buffer ≤ fuel →
        rel_output_loop fuel example_output_session = rel_output example_output_session) ∧
    run_len example_output_session.rec_buffer example_output_session.rec_nxt ≤
      buffer_size example_output_session.rec_buffer ∧
    (example_output_session.rec_buffer.take
        (run_len example_output_session.rec_buffer example_output_session.rec_nxt)).map node_seq =
      List.range' example_output_session.rec_nxt.toNat
        (run_len example_output_session.rec_buffer example_output_session.rec_nxt) ∧
    (∀ e, example_output_session.rec_buffer[run_len example_output_session.rec_buffer
        example_output_session.rec_nxt]? = some e →
      (node_seq e : Int) ≠ example_output_session.rec_nxt +
        run_len example_output_session.rec_buffer example_output_session.rec_nxt) ∧
    (rel_output example_output_session).2 =
      (example_output_session.rec_buffer.take
        (run_len example_output_session.rec_buffer example_output_session.rec_nxt)).map
        (fun e => Event.conn_output example_output_session.c e.packet.data
          ((ntohs e.packet.len : Int) - 12)) ∧
    (rel_output example_output_session).1 =
      { example_output_session with
          rec_buffer := example_output_session.rec_buffer.drop
            (run_len example_output_session.rec_buffer example_output_session.rec_nxt)
          rec_nxt := example_output_session.rec_nxt +
            run_len example_output_session.rec_buffer example_output_session.rec_nxt
          eof_other :=
            if (example_output_session.rec_buffer.take
                (run_len example_output_session.rec_buffer
                  example_output_session.rec_nxt)).any
                (fun e => decide (ntohs e.packet.len = 12)) then 1
            else example_output_session.eof_other }) :=
  ⟨by unfold seq_sorted; decide, by decide, by decide, by decide, by decide, by decide,
   by decide,
   C16_rel_output_run example_output_session (by unfold seq_sorted; decide) (by decide)
     (by decide)⟩

/-! ## The packets a session emits -/

theorem chunks_ok_cons (input : conn_input_result) (inputs : List conn_input_result)
    (h : chunks_ok (input :: inputs)) : chunk_ok input = true ∧ chunks_ok inputs := by
  unfold chunks_ok at *
  simpa using h

theorem make_ackpkt_valid (ck : packet_t → Nat → Nat) (t : Int) :
    ntohs (make_ackpkt ck t).len = 8 ∧
    (make_ackpkt ck t).cksum =
      ck { make_ackpkt ck t with cksum := 0 } (ntohs (make_ackpkt ck t).len) :=
  ⟨by simp [make_ackpkt, htons, ntohs], rfl⟩

theorem make_eofpkt_valid (ck : packet_t → Nat → Nat) (s : rel_t) :
    ntohs (make_eofpkt ck s).len = 12 ∧
    (make_eofpkt ck s).cksum =
      ck { make_eofpkt ck s with cksum := 0 } (ntohs (make_eofpkt ck s).len) :=
  ⟨by simp [make_eofpkt, htons, ntohs], rfl⟩

theorem make_datapkt_valid (ck : packet_t → Nat → Nat) (s : rel_t) (buf : List Nat)
    (h : buf.length ≤ 500) :
    ntohs (make_datapkt ck s buf).len = 12 + buf.length ∧
    (make_datapkt ck s buf).cksum =
      ck { make_datapkt ck s buf with cksum := 0 } (ntohs (make_datapkt ck s buf).len) := by
  refine ⟨?_, rfl⟩
  simp only [make_datapkt, htons, ntohs]
  omega

theorem rel_read_loop_sent_valid (ck : packet_t → Nat → Nat) (now_ms : Int) :
    ∀ (inputs : List conn_input_result) (s : rel_t), chunks_ok inputs →
      ∀ sp ∈ sent_packets (rel_read_loop ck now_ms inputs s).2,
        ntohs sp.1.len = sp.2 ∧ sp.1.cksum = ck { sp.1 with cksum := 0 } (ntohs sp.1.len) := by
  intro inputs
  induction inputs with
  | nil =>
    intro s _ sp hsp
    rcases rel_read_loop_cases ck now_ms [] s with ⟨h, _⟩ | ⟨h, _⟩ | ⟨_, h, _⟩ | ⟨_, _, h, _⟩
    · rw [h] at hsp; simp [sent_packets] at hsp
    · rw [h] at hsp; simp [sent_packets] at hsp
    · simp at h
    · simp at h
  | cons input inputs ih =>
    intro s hin sp hsp
    obtain ⟨hc, hrest⟩ := chunks_ok_cons input inputs hin
    rcases rel_read_loop_cases ck now_ms (input :: inputs) s with
      ⟨h, _⟩ | ⟨h, _⟩ | ⟨_, _, _, h⟩ | ⟨buf, rest, hi, _, _, h⟩
    · rw [h] at hsp; simp [sent_packets] at hsp
    · rw [h] at hsp; simp [sent_packets] at hsp
    · rw [h] at hsp
      simp only [sent_packets, List.mem_singleton] at hsp
      subst hsp
      exact make_eofpkt_valid ck s
    · rw [h] at hsp
      obtain ⟨rfl, rfl⟩ := List.cons.inj hi
      simp only [sent_packets, List.mem_cons] at hsp
      rcases hsp with rfl | hsp
      · exact make_datapkt_valid ck s buf (by simpa [chunk_ok] using hc)
      · exact ih _ hrest sp hsp

theorem rel_recvpkt_sent_valid (ck : packet_t → Nat → Nat) (bufspace : Nat) (now_ms : Int)
    (inputs : List conn_input_result) (r : rel_t) (pkt : packet_t) (n : Nat)
    (hin : chunks_ok inputs) :
    ∀ sp ∈ sent_packets (rel_recvpkt ck bufspace now_ms inputs r pkt n).events,
      ntohs sp.1.len = sp.2 ∧ sp.1.cksum = ck { sp.1 with cksum := 0 } (ntohs sp.1.len) := by
  intro sp hsp
  by_cases hv : valid_packet ck pkt n
  · rw [rel_recvpkt_of_valid ck bufspace now_ms inputs r pkt n hv] at hsp
    split at hsp
    · unfold rel_recvpkt_ack at hsp
      simp only at hsp
      split at hsp
      · split at hsp
        · rw [rel_output_eq] at hsp
          simp only [sent_packets_append, sent_packets_outputs, rel_destroy, sent_packets,
            List.append_nil, List.not_mem_nil] at hsp
        · exact rel_read_loop_sent_valid ck now_ms inputs _ hin sp hsp
      · exact rel_read_loop_sent_valid ck now_ms inputs _ hin sp hsp
    · by_cases hwin : ntohl pkt.seqno < to_uint32 (r.rec_nxt + r.windowSize)
      · by_cases hspace : ntohs pkt.len ≤ bufspace
        · rw [(rel_recvpkt_data_rec_nxt ck bufspace now_ms r { pkt with cksum := 0 }
            (ntohs pkt.len) hwin hspace).2] at hsp
          simp only [List.mem_singleton] at hsp
          subst hsp
          exact make_ackpkt_valid ck _
        · rw [rel_recvpkt_data_drop ck bufspace now_ms r _ _ (by omega)] at hsp
          simp [sent_packets] at hsp
      · unfold rel_recvpkt_data at hsp
        rw [if_pos (by show ntohl pkt.seqno ≥ _; omega)] at hsp
        simp [sent_packets] at hsp
  · rw [rel_recvpkt_of_invalid ck bufspace now_ms inputs r pkt n hv] at hsp
    simp [sent_packets] at hsp

/-- C13: every packet that `rel_recvpkt` or `rel_read` passes to `conn_sendpkt`
(the ACK of length 8 built by `rel_recvpkt`, the data packets of length 12 +
number of bytes read and the EOF packet of length 12 built by `rel_read`, the
input source giving at most 500 bytes at a time) has a length field equal to the
length passed to `conn_sendpkt` and a checksum field equal to `cksum` of the
packet with the checksum field zeroed; hence the packet with that length gets
past both checks of `rel_recvpkt` in any session. -/
theorem C13_emitted_packets_valid (ck : packet_t → Nat → Nat) (bufspace : Nat) (now_ms : Int)
    (inputs : List conn_input_result) (r : rel_t) (pkt : packet_t) (n : Nat)
    (hin : chunks_ok inputs) :
    (∀ t : Int, valid_packet ck (make_ackpkt ck t) 8) ∧
    (∀ s buf, buf.length ≤ 500 → valid_packet ck (make_datapkt ck s buf) (12 + buf.length)) ∧
    (∀ s, valid_packet ck (make_eofpkt ck s) 12) ∧
    ∀ sp, (sp ∈ sent_packets (rel_recvpkt ck bufspace now_ms inputs r pkt n).events ∨
        sp ∈ sent_packets (rel_read ck now_ms inputs r).2) →
      ntohs sp.1.len = sp.2 ∧ sp.1.cksum = ck { sp.1 with cksum := 0 } (ntohs sp.1.len) ∧
      valid_packet ck sp.1 sp.2 ∧
      ∀ (b2 : Nat) (now2 : Int) (inputs2 : List conn_input_result) (r2 : rel_t),
        rel_recvpkt ck b2 now2 inputs2 r2 sp.1 sp.2 =
          if ntohs sp.1.len = 8 then rel_recvpkt_ack ck now2 inputs2 r2 (ntohl sp.1.ackno)
          else rel_recvpkt_data ck b2 now2 r2 { sp.1 with cksum := 0 } (ntohs sp.1.len) := by
  have key : ∀ (p : packet_t) (len : Nat), ntohs p.len = len →
      p.cksum = ck { p with cksum := 0 } (ntohs p.len) → valid_packet ck p len := by
    intro p len h1 h2
    exact ⟨h1, by rw [← h2]⟩
  refine ⟨fun t => ?_, fun s buf hb => ?_, fun s => ?_, fun sp hsp => ?_⟩
  · exact key _ _ (make_ackpkt_valid ck t).1 (make_ackpkt_valid ck t).2
  · exact key _ _ (make_datapkt_valid ck s buf hb).1 (make_datapkt_valid ck s buf hb).2
  · exact key _ _ (make_eofpkt_valid ck s).1 (make_eofpkt_valid ck s).2
  · have h : ntohs sp.1.len = sp.2 ∧
        sp.1.cksum = ck { sp.1 with cksum := 0 } (ntohs sp.1.len) := by
      rcases hsp with hsp | hsp
      · exact rel_recvpkt_sent_valid ck bufspace now_ms inputs r pkt n hin sp hsp
      · exact rel_read_loop_sent_valid ck now_ms inputs r hin sp hsp
    have hv := key sp.1 sp.2 h.1 h.2
    exact ⟨h.1, h.2, hv, fun b2 now2 inputs2 r2 =>
      rel_recvpkt_of_valid ck b2 now2 inputs2 r2 sp.1 sp.2 hv⟩

/-! ## The send side of live sessions -/

theorem make_datapkt_seq (ck : packet_t → Nat → Nat) (s : rel_t) (buf : List Nat) :
    ntohl (make_datapkt ck s buf).seqno = to_uint32 s.send_nxt ∧
    ntohl (make_datapkt ck s buf).ackno = to_uint32 s.rec_nxt ∧
    (make_datapkt ck s buf).data = buf := by
  simp only [make_datapkt, htonl, ntohl, to_uint32]
  refine ⟨by omega, by omega, trivial⟩

theorem make_eofpkt_seq (ck : packet_t → Nat → Nat) (s : rel_t) :
    ntohl (make_eofpkt ck s).seqno = to_uint32 s.send_nxt ∧
    ntohl (make_eofpkt ck s).ackno = to_uint32 s.rec_nxt ∧
    (make_eofpkt ck s).data = [] := by
  simp only [make_eofpkt, htonl, ntohl, to_uint32]
  refine ⟨by omega, by omega, trivial⟩

theorem read_data_step_inv (ck : packet_t → Nat → Nat) (now_ms : Int) (s : rel_t)
    (buf : List Nat) (h : SendInv s) (hc : read_cond s) :
    SendInv (read_data_step ck now_ms s buf) := by
  obtain ⟨h1, h2, h3⟩ := h
  refine ⟨by simp only [read_data_step]; omega, Or.inl hc.2, ?_⟩
  intro e he
  simp only [read_data_step, mem_buffer_insert] at he ⊢
  rcases he with rfl | he
  · exact ⟨s.send_nxt, h1, by omega, (make_datapkt_seq ck s buf).1⟩
  · obtain ⟨j, j1, j2, j3⟩ := h3 e he
    exact ⟨j, j1, by omega, j3⟩

theorem read_eof_step_inv (ck : packet_t → Nat → Nat) (now_ms : Int) (s : rel_t)
    (h : SendInv s) : SendInv (read_eof_step ck now_ms s) := by
  obtain ⟨h1, h2, h3⟩ := h
  refine ⟨by simp only [read_eof_step]; omega, Or.inr (by simp only [read_eof_step]; omega), ?_⟩
  intro e he
  simp only [read_eof_step, mem_buffer_insert] at he ⊢
  rcases he with rfl | he
  · exact ⟨s.send_nxt, h1, by omega, (make_eofpkt_seq ck s).1⟩
  · obtain ⟨j, j1, j2, j3⟩ := h3 e he
    exact ⟨j, j1, by omega, j3⟩

theorem rel_read_loop_send_inv (ck : packet_t → Nat → Nat) (now_ms : Int) :
    ∀ (inputs : List conn_input_result) (s : rel_t), SendInv s →
      SendInv (rel_read_loop ck now_ms inputs s).1 := by
  intro inputs
  induction inputs with
  | nil =>
    intro s hs
    rcases rel_read_loop_cases ck now_ms [] s with ⟨h, _⟩ | ⟨h, _⟩ | ⟨_, h, _⟩ | ⟨_, _, h, _⟩
    · rw [h]; exact hs
    · rw [h]; exact hs
    · simp at h
    · simp at h
  | cons input inputs ih =>
    intro s hs
    rcases rel_read_loop_cases ck now_ms (input :: inputs) s with
      ⟨h, _⟩ | ⟨h, _⟩ | ⟨_, _, _, h⟩ | ⟨buf, rest, hi, _, hc, h⟩
    · rw [h]; exact hs
    · rw [h]; exact hs
    · rw [h]; exact read_eof_step_inv ck now_ms s hs
    · rw [h]
      obtain ⟨_, rfl⟩ := List.cons.inj hi
      exact ih _ (read_data_step_inv ck now_ms s buf hs hc)

theorem rel_recvpkt_ack_send_inv (ck : packet_t → Nat → Nat) (now_ms : Int)
    (inputs : List conn_input_result) (r : rel_t) (packet_ack : Nat) (hinv : SendInv r)
    (hlive : (rel_recvpkt_ack ck now_ms inputs r packet_ack).destroyed = false) :
    SendInv (rel_recvpkt_ack ck now_ms inputs r packet_ack).r := by
  obtain ⟨h1, h2, h3⟩ := hinv
  have hrem : ∀ e ∈ buffer_remove r.send_buffer packet_ack,
      ∃ j : Int, 1 ≤ j ∧ j < r.send_nxt ∧ node_seq e = to_uint32 j :=
    fun e he => h3 e ((mem_buffer_remove _ _ _).mp he).1
  unfold rel_recvpkt_ack at hlive ⊢
  simp only at hlive ⊢
  split
  · rename_i hcond
    rw [if_pos hcond] at hlive
    split
    · rename_i ho
      rw [if_pos ho] at hlive
      simp at hlive
    · exact rel_read_loop_send_inv ck now_ms inputs _ ⟨h1, h2, hrem⟩
  · exact rel_read_loop_send_inv ck now_ms inputs _ ⟨h1, h2, hrem⟩

theorem rel_recvpkt_send_inv (ck : packet_t → Nat → Nat) (bufspace : Nat) (now_ms : Int)
    (inputs : List conn_input_result) (r : rel_t) (pkt : packet_t) (n : Nat)
    (hinv : SendInv r)
    (hlive : (rel_recvpkt ck bufspace now_ms inputs r pkt n).destroyed = false) :
    SendInv (rel_recvpkt ck bufspace now_ms inputs r pkt n).r := by
  by_cases hv : valid_packet ck pkt n
  · rw [rel_recvpkt_of_valid ck bufspace now_ms inputs r pkt n hv] at hlive ⊢
    split
    · rename_i h8
      rw [if_pos h8] at hlive
      exact rel_recvpkt_ack_send_inv ck now_ms inputs r _ hinv hlive
    · rename_i h8
      rw [if_neg h8] at hlive
      obtain ⟨f1, _, f3, f4, _, _, _⟩ := rel_recvpkt_data_frame ck bufspace now_ms r _ _ hlive
      obtain ⟨h1, h2, h3⟩ := hinv
      exact ⟨by rw [f3]; exact h1, by rw [f3, f4]; exact h2, by rw [f1, f3]; exact h3⟩
  · rw [rel_recvpkt_of_invalid ck bufspace now_ms inputs r pkt n hv]
    exact hinv

theorem rel_timer_session_send_inv (now_ms : Int) (r : rel_t) (hinv : SendInv r) :
    SendInv (rel_timer_session now_ms r).1 := by
  obtain ⟨h1, h2, h3⟩ := hinv
  rw [rel_timer_session_eq]
  refine ⟨h1, h2, ?_⟩
  intro e he
  simp only [List.mem_map] at he
  obtain ⟨e0, he0, rfl⟩ := he
  have : node_seq (after_timer r.timeout now_ms e0) = node_seq e0 := by
    unfold after_timer
    split <;> rfl
  rw [this]
  exact h3 e0 he0

theorem reachable_send_inv (ck : packet_t → Nat → Nat) (r : rel_t) (h : Reachable ck r) :
    SendInv r := by
  induction h with
  | create c cc h =>
    exact ⟨by simp [rel_create_session], Or.inl rfl, by simp [rel_create_session]⟩
  | recvpkt r bufspace now_ms inputs pkt n _ hlive ih =>
    exact rel_recvpkt_send_inv ck bufspace now_ms inputs r pkt n ih hlive
  | read r now_ms inputs _ ih => exact rel_read_loop_send_inv ck now_ms inputs r ih
  | timer r now_ms _ ih => exact rel_timer_session_send_inv now_ms r ih

/-! ## After the local EOF -/

theorem rel_read_after_eof (ck : packet_t → Nat → Nat) (now_ms : Int)
    (inputs : List conn_input_result) (s : rel_t) (h : s.eof_ack ≠ -1) :
    rel_read ck now_ms inputs s = (s, []) :=
  rel_read_loop_stop ck now_ms inputs s (fun hc => h hc.2)

theorem rel_recvpkt_ack_after_eof (ck : packet_t → Nat → Nat) (now_ms : Int)
    (inputs : List conn_input_result) (r : rel_t) (packet_ack : Nat) (h : r.eof_ack ≠ -1) :
    input_calls (rel_recvpkt_ack ck now_ms inputs r packet_ack).events = 0 ∧
    sent_packets (rel_recvpkt_ack ck now_ms inputs r packet_ack).events = [] ∧
    (rel_recvpkt_ack ck now_ms inputs r packet_ack).r.send_nxt = r.send_nxt ∧
    (rel_recvpkt_ack ck now_ms inputs r packet_ack).r.eof_ack = r.eof_ack ∧
    ∀ e ∈ (rel_recvpkt_ack ck now_ms inputs r packet_ack).r.send_buffer, e ∈ r.send_buffer := by
  unfold rel_recvpkt_ack
  simp only
  split
  · split
    · rw [rel_output_eq]
      simp only [rel_destroy, buffer_clear, input_calls_append, input_calls_outputs,
        sent_packets_append, sent_packets_outputs, input_calls, sent_packets, List.append_nil,
        List.not_mem_nil]
      exact ⟨trivial, trivial, trivial, trivial, fun e he => he.elim⟩
    · rw [rel_read_after_eof ck now_ms inputs _ (by simpa using h)]
      exact ⟨rfl, rfl, rfl, rfl, fun e he => ((mem_buffer_remove _ _ _).mp he).1⟩
  · rw [rel_read_after_eof ck now_ms inputs _ (by simpa using h)]
    exact ⟨rfl, rfl, rfl, rfl, fun e he => ((mem_buffer_remove _ _ _).mp he).1⟩

/-- C15: when `rel_read` runs in a reachable session `r` (window open, no EOF
yet) and the input source signals end-of-stream, it creates exactly one packet,
with no payload, length 12 and the old `send_nxt` as sequence number, inserts and
transmits it, sets `eof_ack` to that number and increments `send_nxt`, and reads
no further input.  In every reachable session `r2` that has built its EOF packet
(`eof_ack` is not -1), `eof_ack = send_nxt - 1` holds, every direct call of
`rel_read` reads no input, transmits nothing and leaves the session unchanged,
and every call of `rel_recvpkt` with a valid ACK reads no input, transmits
nothing, adds no entry to the send buffer and leaves `send_nxt` and `eof_ack`
unchanged. -/
theorem C15_nothing_after_eof (ck : packet_t → Nat → Nat) (now_ms : Int)
    (inputs : List conn_input_result) (r r2 : rel_t)
    (hr : Reachable ck r) (hcond : read_cond r)
    (hr2 : Reachable ck r2) (heof : r2.eof_ack ≠ -1) :
    (rel_read ck now_ms (conn_input_result.eof :: inputs) r =
        ({ r with eof_ack := r.send_nxt
                  send_nxt := r.send_nxt + 1
                  send_buffer := buffer_insert r.send_buffer (make_eofpkt ck r) now_ms },
          [Event.conn_input r.c 500, Event.conn_sendpkt r.c (make_eofpkt ck r) 12]) ∧
      ntohs (make_eofpkt ck r).len = 12 ∧ (make_eofpkt ck r).data = [] ∧
      ntohl (make_eofpkt ck r).seqno = to_uint32 r.send_nxt ∧
      (r.send_nxt < 4294967296 → (ntohl (make_eofpkt ck r).seqno : Int) = r.send_nxt) ∧
      (rel_read ck now_ms (conn_input_result.eof :: inputs) r).1.eof_ack ≠ -1) ∧
    (r2.eof_ack = r2.send_nxt - 1 ∧
      rel_read ck now_ms inputs r2 = (r2, []) ∧
      ∀ (bufspace : Nat) (pkt : packet_t), valid_packet ck pkt 8 →
        input_calls (rel_recvpkt ck bufspace now_ms inputs r2 pkt 8).events = 0 ∧
        sent_packets (rel_recvpkt ck bufspace now_ms inputs r2 pkt 8).events = [] ∧
        (rel_recvpkt ck bufspace now_ms inputs r2 pkt 8).r.send_nxt = r2.send_nxt ∧
        (rel_recvpkt ck bufspace now_ms inputs r2 pkt 8).r.eof_ack = r2.eof_ack ∧
        ∀ e ∈ (rel_recvpkt ck bufspace now_ms inputs r2 pkt 8).r.send_buffer,
          e ∈ r2.send_buffer) := by
  have hs := reachable_send_inv ck r hr
  have hs2 := reachable_send_inv ck r2 hr2
  have hstep : rel_read ck now_ms (conn_input_result.eof :: inputs) r =
      (read_eof_step ck now_ms r,
        [Event.conn_input r.c 500, Event.conn_sendpkt r.c (make_eofpkt ck r) 12]) :=
    rel_read_loop_eof ck now_ms inputs r hcond
  have hpos := hs.send_nxt_pos
  refine ⟨⟨hstep, (make_eofpkt_valid ck r).1, (make_eofpkt_seq ck r).2.2,
    (make_eofpkt_seq ck r).1, fun hlt => ?_, ?_⟩, ?_, rel_read_after_eof ck now_ms inputs r2 heof,
    fun bufspace pkt hv => ?_⟩
  · rw [(make_eofpkt_seq ck r).1]
    exact to_uint32_of_range _ (by omega) hlt
  · rw [hstep]
    simp only [read_eof_step]
    omega
  · rcases hs2.eof_ack_eq with h | h
    · exact absurd h heof
    · exact h
  · rw [rel_recvpkt_of_valid ck bufspace now_ms inputs r2 pkt 8 hv, if_pos hv.1]
    exact rel_recvpkt_ack_after_eof ck now_ms inputs r2 (ntohl pkt.ackno) heof

/-- Witness of C15: a fresh session meets the end of the stream; the session that
has its EOF packet 1 in flight is offered more input and the ACK 1. -/
theorem C15_nothing_after_eof_witness :
    Reachable example_cksum example_session ∧ read_cond example_session ∧
    Reachable example_cksum example_eof_session ∧ example_eof_session.eof_ack ≠ -1 ∧
    ((rel_read example_cksum 3 (conn_input_result.eof :: [conn_input_result.bytes [1]])
          example_session =
        ({ example_session with
            eof_ack := example_session.send_nxt
            send_nxt := example_session.send_nxt + 1
            send_buffer := buffer_insert example_session.send_buffer
              (make_eofpkt example_cksum example_session) 3 },
          [Event.conn_input example_session.c 500,
            Event.conn_sendpkt example_session.c (make_eofpkt example_cksum example_session)
              12]) ∧
      ntohs (make_eofpkt example_cksum example_session).len = 12 ∧
      (make_eofpkt example_cksum example_session).data = [] ∧
      ntohl (make_eofpkt example_cksum example_session).seqno =
        to_uint32 example_session.send_nxt ∧
      (example_session.send_nxt < 4294967296 →
        (ntohl (make_eofpkt example_cksum example_session).seqno : Int) =
          example_session.send_nxt) ∧
      (rel_read example_cksum 3 (conn_input_result.eof :: [conn_input_result.bytes [1]])
        example_session).1.eof_ack ≠ -1) ∧
    (example_eof_session.eof_ack = example_eof_session.send_nxt - 1 ∧
      rel_read example_cksum 3 [conn_input_result.bytes [1]] example_eof_session =
        (example_eof_session, []) ∧
      ∀ (bufspace : Nat) (pkt : packet_t), valid_packet example_cksum pkt 8 →
        input_calls (rel_recvpkt example_cksum bufspace 3 [conn_input_result.bytes [1]]
          example_eof_session pkt 8).events = 0 ∧
        sent_packets (rel_recvpkt example_cksum bufspace 3 [conn_input_result.bytes [1]]
          example_eof_session pkt 8).events = [] ∧
        (rel_recvpkt example_cksum bufspace 3 [conn_input_result.bytes [1]]
          example_eof_session pkt 8).r.send_nxt = example_eof_session.send_nxt ∧
        (rel_recvpkt example_cksum bufspace 3 [conn_input_result.bytes [1]]
          example_eof_session pkt 8).r.eof_ack = example_eof_session.eof_ack ∧
        ∀ e ∈ (rel_recvpkt example_cksum bufspace 3 [conn_input_result.bytes [1]]
            example_eof_session pkt 8).r.send_buffer,
          e ∈ example_eof_session.send_buffer)) :=
  ⟨Reachable.create 0 { window := 4, timeout := 1000 } (by decide), by decide,
   Reachable.read example_session 0 [conn_input_result.eof]
     (Reachable.create 0 { window := 4, timeout := 1000 } (by decide)), by decide,
   C15_nothing_after_eof example_cksum 3 [conn_input_result.bytes [1]] example_session
     example_eof_session
     (Reachable.create 0 { window := 4, timeout := 1000 } (by decide)) (by decide)
     (Reachable.read example_session 0 [conn_input_result.eof]
       (Reachable.create 0 { window := 4, timeout := 1000 } (by decide))) (by decide)⟩

/-! ## Draining the input -/

theorem rel_read_loop_drain (ck : packet_t → Nat → Nat) (now_ms : Int)
    (rest : List conn_input_result) :
    ∀ (chunks : List (List Nat)) (s : rel_t), s.eof_ack = -1 → s.windowSize < 4294967296 →
      (buffer_size s.send_buffer : Int) ≤ s.windowSize →
      (∀ c ∈ chunks, 1 ≤ c.length ∧ c.length ≤ 500) →
      ∃ pkts : List packet_t,
        pkts.length =
          min chunks.length (s.windowSize - (buffer_size s.send_buffer : Int)).toNat ∧
        (∀ (i : Nat) (p : packet_t), pkts[i]? = some p →
          ∃ chunk, chunks[i]? = some chunk ∧
            ntohl p.seqno = to_uint32 (s.send_nxt + i) ∧ ntohl p.ackno = to_uint32 s.rec_nxt ∧
            p.data = chunk ∧ ntohs p.len = 12 + chunk.length ∧
            p.cksum = ck { p with cksum := 0 } (ntohs p.len)) ∧
        sent_packets (rel_read_loop ck now_ms
            (chunks.map conn_input_result.bytes ++ conn_input_result.no_data :: rest) s).2 =
          pkts.map (fun p => (p, ntohs p.len)) ∧
        (rel_read_loop ck now_ms
            (chunks.map conn_input_result.bytes ++ conn_input_result.no_data :: rest) s).1 =
          { s with send_nxt := s.send_nxt + pkts.length
                   send_buffer := pkts.foldl (fun b p => buffer_insert b p now_ms)
                     s.send_buffer } := by
  intro chunks
  induction chunks with
  | nil =>
    intro s heof hw hb _
    refine ⟨[], by simp, fun i p h => by simp at h, ?_, ?_⟩
    · rcases rel_read_loop_cases ck now_ms
          (([] : List (List Nat)).map conn_input_result.bytes ++
            conn_input_result.no_data :: rest) s with
        ⟨h, _⟩ | ⟨h, _⟩ | ⟨_, h, _⟩ | ⟨_, _, h, _⟩
      · rw [h]; rfl
      · rw [h]; rfl
      · simp at h
      · simp at h
    · rcases rel_read_loop_cases ck now_ms
          (([] : List (List Nat)).map conn_input_result.bytes ++
            conn_input_result.no_data :: rest) s with
        ⟨h, _⟩ | ⟨h, _⟩ | ⟨_, h, _⟩ | ⟨_, _, h, _⟩
      · rw [h]; simp
      · rw [h]; simp
      · simp at h
      · simp at h
  | cons c cs ih =>
    intro s heof hw hb hchunks
    have hc := hchunks c (List.mem_cons_self _ _)
    have hu := to_uint32_of_range s.windowSize (by omega) hw
    by_cases hfull : (buffer_size s.send_buffer : Int) = s.windowSize
    · have hstop : ¬ read_cond s := by
        intro h
        have := h.1
        omega
      refine ⟨[], ?_, fun i p h => by simp at h, ?_, ?_⟩
      · simp only [List.length_nil, hfull, sub_self, Int.toNat_zero]
        omega
      · rw [rel_read_loop_stop ck now_ms _ s hstop]; rfl
      · rw [rel_read_loop_stop ck now_ms _ s hstop]; simp
    · have hcond : read_cond s := ⟨by omega, heof⟩
      have hne : c ≠ [] := by
        intro h
        rw [h] at hc
        simp at hc
      have hstep := rel_read_loop_bytes ck now_ms
        (cs.map conn_input_result.bytes ++ conn_input_result.no_data :: rest) s c hcond hne
      have hsz : buffer_size (read_data_step ck now_ms s c).send_buffer =
          buffer_size s.send_buffer + 1 := by
        simp only [read_data_step, buffer_size_insert]
      obtain ⟨pkts, p1, p2, p3, p4⟩ := ih (read_data_step ck now_ms s c) heof hw
        (by rw [hsz]; show ((buffer_size s.send_buffer + 1 : Nat) : Int) ≤ s.windowSize
            push_cast; omega)
        (fun c1 h1 => hchunks c1 (List.mem_cons_of_mem _ h1))
      refine ⟨make_datapkt ck s c :: pkts, ?_, ?_, ?_, ?_⟩
      · rw [List.length_cons, p1, hsz]
        simp only [read_data_step, List.length_cons, Nat.cast_add, Nat.cast_one]
        omega
      · intro i p hp
        cases i with
        | zero =>
          simp only [List.getElem?_cons_zero, Option.some.injEq] at hp
          subst hp
          refine ⟨c, by simp, ?_, (make_datapkt_seq ck s c).2.1, (make_datapkt_seq ck s c).2.2,
            (make_datapkt_valid ck s c hc.2).1, (make_datapkt_valid ck s c hc.2).2⟩
          rw [(make_datapkt_seq ck s c).1]
          simp
        | succ i =>
          simp only [List.getElem?_cons_succ] at hp
          obtain ⟨chunk, q1, q2, q3, q4, q5, q6⟩ := p2 i p hp
          refine ⟨chunk, by simpa using q1, ?_, q3, q4, q5, q6⟩
          rw [q2]
          simp only [read_data_step]
          congr 1
          push_cast
          omega
      · simp only [List.map_cons, List.cons_append]
        rw [hstep]
        simp only [sent_packets, p3, List.map_cons, (make_datapkt_valid ck s c hc.2).1]
      · simp only [List.map_cons, List.cons_append]
        rw [hstep]
        simp only
        rw [p4]
        simp only [read_data_step, List.foldl_cons, List.length_cons, rel_t.mk.injEq,
          and_true, true_and]
        push_cast
        omega

set_option maxRecDepth 100000 in
theorem example_drained_seqs :
    example_drained.1.send_buffer.map node_seq = [1, 2, 3] ∧ example_drained.1.send_nxt = 4 := by
  decide

/-- C14: for every session with `eof_ack = -1` whose send buffer holds `b <
windowSize` entries, if the input source yields the `k` non-empty chunks `chunks`
(each of 1..500 bytes) and then reports that no data is available, `rel_read`
creates exactly `m = min k (windowSize - b)` data packets; the `i`-th (from 0) has
the sequence number `send_nxt + i`, the acknowledgment number `rec_nxt`, the
`i`-th chunk as payload, the length field 12 + chunk size and a correct
checksum; they are transmitted once each, in that order, with the length of
their length field, and inserted into the send buffer in that order; on return
`send_nxt` has grown by exactly `m` and nothing else has changed.  A fresh session
with window 4 and 3 chunks of 500 bytes ends with the sequence numbers 1, 2, 3 in
the send buffer and `send_nxt = 4`. -/
theorem C14_drain_consecutive (ck : packet_t → Nat → Nat) (now_ms : Int)
    (rest : List conn_input_result) (chunks : List (List Nat)) (s : rel_t)
    (heof : s.eof_ack = -1) (hw : s.windowSize < 2147483648)
    (hb : (buffer_size s.send_buffer : Int) < s.windowSize)
    (hchunks : ∀ c ∈ chunks, 1 ≤ c.length ∧ c.length ≤ 500) :
    (∃ pkts : List packet_t,
      pkts.length =
        min chunks.length (s.windowSize - (buffer_size s.send_buffer : Int)).toNat ∧
      (∀ (i : Nat) (p : packet_t), pkts[i]? = some p →
        ∃ chunk, chunks[i]? = some chunk ∧
          ntohl p.seqno = to_uint32 (s.send_nxt + i) ∧
          (0 ≤ s.send_nxt → s.send_nxt + i < 4294967296 →
            (ntohl p.seqno : Int) = s.send_nxt + i) ∧
          ntohl p.ackno = to_uint32 s.rec_nxt ∧
          p.data = chunk ∧ ntohs p.len = 12 + chunk.length ∧
          p.cksum = ck { p with cksum := 0 } (ntohs p.len)) ∧
      sent_packets (rel_read ck now_ms
          (chunks.map conn_input_result.bytes ++ conn_input_result.no_data :: rest) s).2 =
        pkts.map (fun p => (p, ntohs p.len)) ∧
      (rel_read ck now_ms
          (chunks.map conn_input_result.bytes ++ conn_input_result.no_data :: rest) s).1 =
        { s with send_nxt := s.send_nxt + pkts.length
                 send_buffer := pkts.foldl (fun b p => buffer_insert b p now_ms)
                   s.send_buffer }) ∧
    (example_drained.1.send_buffer.map node_seq = [1, 2, 3] ∧
      example_drained.1.send_nxt = 4) := by
  obtain ⟨pkts, p1, p2, p3, p4⟩ := rel_read_loop_drain ck now_ms rest chunks s heof (by omega)
    (by omega) hchunks
  refine ⟨⟨pkts, p1, fun i p hp => ?_, p3, p4⟩, example_drained_seqs⟩
  obtain ⟨chunk, q1, q2, q3, q4, q5, q6⟩ := p2 i p hp
  refine ⟨chunk, q1, q2, fun h0 h1 => ?_, q3, q4, q5, q6⟩
  rw [q2]
  exact to_uint32_of_range _ (by omega) h1

/-- Witness of C14: the session with the packets 1, 2 in flight (window 4) is
offered three chunks; two more packets, 3 and 4, are created. -/
theorem C14_drain_consecutive_witness :
    (rel_read example_cksum 0 [conn_input_result.bytes [1], conn_input_result.bytes [2]]
      example_session).1.eof_ack = -1 ∧
    (rel_read example_cksum 0 [conn_input_result.bytes [1], conn_input_result.bytes [2]]
      example_session).1.windowSize < 2147483648 ∧
    (buffer_size (rel_read example_cksum 0
      [conn_input_result.bytes [1], conn_input_result.bytes [2]]
      example_session).1.send_buffer : Int) <
      (rel_read example_cksum 0 [conn_input_result.bytes [1], conn_input_result.bytes [2]]
        example_session).1.windowSize ∧
    (∀ c ∈ [[5], [6, 6], [7]], 1 ≤ c.length ∧ c.length ≤ 500) ∧
    (sent_packets (rel_read example_cksum 9
        ([[5], [6, 6], [7]].map conn_input_result.bytes ++ conn_input_result.no_data :: [])
        (rel_read example_cksum 0 [conn_input_result.bytes [1], conn_input_result.bytes [2]]
          example_session).1).2).map (fun sp => (ntohl sp.1.seqno, sp.1.data, sp.2)) =
      [(3, [5], 13), (4, [6, 6], 14)] ∧
    ((∃ pkts : List packet_t,
      pkts.length =
        min [[5], [6, 6], [7]].length
          ((rel_read example_cksum 0 [conn_input_result.bytes [1], conn_input_result.bytes [2]]
              example_session).1.windowSize -
            (buffer_size (rel_read example_cksum 0
              [conn_input_result.bytes [1], conn_input_result.bytes [2]]
              example_session).1.send_buffer : Int)).toNat ∧
      (∀ (i : Nat) (p : packet_t), pkts[i]? = some p →
        ∃ chunk, [[5], [6, 6], [7]][i]? = some chunk ∧
          ntohl p.seqno = to_uint32 ((rel_read example_cksum 0
            [conn_input_result.bytes [1], conn_input_result.bytes [2]]
            example_session).1.send_nxt + i) ∧
          (0 ≤ (rel_read example_cksum 0
              [conn_input_result.bytes [1], conn_input_result.bytes [2]]
              example_session).1.send_nxt →
            (rel_read example_cksum 0
              [conn_input_result.bytes [1], conn_input_result.bytes [2]]
              example_session).1.send_nxt + i < 4294967296 →
            (ntohl p.seqno : Int) = (rel_read example_cksum 0
              [conn_input_result.bytes [1], conn_input_result.bytes [2]]
              example_session).1.send_nxt + i) ∧
          ntohl p.ackno = to_uint32 (rel_read example_cksum 0
            [conn_input_result.bytes [1], conn_input_result.bytes [2]]
            example_session).1.rec_nxt ∧
          p.data = chunk ∧ ntohs p.len = 12 + chunk.length ∧
          p.cksum = example_cksum { p with cksum := 0 } (ntohs p.len)) ∧
      sent_packets (rel_read example_cksum 9
          ([[5], [6, 6], [7]].map conn_input_result.bytes ++ conn_input_result.no_data :: [])
          (rel_read example_cksum 0 [conn_input_result.bytes [1], conn_input_result.bytes [2]]
            example_session).1).2 =
        pkts.map (fun p => (p, ntohs p.len)) ∧
      (rel_read example_cksum 9
          ([[5], [6, 6], [7]].map conn_input_result.bytes ++ conn_input_result.no_data :: [])
          (rel_read example_cksum 0 [conn_input_result.bytes [1], conn_input_result.bytes [2]]
            example_session).1).1 =
        { (rel_read example_cksum 0 [conn_input_result.bytes [1], conn_input_result.bytes [2]]
            example_session).1 with
          send_nxt := (rel_read example_cksum 0
            [conn_input_result.bytes [1], conn_input_result.bytes [2]]
            example_session).1.send_nxt + pkts.length
          send_buffer := pkts.foldl (fun b p => buffer_insert b p 9)
            (rel_read example_cksum 0 [conn_input_result.bytes [1], conn_input_result.bytes [2]]
              example_session).1.send_buffer }) ∧
    (example_drained.1.send_buffer.map node_seq = [1, 2, 3] ∧
      example_drained.1.send_nxt = 4)) :=
  ⟨by decide, by decide, by decide, by decide, by decide,
   C14_drain_consecutive example_cksum 9 [] [[5], [6, 6], [7]]
     (rel_read example_cksum 0 [conn_input_result.bytes [1], conn_input_result.bytes [2]]
       example_session).1 (by decide) (by decide) (by decide) (by decide)⟩

/-- Witness of C13: a fresh session receives the ACK 1 while a chunk and the end
of the stream are waiting; it emits a data packet and its EOF packet. -/
theorem C13_emitted_packets_valid_witness :
    chunks_ok [conn_input_result.bytes [1], conn_input_result.eof] ∧
    sent_packets (rel_recvpkt example_cksum 0 0
      [conn_input_result.bytes [1], conn_input_result.eof] example_session (example_ack 1)
      8).events = [(example_data 1 [1], 13), (example_data 2 [], 12)] ∧
    ((∀ t : Int, valid_packet example_cksum (make_ackpkt example_cksum t) 8) ∧
    (∀ s buf, buf.length ≤ 500 →
      valid_packet example_cksum (make_datapkt example_cksum s buf) (12 + buf.length)) ∧
    (∀ s, valid_packet example_cksum (make_eofpkt example_cksum s) 12) ∧
    ∀ sp, (sp ∈ sent_packets (rel_recvpkt example_cksum 0 0
          [conn_input_result.bytes [1], conn_input_result.eof] example_session (example_ack 1)
          8).events ∨
        sp ∈ sent_packets (rel_read example_cksum 0
          [conn_input_result.bytes [1], conn_input_result.eof] example_session).2) →
      ntohs sp.1.len = sp.2 ∧
      sp.1.cksum = example_cksum { sp.1 with cksum := 0 } (ntohs sp.1.len) ∧
      valid_packet example_cksum sp.1 sp.2 ∧
      ∀ (b2 : Nat) (now2 : Int) (inputs2 : List conn_input_result) (r2 : rel_t),
        rel_recvpkt example_cksum b2 now2 inputs2 r2 sp.1 sp.2 =
          if ntohs sp.1.len = 8 then
            rel_recvpkt_ack example_cksum now2 inputs2 r2 (ntohl sp.1.ackno)
          else rel_recvpkt_data example_cksum b2 now2 r2 { sp.1 with cksum := 0 }
            (ntohs sp.1.len)) :=
  ⟨by decide, by decide,
   C13_emitted_packets_valid example_cksum 0 0
     [conn_input_result.bytes [1], conn_input_result.eof] example_session (example_ack 1) 8
     (by decide)⟩

/-! ## Retransmission -/

theorem tracked_data_step (ck : packet_t → Nat → Nat) (now_ms : Int) (s : rel_t) (buf : List Nat)
    (pkt : packet_t) (i : Int) (hpos : 1 ≤ s.send_nxt) (h : Tracked pkt i s) :
    Tracked pkt i (read_data_step ck now_ms s buf) := by
  obtain ⟨h1, h2⟩ := h
  refine ⟨by simp only [read_data_step]; omega, ?_⟩
  intro e he
  simp only [read_data_step, mem_buffer_insert] at he ⊢
  rcases he with rfl | he
  · exact Or.inr ⟨s.send_nxt, hpos, by omega, by omega, (make_datapkt_seq ck s buf).1⟩
  · rcases h2 e he with h | ⟨j, j1, j2, j3, j4⟩
    · exact Or.inl h
    · exact Or.inr ⟨j, j1, by omega, j3, j4⟩

theorem tracked_eof_step (ck : packet_t → Nat → Nat) (now_ms : Int) (s : rel_t)
    (pkt : packet_t) (i : Int) (hpos : 1 ≤ s.send_nxt) (h : Tracked pkt i s) :
    Tracked pkt i (read_eof_step ck now_ms s) := by
  obtain ⟨h1, h2⟩ := h
  refine ⟨by simp only [read_eof_step]; omega, ?_⟩
  intro e he
  simp only [read_eof_step, mem_buffer_insert] at he ⊢
  rcases he with rfl | he
  · exact Or.inr ⟨s.send_nxt, hpos, by omega, by omega, (make_eofpkt_seq ck s).1⟩
  · rcases h2 e he with h | ⟨j, j1, j2, j3, j4⟩
    · exact Or.inl h
    · exact Or.inr ⟨j, j1, by omega, j3, j4⟩

theorem tracked_read_loop (ck : packet_t → Nat → Nat) (now_ms : Int) (pkt : packet_t) (i : Int) :
    ∀ (inputs : List conn_input_result) (s : rel_t), 1 ≤ s.send_nxt → Tracked pkt i s →
      Tracked pkt i (rel_read_loop ck now_ms inputs s).1 := by
  intro inputs
  induction inputs with
  | nil =>
    intro s _ hs
    rcases rel_read_loop_cases ck now_ms [] s with ⟨h, _⟩ | ⟨h, _⟩ | ⟨_, h, _⟩ | ⟨_, _, h, _⟩
    · rw [h]; exact hs
    · rw [h]; exact hs
    · simp at h
    · simp at h
  | cons input inputs ih =>
    intro s hpos hs
    rcases rel_read_loop_cases ck now_ms (input :: inputs) s with
      ⟨h, _⟩ | ⟨h, _⟩ | ⟨_, _, _, h⟩ | ⟨buf, rest, hi, _, _, h⟩
    · rw [h]; exact hs
    · rw [h]; exact hs
    · rw [h]; exact tracked_eof_step ck now_ms s pkt i hpos hs
    · rw [h]
      obtain ⟨_, rfl⟩ := List.cons.inj hi
      exact ih _ (by simp only [read_data_step]; omega)
        (tracked_data_step ck now_ms s buf pkt i hpos hs)

theorem tracked_of_send_inv (pkt : packet_t) (s s1 : rel_t) (e0 : buffer_node_t)
    (hinv : SendInv s) (hpkt : e0.packet = pkt) (hnxt : s1.send_nxt = s.send_nxt + 1)
    (hbuf : ∀ e ∈ s1.send_buffer, e = e0 ∨ e ∈ s.send_buffer) :
    Tracked pkt s.send_nxt s1 := by
  refine ⟨by omega, ?_⟩
  intro e he
  rcases hbuf e he with rfl | he
  · exact Or.inl hpkt
  · obtain ⟨j, j1, j2, j3⟩ := hinv.send_seqs e he
    exact Or.inr ⟨j, j1, by omega, by omega, j3⟩

theorem tracked_origin (ck : packet_t → Nat → Nat) (now_ms : Int) (pkt : packet_t) (len : Nat) :
    ∀ (inputs : List conn_input_result) (s : rel_t), SendInv s → chunks_ok inputs →
      (pkt, len) ∈ sent_packets (rel_read_loop ck now_ms inputs s).2 →
      ∃ i : Int, s.send_nxt ≤ i ∧ ntohl pkt.seqno = to_uint32 i ∧ ntohs pkt.len = len ∧
        Tracked pkt i (rel_read_loop ck now_ms inputs s).1 := by
  intro inputs
  induction inputs with
  | nil =>
    intro s _ _ hsp
    rcases rel_read_loop_cases ck now_ms [] s with ⟨h, _⟩ | ⟨h, _⟩ | ⟨_, h, _⟩ | ⟨_, _, h, _⟩
    · rw [h] at hsp; simp [sent_packets] at hsp
    · rw [h] at hsp; simp [sent_packets] at hsp
    · simp at h
    · simp at h
  | cons input inputs ih =>
    intro s hinv hin hsp
    obtain ⟨hc, hrest⟩ := chunks_ok_cons input inputs hin
    have hpos := hinv.send_nxt_pos
    rcases rel_read_loop_cases ck now_ms (input :: inputs) s with
      ⟨h, _⟩ | ⟨h, _⟩ | ⟨_, _, _, h⟩ | ⟨buf, rest, hi, _, hcond, h⟩
    · rw [h] at hsp; simp [sent_packets] at hsp
    · rw [h] at hsp; simp [sent_packets] at hsp
    · rw [h] at hsp ⊢
      simp only [sent_packets, List.mem_singleton, Prod.mk.injEq] at hsp
      obtain ⟨rfl, rfl⟩ := hsp
      refine ⟨s.send_nxt, le_refl _, (make_eofpkt_seq ck s).1, (make_eofpkt_valid ck s).1, ?_⟩
      apply tracked_of_send_inv _ s _ ⟨make_eofpkt ck s, now_ms⟩ hinv rfl
      · simp only [read_eof_step]
      · intro e he
        simpa only [read_eof_step, mem_buffer_insert] using he
    · rw [h] at hsp ⊢
      obtain ⟨rfl, rfl⟩ := List.cons.inj hi
      simp only [sent_packets, List.mem_cons, Prod.mk.injEq] at hsp
      rcases hsp with ⟨rfl, rfl⟩ | hsp
      · refine ⟨s.send_nxt, le_refl _, (make_datapkt_seq ck s buf).1,
          (make_datapkt_valid ck s buf (by simpa [chunk_ok] using hc)).1, ?_⟩
        apply tracked_read_loop ck now_ms _ _ inputs (read_data_step ck now_ms s buf)
          (by simp only [read_data_step]; omega)
        apply tracked_of_send_inv _ s _ ⟨make_datapkt ck s buf, now_ms⟩ hinv rfl
        · simp only [read_data_step]
        · intro e he
          simpa only [read_data_step, mem_buffer_insert] using he
      · obtain ⟨i, i1, i2, i3, i4⟩ := ih _ (read_data_step_inv ck now_ms s buf hinv hcond)
          hrest hsp
        exact ⟨i, by simp only [read_data_step] at i1; omega, i2, i3, i4⟩

theorem tracked_recvpkt_ack (ck : packet_t → Nat → Nat) (now_ms : Int)
    (inputs : List conn_input_result) (r : rel_t) (packet_ack : Nat) (pkt : packet_t) (i : Int)
    (hpos : 1 ≤ r.send_nxt) (h : Tracked pkt i r)
    (hlive : (rel_recvpkt_ack ck now_ms inputs r packet_ack).destroyed = false) :
    Tracked pkt i (rel_recvpkt_ack ck now_ms inputs r packet_ack).r := by
  obtain ⟨h1, h2⟩ := h
  have hrem : ∀ e ∈ buffer_remove r.send_buffer packet_ack, e.packet = pkt ∨
      ∃ j : Int, 1 ≤ j ∧ j < r.send_nxt ∧ j ≠ i ∧ node_seq e = to_uint32 j :=
    fun e he => h2 e ((mem_buffer_remove _ _ _).mp he).1
  unfold rel_recvpkt_ack at hlive ⊢
  simp only at hlive ⊢
  split
  · rename_i hcond
    rw [if_pos hcond] at hlive
    split
    · rename_i ho
      rw [if_pos ho] at hlive
      simp at hlive
    · exact tracked_read_loop ck now_ms pkt i inputs _ hpos ⟨h1, hrem⟩
  · exact tracked_read_loop ck now_ms pkt i inputs _ hpos ⟨h1, hrem⟩

theorem tracked_recvpkt (ck : packet_t → Nat → Nat) (bufspace : Nat) (now_ms : Int)
    (inputs : List conn_input_result) (r : rel_t) (p : packet_t) (n : Nat) (pkt : packet_t)
    (i : Int) (hpos : 1 ≤ r.send_nxt) (h : Tracked pkt i r)
    (hlive : (rel_recvpkt ck bufspace now_ms inputs r p n).destroyed = false) :
    Tracked pkt i (rel_recvpkt ck bufspace now_ms inputs r p n).r := by
  by_cases hv : valid_packet ck p n
  · rw [rel_recvpkt_of_valid ck bufspace now_ms inputs r p n hv] at hlive ⊢
    split
    · rename_i h8
      rw [if_pos h8] at hlive
      exact tracked_recvpkt_ack ck now_ms inputs r _ pkt i hpos h hlive
    · rename_i h8
      rw [if_neg h8] at hlive
      obtain ⟨f1, _, f3, _⟩ := rel_recvpkt_data_frame ck bufspace now_ms r _ _ hlive
      unfold Tracked
      rw [f1, f3]
      exact h
  · rw [rel_recvpkt_of_invalid ck bufspace now_ms inputs r p n hv]
    exact h

theorem tracked_timer (now_ms : Int) (r : rel_t) (pkt : packet_t) (i : Int)
    (h : Tracked pkt i r) : Tracked pkt i (rel_timer_session now_ms r).1 := by
  obtain ⟨h1, h2⟩ := h
  rw [rel_timer_session_eq]
  refine ⟨h1, ?_⟩
  intro e he
  simp only [List.mem_map] at he
  obtain ⟨e0, he0, rfl⟩ := he
  have hp : (after_timer r.timeout now_ms e0).packet = e0.packet := by
    unfold after_timer
    split <;> rfl
  have hn : node_seq (after_timer r.timeout now_ms e0) = node_seq e0 := by
    unfold node_seq
    rw [hp]
  rw [hp, hn]
  exact h2 e0 he0

theorem call_step_send_inv (ck : packet_t → Nat → Nat) (r : rel_t) (c : Call)
    (hinv : SendInv r) (hlive : (call_step ck r c).destroyed = false) :
    SendInv (call_step ck r c).r := by
  cases c with
  | recvpkt bufspace now_ms inputs p n =>
    exact rel_recvpkt_send_inv ck bufspace now_ms inputs r p n hinv hlive
  | read now_ms inputs => exact rel_read_loop_send_inv ck now_ms inputs r hinv
  | timer now_ms => exact rel_timer_session_send_inv now_ms r hinv

theorem call_step_tracked (ck : packet_t → Nat → Nat) (r : rel_t) (c : Call) (pkt : packet_t)
    (i : Int) (hinv : SendInv r) (h : Tracked pkt i r)
    (hlive : (call_step ck r c).destroyed = false) :
    Tracked pkt i (call_step ck r c).r := by
  cases c with
  | recvpkt bufspace now_ms inputs p n =>
    exact tracked_recvpkt ck bufspace now_ms inputs r p n pkt i hinv.send_nxt_pos h hlive
  | read now_ms inputs => exact tracked_read_loop ck now_ms pkt i inputs r hinv.send_nxt_pos h
  | timer now_ms => exact tracked_timer now_ms r pkt i h

theorem run_calls_cons_eq (ck : packet_t → Nat → Nat) (r : rel_t) (c : Call)
    (calls : List Call) :
    run_calls ck r (c :: calls) =
      if (call_step ck r c).destroyed then call_step ck r c
      else ⟨(run_calls ck (call_step ck r c).r calls).r,
        (run_calls ck (call_step ck r c).r calls).destroyed,
        (call_step ck r c).events ++ (run_calls ck (call_step ck r c).r calls).events⟩ := by
  rw [run_calls]

theorem run_calls_cons (ck : packet_t → Nat → Nat) (r : rel_t) (c : Call) (calls : List Call)
    (hlive : (run_calls ck r (c :: calls)).destroyed = false) :
    (call_step ck r c).destroyed = false ∧
    (run_calls ck r (c :: calls)).r = (run_calls ck (call_step ck r c).r calls).r ∧
    (run_calls ck (call_step ck r c).r calls).destroyed = false := by
  rw [run_calls_cons_eq] at hlive ⊢
  cases hd : (call_step ck r c).destroyed with
  | true =>
    rw [hd] at hlive
    simp only [if_true] at hlive
    rw [hd] at hlive
    exact absurd hlive (by simp)
  | false =>
    rw [hd] at hlive
    simp only [Bool.false_eq_true, if_false] at hlive ⊢
    exact ⟨trivial, trivial, hlive⟩

theorem run_calls_tracked (ck : packet_t → Nat → Nat) (pkt : packet_t) (i : Int) :
    ∀ (calls : List Call) (r : rel_t), SendInv r → Tracked pkt i r →
      (run_calls ck r calls).destroyed = false →
      SendInv (run_calls ck r calls).r ∧ Tracked pkt i (run_calls ck r calls).r := by
  intro calls
  induction calls with
  | nil => intro r hinv h _; exact ⟨hinv, h⟩
  | cons c calls ih =>
    intro r hinv h hlive
    obtain ⟨l1, l2, l3⟩ := run_calls_cons ck r c calls hlive
    rw [l2]
    exact ih _ (call_step_send_inv ck r c hinv l1) (call_step_tracked ck r c pkt i hinv h l1) l3

theorem created_by_read_tracked (ck : packet_t → Nat → Nat) (s : rel_t) (c0 : Call)
    (pkt : packet_t) (len : Nat) (hinv : SendInv s) (h : created_by_read ck s c0 pkt len)
    (hlive : (call_step ck s c0).destroyed = false) :
    ∃ i : Int, 1 ≤ i ∧ ntohl pkt.seqno = to_uint32 i ∧ ntohs pkt.len = len ∧
      Tracked pkt i (call_step ck s c0).r := by
  have hpos := hinv.send_nxt_pos
  cases c0 with
  | read now_ms inputs =>
    obtain ⟨hin, hsp⟩ := h
    obtain ⟨i, i1, i2, i3, i4⟩ := tracked_origin ck now_ms pkt len inputs s hinv hin hsp
    exact ⟨i, by omega, i2, i3, i4⟩
  | timer now_ms => exact h.elim
  | recvpkt bufspace now_ms inputs p n =>
    obtain ⟨hin, hv, h8, hsp⟩ := h
    simp only [call_step] at hlive ⊢
    rw [rel_recvpkt_of_valid ck bufspace now_ms inputs s p n hv, if_pos h8] at hsp hlive ⊢
    obtain ⟨h1, h2, h3⟩ := hinv
    have hrem : ∀ e ∈ buffer_remove s.send_buffer (ntohl p.ackno),
        ∃ j : Int, 1 ≤ j ∧ j < s.send_nxt ∧ node_seq e = to_uint32 j :=
      fun e he => h3 e ((mem_buffer_remove _ _ _).mp he).1
    unfold rel_recvpkt_ack at hsp hlive ⊢
    simp only [rel_read] at hsp hlive ⊢
    split
    · rename_i hcond
      rw [if_pos hcond] at hsp hlive
      split
      · rename_i ho
        rw [if_pos ho] at hlive
        simp at hlive
      · rename_i ho
        rw [if_neg ho] at hsp
        obtain ⟨i, i1, i2, i3, i4⟩ := tracked_origin ck now_ms pkt len inputs
          { s with send_buffer := buffer_remove s.send_buffer (ntohl p.ackno),
                   send_unack := to_int (ntohl p.ackno), eof_self := 1 }
          ⟨h1, h2, hrem⟩ hin hsp
        exact ⟨i, le_trans h1 i1, i2, i3, i4⟩
    · rename_i hcond
      rw [if_neg hcond] at hsp
      obtain ⟨i, i1, i2, i3, i4⟩ := tracked_origin ck now_ms pkt len inputs
        { s with send_buffer := buffer_remove s.send_buffer (ntohl p.ackno),
                 send_unack := to_int (ntohl p.ackno) }
        ⟨h1, h2, hrem⟩ hin hsp
      exact ⟨i, le_trans h1 i1, i2, i3, i4⟩

/-- C12: let `rel_read` (called directly, or by the ACK branch of `rel_recvpkt`),
in a reachable session, create a packet `pkt` and transmit it with the length
`len`, the input source giving at most 500 bytes at a time.  After any further
calls of `rel_recvpkt`, `rel_read` and `rel_timer` that leave the session alive
(and `send_nxt` within the 32 bits of a sequence number), the entry of the send
buffer with the sequence number of `pkt`, if it is still there, holds exactly
`pkt`, and every retransmission of it by `rel_timer` passes to `conn_sendpkt` the
same packet (checksum, length field, acknowledgment number, sequence number and
payload) and the same length `len` as the original call. -/
theorem C12_retransmission_identical (ck : packet_t → Nat → Nat) (s0 : rel_t) (c0 : Call)
    (pkt : packet_t) (len : Nat) (calls : List Call) (now_ms : Int)
    (hs : Reachable ck s0) (horigin : created_by_read ck s0 c0 pkt len)
    (hlive : (run_calls ck s0 (c0 :: calls)).destroyed = false)
    (hrange : (run_calls ck s0 (c0 :: calls)).r.send_nxt ≤ 4294967296) :
    (∀ e ∈ (run_calls ck s0 (c0 :: calls)).r.send_buffer, node_seq e = ntohl pkt.seqno →
      e.packet = pkt ∧ ntohs e.packet.len = len) ∧
    (∀ sp ∈ sent_packets (rel_timer_session now_ms (run_calls ck s0 (c0 :: calls)).r).2,
      ntohl sp.1.seqno = ntohl pkt.seqno → sp = (pkt, len)) ∧
    (∀ e ∈ (run_calls ck s0 (c0 :: calls)).r.send_buffer, node_seq e = ntohl pkt.seqno →
      e.last_retransmit + (run_calls ck s0 (c0 :: calls)).r.timeout < now_ms →
      (pkt, len) ∈ sent_packets (rel_timer_session now_ms (run_calls ck s0 (c0 :: calls)).r).2) := by
  have hinv := reachable_send_inv ck s0 hs
  obtain ⟨l1, l2, l3⟩ := run_calls_cons ck s0 c0 calls hlive
  obtain ⟨i, i1, i2, i3, i4⟩ := created_by_read_tracked ck s0 c0 pkt len hinv horigin l1
  obtain ⟨_, ht⟩ := run_calls_tracked ck pkt i calls _ (call_step_send_inv ck s0 c0 hinv l1) i4 l3
  rw [← l2] at ht
  generalize (run_calls ck s0 (c0 :: calls)).r = r at *
  have key : ∀ e ∈ r.send_buffer, node_seq e = ntohl pkt.seqno →
      e.packet = pkt ∧ ntohs e.packet.len = len := by
    intro e he hseq
    have hp : e.packet = pkt := by
      rcases ht.2 e he with h | ⟨j, j1, j2, j3, j4⟩
      · exact h
      · exfalso
        have hi := ht.1
        rw [i2, j4] at hseq
        unfold to_uint32 at hseq
        omega
    exact ⟨hp, by rw [hp]; exact i3⟩
  have hsent : ∀ sp, sp ∈ sent_packets (rel_timer_session now_ms r).2 ↔
      ∃ e ∈ r.send_buffer, expired r.timeout now_ms e = true ∧
        sp = (e.packet, ntohs e.packet.len) := by
    intro sp
    rw [rel_timer_session_eq]
    simp only
    generalize r.send_buffer = buf
    induction buf with
    | nil => simp [sent_packets]
    | cons e0 rest ih =>
      by_cases hex : expired r.timeout now_ms e0 = true
      · simp only [List.filter_cons, hex, if_true, List.map_cons, retransmission, sent_packets,
          List.mem_cons, exists_eq_or_imp, true_and]
        rw [← ih]
      · have hex2 : expired r.timeout now_ms e0 = false := by
          cases hb : expired r.timeout now_ms e0 with
          | true => exact absurd hb hex
          | false => rfl
        simp only [List.filter_cons, hex2, Bool.false_eq_true, if_false, List.mem_cons,
          exists_eq_or_imp, false_and, false_or]
        exact ih
  refine ⟨key, fun sp hsp hseq => ?_, fun e he hseq hexp => ?_⟩
  · obtain ⟨e, he, _, rfl⟩ := (hsent sp).mp hsp
    obtain ⟨k1, k2⟩ := key e he hseq
    rw [Prod.mk.injEq]
    exact ⟨k1, k2⟩
  · obtain ⟨k1, k2⟩ := key e he hseq
    refine (hsent (pkt, len)).mpr ⟨e, he, by simp [expired, hexp], ?_⟩
    rw [Prod.mk.injEq]
    exact ⟨k1.symm, k2.symm⟩

/-- Witness of C12: the fresh session reads the chunks `[1]` and `[2]`; the packet
2 is followed through a late ACK 1, more input, a timer tick and a DATA packet
of the peer, and the timer at 5000 transmits it again as it was created. -/
theorem C12_retransmission_identical_witness :
    Reachable example_cksum example_session ∧
    created_by_read example_cksum example_session
      (Call.read 0 [conn_input_result.bytes [1], conn_input_result.bytes [2]])
      { cksum := 31, len := 13, ackno := 1, seqno := 2, data := [2] } 13 ∧
    (run_calls example_cksum example_session
      (Call.read 0 [conn_input_result.bytes [1], conn_input_result.bytes [2]] ::
        example_calls)).destroyed = false ∧
    (run_calls example_cksum example_session
      (Call.read 0 [conn_input_result.bytes [1], conn_input_result.bytes [2]] ::
        example_calls)).r.send_nxt ≤ 4294967296 ∧
    ((∀ e ∈ (run_calls example_cksum example_session
          (Call.read 0 [conn_input_result.bytes [1], conn_input_result.bytes [2]] ::
            example_calls)).r.send_buffer,
        node_seq e = ntohl (2 : Nat) →
          e.packet = { cksum := 31, len := 13, ackno := 1, seqno := 2, data := [2] } ∧
            ntohs e.packet.len = 13) ∧
      (∀ sp ∈ sent_packets (rel_timer_session 5000 (run_calls example_cksum example_session
          (Call.read 0 [conn_input_result.bytes [1], conn_input_result.bytes [2]] ::
            example_calls)).r).2,
        ntohl sp.1.seqno = ntohl (2 : Nat) →
          sp = ({ cksum := 31, len := 13, ackno := 1, seqno := 2, data := [2] }, 13)) ∧
      (∀ e ∈ (run_calls example_cksum example_session
          (Call.read 0 [conn_input_result.bytes [1], conn_input_result.bytes [2]] ::
            example_calls)).r.send_buffer,
        node_seq e = ntohl (2 : Nat) →
        e.last_retransmit + (run_calls example_cksum example_session
          (Call.read 0 [conn_input_result.bytes [1], conn_input_result.bytes [2]] ::
            example_calls)).r.timeout < 5000 →
        (({ cksum := 31, len := 13, ackno := 1, seqno := 2, data := [2] } : packet_t), 13) ∈
          sent_packets (rel_timer_session 5000 (run_calls example_cksum example_session
            (Call.read 0 [conn_input_result.bytes [1], conn_input_result.bytes [2]] ::
              example_calls)).r).2)) ∧
    (({ cksum := 31, len := 13, ackno := 1, seqno := 2, data := [2] } : packet_t), 13) ∈
      sent_packets (rel_timer_session 5000 (run_calls example_cksum example_session
        (Call.read 0 [conn_input_result.bytes [1], conn_input_result.bytes [2]] ::
          example_calls)).r).2 :=
  ⟨Reachable.create 0 _ (by decide),
    ⟨by decide, by decide⟩, by decide, by decide,
    C12_retransmission_identical example_cksum example_session
      (Call.read 0 [conn_input_result.bytes [1], conn_input_result.bytes [2]])
      { cksum := 31, len := 13, ackno := 1, seqno := 2, data := [2] } 13 example_calls 5000
      (Reachable.create 0 _ (by decide)) ⟨by decide, by decide⟩ (by decide) (by decide),
    by decide⟩

end Reliable
